import Mathlib

/-!
The medchain admin client (`admin/admin_api.go`): a shallow embedding.

The Go source is a client of an external ledger (cothority byzcoin) and of the
darc / expression / protobuf libraries.  The functions of `admin_api.go` are
translated one by one; the external collaborators appear as an explicit
interface whose operations are arbitrary functions, so that a statement proved
for every interface holds whatever the libraries do.

Go strings are modelled as lists of characters (valid UTF-8 text).
-/

namespace Medchain

/-- Go `string`, as the list of its characters. -/
abbrev GoString := List Char

/-- A Go string literal. -/
def str (s : String) : GoString := s.data

/-! ## Go standard library: `strings` and `unicode` -/

/-- Go `unicode.IsSpace`: the Latin-1 cases of the switch, then the
`White_Space` range table for the remaining code points. -/
def IsSpace (r : Char) : Bool :=
  let n := r.toNat
  if n ≤ 0xFF then
    n == 0x09 || n == 0x0A || n == 0x0B || n == 0x0C || n == 0x0D || n == 0x20
      || n == 0x85 || n == 0xA0
  else
    n == 0x1680 || (0x2000 ≤ n && n ≤ 0x200A) || n == 0x2028 || n == 0x2029
      || n == 0x202F || n == 0x205F || n == 0x3000

/-- Go `strings.TrimSpace`: drop the leading, then the trailing, white space. -/
def TrimSpace (s : GoString) : GoString :=
  (s.dropWhile IsSpace).rdropWhile IsSpace

/-- The scanning loop of `strings.Split` for a one-character separator: `acc`
holds (reversed) the piece being read. -/
def Split.go (sep : Char) : List Char → List Char → List GoString
  | [], acc => [acc.reverse]
  | c :: cs, acc =>
    if c = sep then acc.reverse :: Split.go sep cs [] else Split.go sep cs (c :: acc)

/-- Go `strings.Split(s, sep)` for a separator of one character (the source
only splits on "&" and on ","): all pieces between separators, `[""]` for the
empty string. -/
def Split (s : GoString) (sep : Char) : List GoString :=
  Split.go sep s []

/-- Go `strings.Join(elems, sep)`. -/
def Join : List GoString → GoString → GoString
  | [], _ => []
  | [a], _ => a
  | a :: b :: rest, sep => a ++ sep ++ Join (b :: rest) sep

/-! ## `darc/expression` -/

/-- Go `expression.Expr`: a byte string holding the textual expression. -/
abbrev Expr := GoString

/-- Modelled from the spec: `expression.InitAndExpr` of the cothority library
(not under src/); the rule expression is the identities joined by `" & "`. -/
def InitAndExpr (ids : List GoString) : Expr :=
  Join ids (str " & ")

/-- Modelled from the spec: `expression.InitOrExpr` of the cothority library
(not under src/); the rule expression is the identities joined by `" | "`. -/
def InitOrExpr (ids : List GoString) : Expr :=
  Join ids (str " | ")

/-- Source `createMultisigRuleExpression`: for now everyone needs to sign. -/
def createMultisigRuleExpression (al : List GoString) : Expr :=
  InitAndExpr al

/-- The identity-list parse at the head of `AddAdminToAdminDarc`,
`RemoveAdminFromAdminDarc` and `ModifyAdminKeysFromAdminDarc`:
`slc := strings.Split(string(exp), "&")`, then every `slc[i]` is replaced by
`strings.TrimSpace(slc[i])`. -/
def splitAndTrim (exp : Expr) : List GoString :=
  (Split exp '&').map TrimSpace

/-- A string has no leading and no trailing white space: neither its first
nor its last character, if any, is a space in the sense of `IsSpace`. -/
def NoOuterSpace (s : GoString) : Bool :=
  s.head?.all (fun c => !IsSpace c) && s.getLast?.all (fun c => !IsSpace c)

/-! ## Errors -/

/-- Outcome of a failing Go call: a returned `error` value (the chain of
`xerrors` messages, outermost first) or a run-time panic. -/
inductive Error where
  | err (chain : List String)
  | panic (what : String)
deriving DecidableEq, Repr

/-- Go `xerrors.Errorf(msg + ": %w", e)`: wraps a returned error; a panic is not
a value and passes through unchanged. -/
def Errorf (msg : String) : Error → Error
  | .err chain => .err (msg :: chain)
  | .panic what => .panic what

/-- Go `errors.New(msg)` and `xerrors.Errorf(msg)` without an inner error. -/
def errorsNew (msg : String) : Error := .err [msg]

/-! ## Data of the darc and byzcoin libraries -/

/-- Go `[]byte`. -/
abbrev Bytes := List Nat

/-- Go `darc.Identity`, identified with its printable form `String()`. -/
structure Identity where
  text : GoString
deriving DecidableEq, Repr

/-- Go `Identity.String()`. -/
def Identity.String (i : Identity) : GoString := i.text

/-- Go `darc.Signer`: a key pair; `Identity()` is its public part. -/
structure Signer where
  Identity : Identity
  Secret : Bytes
deriving DecidableEq, Repr

/-- Go `darc.Rule`: one action with the expression guarding it. -/
structure Rule where
  Action : GoString
  Expr : Expr
deriving DecidableEq, Repr

/-- Go `darc.Rules`: the list of rules of a darc. -/
abbrev Rules := List Rule

/-- Go `darc.Darc` (the fields this client reads or writes). -/
structure Darc where
  Version : Nat
  Description : GoString
  BaseID : Bytes
  PrevID : Bytes
  Rules : Rules
deriving DecidableEq, Repr

/-- Go map `map[string]string`. -/
abbrev StringMap := Finmap (fun _ : GoString => GoString)

/-- Modelled from the spec: the `AccessRight` struct, declared outside src/; its
one field is the grants map from querier id to the access string.  The map of
a decoded value is taken to be an allocated map. -/
structure AccessRight where
  AccessRightsMap : StringMap
deriving DecidableEq

/-- Go `byzcoin.Argument`. -/
structure Argument (β : Type) where
  Name : GoString
  Value : β

/-- Go `byzcoin.Spawn`. -/
structure Spawn (β : Type) where
  ContractID : GoString
  Args : List (Argument β)

/-- Go `byzcoin.Invoke`. -/
structure Invoke (β : Type) where
  ContractID : GoString
  Command : GoString
  Args : List (Argument β)

/-- Go `byzcoin.InstanceID` (`[32]byte`). -/
abbrev InstanceID := Bytes

/-- Go `byzcoin.Instruction` over a type `β` of argument values. -/
structure InstructionOf (β : Type) where
  InstanceID : InstanceID
  Spawn : Option (Spawn β) := none
  Invoke : Option (Invoke β) := none
  SignerCounter : List Nat := []
  SignerIdentities : List Identity := []
  Signatures : List β := []

/-- Contents of a Go `[]byte` buffer.  Serialisation (protobuf, `ToProto`,
signatures) is not computed: a buffer is kept as the value it encodes, and
decoders read that value back. -/
inductive Buf where
  | bytes (bs : Bytes)
  | darc (d : Darc)
  | accessRight (ar : AccessRight)
  | identity (i : Identity)
  | signature (signer : Identity) (msg : Bytes)
  | tx (instrs : List (InstructionOf Buf))

/-- Go `byzcoin.Instruction`. -/
abbrev Instruction := InstructionOf Buf

/-- Go `byzcoin.ClientTransaction`. -/
structure ClientTransaction where
  Instructions : List Instruction

/-- Go `byzcoin.DeferredData` (the fields this client reads). -/
structure DeferredData where
  ProposedTransaction : ClientTransaction
  ExpireBlockIndex : Nat
  InstructionHashes : List Bytes
  MaxNumExecution : Nat

/-- Go `byzcoin.Proof` as returned inside `GetProofResponse`: `Get(key)` yields
the stored value or an error. -/
structure Proof where
  Get : Bytes → Except Error Buf

/-! ## The external collaborators -/

/-- The ledger client (`byzcoin.Client`, `bcadmin/lib`) and the darc, protobuf
and signing libraries, none of which is under src/.  `σ` is the state of the
remote ledger.  Every operation is an arbitrary function: where the result of
a successful call is determined by its arguments only the failure is left
open (`...Err` returns the error, if any). -/
structure Ext (σ : Type) where
  /-- Go `bcl.GetGenDarc()` -/
  GetGenDarc : σ → Except Error Darc
  /-- Go `lib.GetDarcByID(bcl, id)` -/
  GetDarcByID : σ → Bytes → Except Error Darc
  /-- Go `bcl.CreateTransaction(instrs...)` fails with this error, if any; otherwise
  it returns the transaction made of the instructions. -/
  CreateTransactionErr : σ → List Instruction → Option Error
  /-- Go `bcl.AddTransactionAndWait(ctx, wait)`: the verdict of the ledger and its
  state afterwards. -/
  AddTransactionAndWait : σ → ClientTransaction → Nat → Except Error Unit × σ
  /-- Go `bcl.GetDeferredData(instID)` -/
  GetDeferredData : σ → InstanceID → Except Error DeferredData
  /-- Go `bcl.ResolveInstanceID(darcID, name)` -/
  ResolveInstanceID : σ → Bytes → GoString → Except Error InstanceID
  /-- Go `bcl.GetProof(key)` -/
  GetProof : σ → Bytes → Except Error Proof
  /-- Go `ctx.FillSignersAndSignWith(signer)` on one instruction of the
  transaction whose instructions are the first argument: the instruction with
  the signer identity and the signature filled in. -/
  SignInstruction : List Instruction → Signer → Instruction → Except Error Instruction
  /-- Go `instr.DeriveID(what)` -/
  DeriveID : Instruction → GoString → InstanceID
  /-- Go `signer.Sign(msg)` -/
  Sign : Signer → Bytes → Except Error Buf
  /-- Go `darc.GetID()`: the digest of a darc. -/
  GetID : Darc → Bytes
  /-- Go `newdarc.EvolveFrom(olddarc)` fails with this error, if any. -/
  EvolveFromErr : Darc → Darc → Option Error
  /-- Go `darc.MakeEvolveRequest(signer)` fails with this error, if any. -/
  MakeEvolveRequestErr : Darc → Signer → Option Error
  /-- Go `darc.ToProto()` fails with this error, if any. -/
  ToProtoErr : Darc → Option Error
  /-- Go `protobuf.Encode(p)` fails with this error, if any; the first argument is
  the number of pointer indirections of `p` to the encoded struct. -/
  EncodeErr : Nat → Buf → Option Error
  /-- Go `byzcoin.NamingInstanceID` -/
  NamingInstanceID : InstanceID
  /-- The constant `ContractValueID` of package admin, declared outside src/. -/
  ContractValueID : GoString
  /-- The order in which `range adminActions` visits the entries of the map
  (Go leaves it unspecified). -/
  rangeAdminActions : List (GoString × Nat)

/-- A call of the client to the ledger that builds or submits a transaction. -/
inductive Event where
  | created (instr : Instruction)
  | submitted (ctx : ClientTransaction)

/-- The world outside the client: the ledger and the record of the transactions
built (`CreateTransaction`) and submitted (`AddTransactionAndWait`) so far. -/
structure World (σ : Type) where
  ledger : σ
  log : List Event

/-- Source `Client`; the field `bcl` is the handle on the `World`. -/
structure Client where
  adminkeys : Signer
  genDarc : Darc
  signerCounter : Nat
deriving DecidableEq

/-- Source `adminActions`: the index into `newAdminExpr` for every governed
action (0 the AND expression, 1 the OR expression). -/
def adminActions : List (GoString × Nat) :=
  [(str "invoke:darc.evolve", 0),
   (str "spawn:deferred", 1),
   (str "invoke:deferred.addProof", 1),
   (str "invoke:deferred.execProposedTx", 1),
   (str "spawn:darc", 0)]

/-- Source `Client.AuthKey`. -/
def AuthKey (cl : Client) : Signer := cl.adminkeys

/-- Source `Client.incrementSignerCounter`: `cl.signerCounter++` on a `uint64`. -/
def incrementSignerCounter (cl : Client) : Client :=
  { cl with signerCounter := (cl.signerCounter + 1) % 2 ^ 64 }

/-- Source `Client.updateSignerCounter`. -/
def updateSignerCounter (cl : Client) (sc : Nat) : Client :=
  { cl with signerCounter := sc }

/-- The loop of source `IndexOf`, at position `k`. -/
def IndexOf.loop (rule : GoString) : List GoString → Nat → Int
  | [], _ => -1
  | v :: rest, k => if rule = v then (k : Int) else IndexOf.loop rule rest (k + 1)

/-- Source `IndexOf`. -/
def IndexOf (rule : GoString) (rules : List GoString) : Int :=
  IndexOf.loop rule rules 0

/-- Go `bcl.CreateTransaction(instr)`, recorded in the log. -/
def CreateTransaction {σ : Type} (E : Ext σ) (instr : Instruction) (w : World σ) :
    Except Error ClientTransaction × World σ :=
  let w1 : World σ := { w with log := w.log ++ [Event.created instr] }
  match E.CreateTransactionErr w.ledger [instr] with
  | some e => (.error e, w1)
  | none => (.ok ⟨[instr]⟩, w1)

/-- Go `bcl.AddTransactionAndWait(ctx, wait)`, recorded in the log. -/
def AddTransactionAndWait {σ : Type} (E : Ext σ) (ctx : ClientTransaction) (wait : Nat)
    (w : World σ) : Except Error Unit × World σ :=
  let r := E.AddTransactionAndWait w.ledger ctx wait
  (r.1, { ledger := r.2, log := w.log ++ [Event.submitted ctx] })

/-- The loop of `SignWith` over the instructions: each is signed in turn, the
first failure is returned. -/
def signEach (f : Instruction → Except Error Instruction) :
    List Instruction → Except Error (List Instruction)
  | [] => .ok []
  | i :: rest =>
    match f i with
    | .error e => .error e
    | .ok si =>
      match signEach f rest with
      | .error e => .error e
      | .ok signed => .ok (si :: signed)

/-- Go `ctx.FillSignersAndSignWith(signer)`: the instructions are signed one
after the other, the first failure is returned. -/
def FillSignersAndSignWith {σ : Type} (E : Ext σ) (ctx : ClientTransaction) (signer : Signer) :
    Except Error ClientTransaction :=
  match signEach (E.SignInstruction ctx.Instructions signer) ctx.Instructions with
  | .error e => .error e
  | .ok instrs => .ok ⟨instrs⟩

/-- Source `Client.spawnTransaction`.  `FillSignersAndSignWith` signs the
instructions in place, in the slice shared with the caller, so the signed
transaction is returned along with the outcome. -/
def spawnTransaction {σ : Type} (E : Ext σ) (ctx : ClientTransaction) (cl : Client)
    (w : World σ) : Except Error ClientTransaction × Client × World σ :=
  match FillSignersAndSignWith E ctx cl.adminkeys with
  | .error e => (.error (Errorf "Signing" e), cl, w)
  | .ok sctx =>
    match AddTransactionAndWait E sctx 10 w with
    | (.error e, w1) => (.error (Errorf "Adding transaction to the ledger" e), cl, w1)
    | (.ok _, w1) => (.ok sctx, incrementSignerCounter cl, w1)

/-! ## darc rules and library helpers -/

/-- Library constant: the action name of the evolution rule (the source names
it in "Updating the _evolve expression"). -/
def evolve : GoString := str "_evolve"

/-- Library constant: the action name of the signing rule. -/
def sign : GoString := str "_sign"

/-- Go `Rules.Contains`: some rule has this action. -/
def Rules.Contains (rs : Rules) (a : GoString) : Bool :=
  rs.any (fun r => decide (r.Action = a))

/-- Go `Rules.Get`: the expression of the first rule with this action, the
empty expression when there is none. -/
def Rules.Get : Rules → GoString → Expr
  | [], _ => []
  | r :: rest, a => if r.Action = a then r.Expr else Rules.Get rest a

/-- Go `Rules.GetEvolutionExpr`. -/
def Rules.GetEvolutionExpr (rs : Rules) : Expr :=
  Rules.Get rs evolve

/-- Modelled from the spec: `Rules.updateRule` of the darc library (not under
src/); `rules` maps an action name to its expression, and an update replaces
the expression of an action that exists. -/
def Rules.updateRule (rs : Rules) (a : GoString) (expr : Expr) : Except Error Rules :=
  if Rules.Contains rs a then
    .ok (rs.map (fun r => if r.Action = a then { r with Expr := expr } else r))
  else .error (errorsNew "action does not exist")

/-- Modelled from the spec: `Rules.UpdateRule` of the darc library (not under
src/); the evolution and signing rules cannot be updated through it. -/
def Rules.UpdateRule (rs : Rules) (a : GoString) (expr : Expr) : Except Error Rules :=
  if a = evolve ∨ a = sign then .error (errorsNew "cannot update action")
  else Rules.updateRule rs a expr

/-- Go `Rules.UpdateEvolution`. -/
def Rules.UpdateEvolution (rs : Rules) (expr : Expr) : Except Error Rules :=
  Rules.updateRule rs evolve expr

/-- Go `Rules.UpdateSign`. -/
def Rules.UpdateSign (rs : Rules) (expr : Expr) : Except Error Rules :=
  Rules.updateRule rs sign expr

/-- Modelled from the spec: `Rules.AddRule` of the darc library (not under
src/); a new action is appended, an action that exists is refused. -/
def Rules.AddRule (rs : Rules) (a : GoString) (expr : Expr) : Except Error Rules :=
  if Rules.Contains rs a then .error (errorsNew "action already exists")
  else .ok (rs ++ [{ Action := a, Expr := expr }])

/-- Go `Darc.GetBaseID`: the digest of the darc at version 0, the stored base
id afterwards. -/
def GetBaseID {σ : Type} (E : Ext σ) (d : Darc) : Bytes :=
  if d.Version = 0 then E.GetID d else d.BaseID

/-- Modelled from the spec: `Darc.EvolveFrom` of the darc library (not under
src/); every evolution produces `version+1` with the same `baseID`. -/
def EvolveFrom {σ : Type} (E : Ext σ) (d prev : Darc) : Except Error Darc :=
  match E.EvolveFromErr d prev with
  | some e => .error e
  | none =>
    .ok { d with Version := prev.Version + 1, PrevID := E.GetID prev, BaseID := GetBaseID E prev }

/-- Go `Darc.ToProto`: the serialised darc. -/
def ToProto {σ : Type} (E : Ext σ) (d : Darc) : Except Error Buf :=
  match E.ToProtoErr d with
  | some e => .error e
  | none => .ok (Buf.darc d)

/-- Go `Darc.MakeEvolveRequest`, second result: the serialised new darc. -/
def MakeEvolveRequest {σ : Type} (E : Ext σ) (d : Darc) (signer : Signer) : Except Error Buf :=
  match E.MakeEvolveRequestErr d signer with
  | some e => .error e
  | none => .ok (Buf.darc d)

/-- Go `protobuf.Encode(p)` of a value reached from `p` through `depth`
pointers; the buffer is kept as the value it encodes. -/
def Encode {σ : Type} (E : Ext σ) (depth : Nat) (v : Buf) : Except Error Buf :=
  match E.EncodeErr depth v with
  | some e => .error e
  | none => .ok v

/-- Go `protobuf.Decode(buf, &ar)` into a zero `AccessRight`.  The decoder
allocates the map when it decodes the first entry: a buffer without entries (the
encoding of a map without entries has no bytes) leaves `AccessRightsMap` nil.
A decoded `AccessRight` whose map has no entry therefore stands for the one
with the nil map. -/
def DecodeAccessRight : Buf → Except Error AccessRight
  | .accessRight ar => .ok ar
  | _ => .error (errorsNew "protobuf: cannot decode into AccessRight")

/-- The map of a decoded `AccessRight` is nil: it is nil exactly when it has no
entry, see `DecodeAccessRight`. -/
def isNilMap (m : StringMap) : Bool :=
  decide (m = ∅)

/-- Go `m[k] = v` on the map of a decoded `AccessRight`: an assignment to an
entry of the nil map is a run-time panic. -/
def assignEntry (m : StringMap) (k v : GoString) : Except Error StringMap :=
  if isNilMap m then .error (.panic "assignment to entry in nil map")
  else .ok (m.insert k v)

/-- Go `byzcoin.NewInstanceID(in)`: the first 32 bytes, zero padded. -/
def NewInstanceID (b : Bytes) : InstanceID :=
  (b ++ List.replicate 32 0).take 32

/-- Go `binary.LittleEndian.PutUint64` into a fresh 8-byte buffer. -/
def PutUint64 (v : Nat) : Bytes :=
  (List.range 8).map (fun i => v / 256 ^ i % 256)

/-- Go `binary.LittleEndian.PutUint32` into a fresh 4-byte buffer. -/
def PutUint32 (v : Nat) : Bytes :=
  (List.range 4).map (fun i => v / 256 ^ i % 256)

/-- Go conversion `[]byte(s)`: the UTF-8 bytes of a string. -/
def bytesOf (s : GoString) : Bytes :=
  s.flatMap (fun c => (String.utf8EncodeChar c).map UInt8.toNat)

/-- Library constant `byzcoin.ContractDarcID`. -/
def ContractDarcID : GoString := str "darc"

/-- Library constant `byzcoin.ContractDeferredID`. -/
def ContractDeferredID : GoString := str "deferred"

/-- Library constant `byzcoin.ContractNamingID`. -/
def ContractNamingID : GoString := str "naming"

/-! ## The admin client: admin darc evolution -/

/-- The `range adminActions` loop of source `updateAdminRules`, over the
entries in the order of the iteration. -/
def updateAdminRules.loop (newAdminExpr : List Expr) : List (GoString × Nat) → Rules →
    Except Error Rules
  | [], rs => .ok rs
  | (k, v) :: rest, rs =>
    match newAdminExpr[v]? with
    | none => .error (.panic "index out of range")
    | some ex =>
      match Rules.UpdateRule rs k ex with
      | .error e =>
        .error (Errorf ("Updating the " ++ String.mk k ++ " expression in admin darc") e)
      | .ok rs1 => updateAdminRules.loop newAdminExpr rest rs1

/-- Source `Client.updateAdminRules`; the darc with the updated rules is
returned (the Go code updates it through the pointer). -/
def updateAdminRules {σ : Type} (E : Ext σ) (evolvedAdminDarc : Darc)
    (newAdminExpr : List Expr) : Except Error Darc :=
  match newAdminExpr[0]? with
  | none => .error (.panic "index out of range")
  | some e0 =>
    match Rules.UpdateEvolution evolvedAdminDarc.Rules e0 with
    | .error e => .error (Errorf "Updating the _evolve expression in admin darc" e)
    | .ok rs1 =>
      match Rules.UpdateSign rs1 e0 with
      | .error e => .error (Errorf "Updating the _sign expression in admin darc" e)
      | .ok rs2 =>
        match updateAdminRules.loop newAdminExpr E.rangeAdminActions rs2 with
        | .error e => .error e
        | .ok rs3 => .ok { evolvedAdminDarc with Rules := rs3 }

/-- Source `Client.evolveAdminDarc`. -/
def evolveAdminDarc {σ : Type} (E : Ext σ) (slc : List GoString) (olddarc : Darc)
    (cl : Client) (w : World σ) : Except Error ClientTransaction × World σ :=
  let newdarc := olddarc
  let newAdminExpr := [createMultisigRuleExpression slc, InitOrExpr slc]
  match updateAdminRules E newdarc newAdminExpr with
  | .error e => (.error (Errorf "Updating admin rules" e), w)
  | .ok newdarc1 =>
    match EvolveFrom E newdarc1 olddarc with
    | .error e => (.error (Errorf "Evolving the admin darc" e), w)
    | .ok newdarc2 =>
      match MakeEvolveRequest E newdarc2 (AuthKey cl) with
      | .error e => (.error (Errorf "Creating the evolution request" e), w)
      | .ok darc2Buf =>
        match CreateTransaction E
            { InstanceID := NewInstanceID (GetBaseID E olddarc),
              Invoke := some { ContractID := ContractDarcID, Command := str "evolve",
                               Args := [{ Name := str "darc", Value := darc2Buf }] } } w with
        | (.error e, w1) => (.error (Errorf "Creating the transaction" e), w1)
        | (.ok proposedTransaction, w1) => (.ok proposedTransaction, w1)

/-- Go `ctx.Instructions[0]`. -/
def firstInstruction (ctx : ClientTransaction) : Except Error Instruction :=
  match ctx.Instructions with
  | [] => .error (.panic "index out of range")
  | instr :: _ => .ok instr

/-- Source `Client.spawnDeferredInstance`. -/
def spawnDeferredInstance {σ : Type} (E : Ext σ) (proposedTransactionBuf : Buf) (adid : Bytes)
    (cl : Client) (w : World σ) : Except Error InstanceID × Client × World σ :=
  let expireBlockIndexInt := 6000
  let expireBlockIndexBuf := PutUint64 expireBlockIndexInt
  match CreateTransaction E
      { InstanceID := NewInstanceID adid,
        Spawn := some { ContractID := ContractDeferredID,
                        Args := [{ Name := str "proposedTransaction",
                                   Value := proposedTransactionBuf },
                                 { Name := str "expireBlockIndex",
                                   Value := Buf.bytes expireBlockIndexBuf }] },
        SignerCounter := [cl.signerCounter] } w with
  | (.error e, w1) => (.error (Errorf "Creating the deffered transaction" e), cl, w1)
  | (.ok ctx, w1) =>
    match spawnTransaction E ctx cl w1 with
    | (.error e, cl2, w2) => (.error (Errorf "Adding transaction to the ledger" e), cl2, w2)
    | (.ok sctx, cl2, w2) =>
      match firstInstruction sctx with
      | .error e => (.error e, cl2, w2)
      | .ok instr => (.ok (E.DeriveID instr []), cl2, w2)

/-- Source `Client.addDeferredTransaction`. -/
def addDeferredTransaction {σ : Type} (E : Ext σ) (tx : ClientTransaction) (adid : Bytes)
    (cl : Client) (w : World σ) : Except Error InstanceID × Client × World σ :=
  match Encode E 1 (Buf.tx tx.Instructions) with
  | .error e => (.error (Errorf "Marshalling the transaction" e), cl, w)
  | .ok txBuf =>
    match spawnDeferredInstance E txBuf adid cl w with
    | (.error e, cl1, w1) => (.error (Errorf "Creating the deffered transaction" e), cl1, w1)
    | (.ok ctxID, cl1, w1) => (.ok ctxID, cl1, w1)

/-- Source `Client.AddAdminToAdminDarc`. -/
def AddAdminToAdminDarc {σ : Type} (E : Ext σ) (adid : Bytes) (newAdmin : Identity)
    (cl : Client) (w : World σ) : Except Error InstanceID × Client × World σ :=
  match E.GetDarcByID w.ledger adid with
  | .error e => (.error (Errorf "Getting the admin darc from chain" e), cl, w)
  | .ok adminDarc =>
    let exp := Rules.GetEvolutionExpr adminDarc.Rules
    let slc := splitAndTrim exp
    let slc := slc ++ [newAdmin.String]
    match evolveAdminDarc E slc adminDarc cl w with
    | (.error e, w1) => (.error (Errorf "Evolving the admin darc" e), cl, w1)
    | (.ok proposedTransaction, w1) => addDeferredTransaction E proposedTransaction adid cl w1

/-- Source `Client.RemoveAdminFromAdminDarc`. -/
def RemoveAdminFromAdminDarc {σ : Type} (E : Ext σ) (adid : Bytes) (adminId : Identity)
    (cl : Client) (w : World σ) : Except Error InstanceID × Client × World σ :=
  match E.GetDarcByID w.ledger adid with
  | .error e => (.error (Errorf "Getting the admin darc from chain" e), cl, w)
  | .ok adminDarc =>
    let exp := Rules.GetEvolutionExpr adminDarc.Rules
    let slc := splitAndTrim exp
    let idx := IndexOf adminId.String slc
    if idx = -1 then
      (.error (errorsNew "The adminID doesn't exist in the admin darc"), cl, w)
    else
      let slc := slc.take idx.toNat ++ slc.drop (idx.toNat + 1)
      match evolveAdminDarc E slc adminDarc cl w with
      | (.error e, w1) => (.error (Errorf "Evolving the admin darc" e), cl, w1)
      | (.ok proposedTransaction, w1) => addDeferredTransaction E proposedTransaction adid cl w1

/-- Source `Client.ModifyAdminKeysFromAdminDarc`. -/
def ModifyAdminKeysFromAdminDarc {σ : Type} (E : Ext σ) (adid : Bytes) (oldkey newkey : Identity)
    (cl : Client) (w : World σ) : Except Error InstanceID × Client × World σ :=
  match E.GetDarcByID w.ledger adid with
  | .error e => (.error (Errorf "Getting the admin darc from chain" e), cl, w)
  | .ok adminDarc =>
    let exp := Rules.GetEvolutionExpr adminDarc.Rules
    let slc := splitAndTrim exp
    let idx := IndexOf oldkey.String slc
    if idx = -1 then
      (.error (errorsNew "The adminID doesn't exist in the admin darc"), cl, w)
    else
      let slc := slc.set idx.toNat newkey.String
      match evolveAdminDarc E slc adminDarc cl w with
      | (.error e, w1) => (.error (Errorf "Evolving the admin darc" e), cl, w1)
      | (.ok proposedTransaction, w1) => addDeferredTransaction E proposedTransaction adid cl w1

/-! ## The admin client: deferred transactions -/

/-- Go `rootHash[0]`. -/
def firstHash (hashes : List Bytes) : Except Error Bytes :=
  match hashes with
  | [] => .error (.panic "index out of range")
  | h :: _ => .ok h

/-- Source `Client.AddSignatureToDefferedTx`. -/
def AddSignatureToDefferedTx {σ : Type} (E : Ext σ) (instID : InstanceID) (cl : Client)
    (w : World σ) : Except Error Unit × Client × World σ :=
  match E.GetDeferredData w.ledger instID with
  | .error e => (.error (Errorf "Getting the deffered instance from chain" e), cl, w)
  | .ok result =>
    let rootHash := result.InstructionHashes
    let identity := (AuthKey cl).Identity
    match Encode E 1 (Buf.identity identity) with
    | .error e => (.error (Errorf "Encoding the identity of signer" e), cl, w)
    | .ok identityBuf =>
      match firstHash rootHash with
      | .error e => (.error e, cl, w)
      | .ok h0 =>
        match E.Sign (AuthKey cl) h0 with
        | .error e => (.error (Errorf "Signing the deffered transaction" e), cl, w)
        | .ok signature =>
          let index := 0
          let indexBuf := PutUint32 index
          match CreateTransaction E
              { InstanceID := instID,
                Invoke := some { ContractID := ContractDeferredID, Command := str "addProof",
                                 Args := [{ Name := str "identity", Value := identityBuf },
                                          { Name := str "signature", Value := signature },
                                          { Name := str "index", Value := Buf.bytes indexBuf }] },
                SignerCounter := [cl.signerCounter] } w with
          | (.error e, w1) => (.error (Errorf "Creating the transaction" e), cl, w1)
          | (.ok ctx, w1) =>
            match spawnTransaction E ctx cl w1 with
            | (.error e, cl2, w2) => (.error e, cl2, w2)
            | (.ok _, cl2, w2) => (.ok (), cl2, w2)

/-- Source `Client.ExecDefferedTx`. -/
def ExecDefferedTx {σ : Type} (E : Ext σ) (instID : InstanceID) (cl : Client)
    (w : World σ) : Except Error Unit × Client × World σ :=
  match CreateTransaction E
      { InstanceID := instID,
        Invoke := some { ContractID := ContractDeferredID, Command := str "execProposedTx",
                         Args := [] },
        SignerCounter := [cl.signerCounter] } w with
  | (.error e, w1) => (.error (Errorf "Creating the transaction" e), cl, w1)
  | (.ok ctx, w1) =>
    match spawnTransaction E ctx cl w1 with
    | (.error e, cl2, w2) => (.error e, cl2, w2)
    | (.ok _, cl2, w2) => (.ok (), cl2, w2)

/-! ## The admin client: the access-right registry -/

/-- Source `Client.createAccessRight`. -/
def createAccessRight {σ : Type} (E : Ext σ) (adid pdarc : Bytes) (cl : Client)
    (w : World σ) : Except Error Unit × Client × World σ :=
  let emptyAccess : AccessRight := { AccessRightsMap := ∅ }
  let emptyAccess : AccessRight :=
    { AccessRightsMap := emptyAccess.AccessRightsMap.insert (str "init") (str "init") }
  match Encode E 1 (Buf.accessRight emptyAccess) with
  | .error e => (.error (Errorf "Encoding the access right struct" e), cl, w)
  | .ok buf =>
    match CreateTransaction E
        { InstanceID := NewInstanceID pdarc,
          Spawn := some { ContractID := str "value",
                          Args := [{ Name := str "value", Value := buf }] },
          SignerCounter := [cl.signerCounter] } w with
    | (.error e, w1) => (.error (Errorf "Creating the transaction" e), cl, w1)
    | (.ok ctx, w1) =>
      match spawnTransaction E ctx cl w1 with
      | (.error e, cl2, w2) => (.error (Errorf "Adding transaction to the ledger" e), cl2, w2)
      | (.ok sctx, cl2, w2) =>
        match firstInstruction sctx with
        | .error e => (.error e, cl2, w2)
        | .ok instr =>
          let instID := E.DeriveID instr []
          match CreateTransaction E
              { InstanceID := E.NamingInstanceID,
                Invoke := some { ContractID := ContractNamingID, Command := str "add",
                                 Args := [{ Name := str "instanceID", Value := Buf.bytes instID },
                                          { Name := str "name",
                                            Value := Buf.bytes (bytesOf (str "AR")) }] },
                SignerCounter := [cl2.signerCounter] } w2 with
          | (.error e, w3) => (.error (Errorf "Creating the transaction" e), cl2, w3)
          | (.ok ctx2, w3) =>
            match spawnTransaction E ctx2 cl2 w3 with
            | (.error e, cl4, w4) => (.error e, cl4, w4)
            | (.ok _, cl4, w4) => (.ok (), cl4, w4)

/-- Source `Client.GetAccessRightFromProjectDarcID`. -/
def GetAccessRightFromProjectDarcID {σ : Type} (E : Ext σ) (pdid : Bytes) (w : World σ) :
    Except Error (AccessRight × InstanceID) :=
  match E.ResolveInstanceID w.ledger pdid (str "AR") with
  | .error e => .error (Errorf "Resolving the instance id of access right instance" e)
  | .ok arid =>
    match E.GetProof w.ledger arid with
    | .error e => .error (Errorf "Resolving the proof of the access right instance" e)
    | .ok pr =>
      match pr.Get arid with
      | .error e => .error (Errorf "Getting the proof of access right" e)
      | .ok v0 =>
        match DecodeAccessRight v0 with
        | .error e => .error (Errorf "Encoding" e)
        | .ok ar => .ok (ar, arid)

/-- Source `Client.updateValue`. -/
def updateValue {σ : Type} (E : Ext σ) (v : Buf) (vcid : InstanceID) (cl : Client)
    (w : World σ) : Except Error Unit × Client × World σ :=
  match CreateTransaction E
      { InstanceID := vcid,
        Invoke := some { ContractID := E.ContractValueID, Command := str "update",
                         Args := [{ Name := str "value", Value := v }] },
        SignerCounter := [cl.signerCounter] } w with
  | (.error e, w1) => (.error (Errorf "Creating the transaction" e), cl, w1)
  | (.ok ctx, w1) =>
    match spawnTransaction E ctx cl w1 with
    | (.error e, cl2, w2) => (.error e, cl2, w2)
    | (.ok _, cl2, w2) => (.ok (), cl2, w2)

/-- Source `Client.AddQuerierToProject`.  The lookup `ar.AccessRightsMap[qid]`
reads the map, also a nil one; the assignment `ar.AccessRightsMap[qid] = access`
panics on the nil map a registry without entries decodes to. -/
def AddQuerierToProject {σ : Type} (E : Ext σ) (pdid : Bytes) (qid access : GoString)
    (cl : Client) (w : World σ) : Except Error Unit × Client × World σ :=
  match GetAccessRightFromProjectDarcID E pdid w with
  | .error e => (.error (Errorf "Getting the access rights from project darc" e), cl, w)
  | .ok (ar, arid) =>
    if qid ∈ ar.AccessRightsMap then
      (.error (.err ["The querier already exist in the access rights ", "%!w(<nil>)"]), cl, w)
    else
      match assignEntry ar.AccessRightsMap qid access with
      | .error e => (.error e, cl, w)
      | .ok m =>
        let ar : AccessRight := { AccessRightsMap := m }
        match Encode E 1 (Buf.accessRight ar) with
        | .error e => (.error (Errorf "Encoding the access right struct" e), cl, w)
        | .ok buf =>
          match updateValue E buf arid cl w with
          | (.error e, cl1, w1) => (.error (Errorf "Updating the access right" e), cl1, w1)
          | (.ok _, cl1, w1) => (.ok (), cl1, w1)

/-- Source `Client.RemoveQuerierFromProject`. -/
def RemoveQuerierFromProject {σ : Type} (E : Ext σ) (pdid : Bytes) (qid : GoString)
    (cl : Client) (w : World σ) : Except Error Unit × Client × World σ :=
  match GetAccessRightFromProjectDarcID E pdid w with
  | .error e => (.error (Errorf "Getting the access rights from project darc" e), cl, w)
  | .ok (ar, arid) =>
    let ar : AccessRight := { AccessRightsMap := ar.AccessRightsMap.erase qid }
    match Encode E 1 (Buf.accessRight ar) with
    | .error e => (.error (Errorf "Encoding the access right struct" e), cl, w)
    | .ok buf =>
      match updateValue E buf arid cl w with
      | (.error e, cl1, w1) => (.error (Errorf "Updating the access right" e), cl1, w1)
      | (.ok _, cl1, w1) => (.ok (), cl1, w1)

/-- Source `Client.ModifyQuerierAccessRightsForProject`; the argument of
`protobuf.Encode` is `&ar`, a pointer to the pointer the sibling functions
pass. -/
def ModifyQuerierAccessRightsForProject {σ : Type} (E : Ext σ) (pdid : Bytes)
    (qid access : GoString) (cl : Client) (w : World σ) :
    Except Error Unit × Client × World σ :=
  match GetAccessRightFromProjectDarcID E pdid w with
  | .error e => (.error (Errorf "Getting the access rights from project darc" e), cl, w)
  | .ok (ar, arid) =>
    if ¬ qid ∈ ar.AccessRightsMap then
      (.error (.err ["The querier doesn't exist in the access rights  ", "%!w(<nil>)"]), cl, w)
    else
      match assignEntry ar.AccessRightsMap qid access with
      | .error e => (.error e, cl, w)
      | .ok m =>
        let ar : AccessRight := { AccessRightsMap := m }
        match Encode E 2 (Buf.accessRight ar) with
        | .error e => (.error (Errorf "Encoding the access right struct" e), cl, w)
        | .ok buf =>
          match updateValue E buf arid cl w with
          | (.error e, cl1, w1) => (.error (Errorf "Updating the access right" e), cl1, w1)
          | (.ok _, cl1, w1) => (.ok (), cl1, w1)

/-! ## A reference ledger

The ledger itself (consensus, contracts) is an external collaborator.  The
spec fixes what the client may rely on; the definitions below are that
contract as a state machine over single-instruction transactions, and an
instance of `Ext` built on it. -/

/-- Modelled from the spec: a DeferredTransactionProposal, stored by the ledger
(not under src/): the proposed `instructions`, the `expiryHeight`, the
identities whose signatures were collected for the instruction at index 0 (at
most one entry per identity), whether it was executed, and the darc under
which it was spawned. -/
structure Proposal where
  instructions : List Instruction
  expiryHeight : Nat
  darc : InstanceID
  collected : List Identity
  executed : Bool

/-- Modelled from the spec: the committed state of the ledger (not under
src/): the block height, the current version of every policy document, the
deferred proposals, the stored values with the darc governing each, the name
bindings, and the last replay counter committed for every identity. -/
structure Ledger where
  genesis : Darc
  height : Nat
  darcs : List (InstanceID × Darc)
  proposals : List (InstanceID × Proposal)
  values : List (InstanceID × (InstanceID × Buf))
  names : List ((InstanceID × Bytes) × InstanceID)
  counters : List (GoString × Nat)

/-- The pieces of a flat expression: split on the operator, trim each piece. -/
def leaves (sep : Char) (e : Expr) : List GoString :=
  (Split e sep).map TrimSpace

/-- Modelled from the spec: evaluation of a PolicyExpression by the ledger (not
under src/): a pure AND needs every listed identity among the signers, a pure
OR needs one of them; mixed-operator expressions are not produced and are not
satisfied. -/
def Satisfies (signers : List GoString) (e : Expr) : Bool :=
  if '|' ∈ e then
    if '&' ∈ e then false else (leaves '|' e).any (fun a => decide (a ∈ signers))
  else (leaves '&' e).all (fun a => decide (a ∈ signers))

/-- The value of the argument called `name`. -/
def argValue : List (Argument Buf) → GoString → Option Buf
  | [], _ => none
  | a :: rest, name => if a.Name = name then some a.Value else argValue rest name

/-- Digest of a darc in the reference ledger. -/
def Ledger.darcID (d : Darc) : Bytes :=
  NewInstanceID (bytesOf d.Description ++ PutUint64 d.Version)

/-- The base id of a darc in the reference ledger, as `Darc.GetBaseID`. -/
def Ledger.baseID (d : Darc) : Bytes :=
  if d.Version = 0 then Ledger.darcID d else d.BaseID

/-- Instance id derived from a spawning instruction in the reference ledger:
determined by the spawning signer and its replay counter. -/
def Ledger.deriveID (instr : Instruction) (what : GoString) : InstanceID :=
  (instr.SignerIdentities.flatMap (fun i => bytesOf i.text)) ++ instr.SignerCounter ++ bytesOf what

/-- Digest of the instructions of a transaction in the reference ledger. -/
def Ledger.txDigest (instrs : List Instruction) : Bytes :=
  instrs.flatMap (fun i => i.InstanceID ++ i.SignerCounter)

/-- Modelled from the spec: `signatureRootHashes` of a proposal (ledger, not
under src/): the hash a signer signs for the instruction at `index`. -/
def Ledger.instructionHash (pid : InstanceID) (index : Nat) : Bytes :=
  pid ++ PutUint32 index

/-- The replay counter value the ledger expects next from an identity. -/
def Ledger.expected (s : Ledger) (id : GoString) : Nat :=
  match s.counters.lookup id with
  | some c => c + 1
  | none => 1

/-- Modelled from the spec: the ledger validates a signer set against the rule
of the governed action in the current version of the document (not under
src/). -/
def Ledger.authorised (s : Ledger) (dk : InstanceID) (action : GoString)
    (signers : List Identity) : Bool :=
  match s.darcs.lookup dk with
  | none => false
  | some d =>
    Rules.Contains d.Rules action &&
      Satisfies (signers.map Identity.String) (Rules.Get d.Rules action)

/-- Decoding of a little-endian unsigned integer. -/
def leDecode : Bytes → Nat
  | [] => 0
  | b :: rest => b + 256 * leDecode rest


/-- Modelled from the spec: the effect of an instruction that is not about a
deferred proposal, authorised by the signer set `signers` (ledger, not under
src/): spawning a document or a value, evolving a document (version+1, same
baseID, acceptable only if the signers satisfy the current evolve rule),
updating a value, and binding a name to an instance under its darc. -/
def Ledger.applyPlain (s : Ledger) (instr : Instruction) (signers : List Identity) :
    Except Error Ledger :=
  match instr.Spawn, instr.Invoke with
  | some sp, none =>
    if ! s.authorised instr.InstanceID ((str "spawn:") ++ sp.ContractID) signers then
      .error (errorsNew "AuthorizationError")
    else if sp.ContractID = ContractDarcID then
      match argValue sp.Args (str "darc") with
      | some (.darc nd) =>
        .ok { s with darcs := (NewInstanceID (Ledger.baseID nd), nd) :: s.darcs }
      | _ => .error (errorsNew "EncodingError")
    else if sp.ContractID = (str "value") then
      match argValue sp.Args (str "value") with
      | some v =>
        .ok { s with values := (Ledger.deriveID instr [], (instr.InstanceID, v)) :: s.values }
      | none => .error (errorsNew "EncodingError")
    else .error (errorsNew "ValidationError")
  | none, some iv =>
    if iv.ContractID = ContractDarcID ∧ iv.Command = (str "evolve") then
      match s.darcs.lookup instr.InstanceID, argValue iv.Args (str "darc") with
      | some d, some (.darc nd) =>
        if ! s.authorised instr.InstanceID (str "invoke:darc.evolve") signers then
          .error (errorsNew "AuthorizationError")
        else if nd.Version = d.Version + 1 ∧ nd.BaseID = Ledger.baseID d then
          .ok { s with darcs := (instr.InstanceID, nd) :: s.darcs }
        else .error (errorsNew "ValidationError")
      | _, _ => .error (errorsNew "NotFoundError")
    else if iv.ContractID = (str "value") ∧ iv.Command = (str "update") then
      match s.values.lookup instr.InstanceID, argValue iv.Args (str "value") with
      | some (dk, _), some v =>
        if ! s.authorised dk (str "invoke:value.update") signers then
          .error (errorsNew "AuthorizationError")
        else .ok { s with values := (instr.InstanceID, (dk, v)) :: s.values }
      | _, _ => .error (errorsNew "NotFoundError")
    else if iv.ContractID = ContractNamingID ∧ iv.Command = (str "add") then
      match argValue iv.Args (str "instanceID"), argValue iv.Args (str "name") with
      | some (.bytes iid), some (.bytes nm) =>
        match s.values.lookup iid with
        | some (dk, _) =>
          if ! s.authorised dk (str "_name:value") signers then
            .error (errorsNew "AuthorizationError")
          else .ok { s with names := ((dk, nm), iid) :: s.names }
        | none => .error (errorsNew "NotFoundError")
      | _, _ => .error (errorsNew "EncodingError")
    else .error (errorsNew "ValidationError")
  | _, _ => .error (errorsNew "ValidationError")

/-- Modelled from the spec: `propose` (ledger, not under src/): the proposal is
stored under the id derived from the spawning instruction, with no signature
collected. -/
def Ledger.spawnDeferred (s : Ledger) (instr : Instruction) (sp : Spawn Buf)
    (signers : List Identity) : Except Error Ledger :=
  if ! s.authorised instr.InstanceID (str "spawn:deferred") signers then
    .error (errorsNew "AuthorizationError")
  else
    match argValue sp.Args (str "proposedTransaction"),
      argValue sp.Args (str "expireBlockIndex") with
    | some (.tx instrs), some (.bytes expiry) =>
      .ok { s with proposals :=
              (Ledger.deriveID instr [],
                { instructions := instrs, expiryHeight := leDecode expiry,
                  darc := instr.InstanceID, collected := [], executed := false }) :: s.proposals }
    | _, _ => .error (errorsNew "EncodingError")

/-- Modelled from the spec: `addSignature` (ledger, not under src/): the
signature must be the identity's signature over the hash of the instruction at
the given index; it is recorded once per identity, so that submitting twice
does not count as two votes; unknown proposals and proposals past their
expiry are refused. -/
def Ledger.addProof (s : Ledger) (instr : Instruction) (iv : Invoke Buf)
    (signers : List Identity) : Except Error Ledger :=
  match s.proposals.lookup instr.InstanceID with
  | none => .error (errorsNew "NotFoundError")
  | some p =>
    if ! s.authorised p.darc (str "invoke:deferred.addProof") signers then
      .error (errorsNew "AuthorizationError")
    else if p.expiryHeight < s.height then .error (errorsNew "ExpiryError")
    else
      match argValue iv.Args (str "identity"), argValue iv.Args (str "signature"),
        argValue iv.Args (str "index") with
      | some (.identity id), some (.signature sid msg), some (.bytes index) =>
        if leDecode index < p.instructions.length ∧ leDecode index = 0 ∧ sid = id ∧
            msg = Ledger.instructionHash instr.InstanceID (leDecode index) then
          .ok { s with proposals :=
                  (instr.InstanceID,
                    { p with collected :=
                        if id ∈ p.collected then p.collected else p.collected ++ [id] })
                    :: s.proposals }
        else .error (errorsNew "ValidationError")
      | _, _, _ => .error (errorsNew "EncodingError")

/-- Modelled from the spec: `execute` (ledger, not under src/): it succeeds
exactly once; a second attempt fails with AlreadyExecutedError, an attempt
past the expiry with ExpiryError, and the accumulated signer set must satisfy
the policy expression of the governed action, else AuthorizationError. -/
def Ledger.execProposedTx (s : Ledger) (instr : Instruction) (signers : List Identity) :
    Except Error Ledger :=
  match s.proposals.lookup instr.InstanceID with
  | none => .error (errorsNew "NotFoundError")
  | some p =>
    if ! s.authorised p.darc (str "invoke:deferred.execProposedTx") signers then
      .error (errorsNew "AuthorizationError")
    else if p.executed then .error (errorsNew "AlreadyExecutedError")
    else if p.expiryHeight < s.height then .error (errorsNew "ExpiryError")
    else
      match p.instructions with
      | [proposed] =>
        match Ledger.applyPlain s proposed p.collected with
        | .error e => .error e
        | .ok s1 =>
          .ok { s1 with proposals := (instr.InstanceID, { p with executed := true }) :: s1.proposals }
      | _ => .error (errorsNew "ValidationError")

/-- Dispatch of an instruction to the deferred contract or to the others. -/
def Ledger.step (s : Ledger) (instr : Instruction) (signers : List Identity) :
    Except Error Ledger :=
  match instr.Spawn, instr.Invoke with
  | some sp, none =>
    if sp.ContractID = ContractDeferredID then Ledger.spawnDeferred s instr sp signers
    else Ledger.applyPlain s instr signers
  | none, some iv =>
    if iv.ContractID = ContractDeferredID then
      if iv.Command = (str "addProof") then Ledger.addProof s instr iv signers
      else if iv.Command = (str "execProposedTx") then Ledger.execProposedTx s instr signers
      else .error (errorsNew "ValidationError")
    else Ledger.applyPlain s instr signers
  | _, _ => .error (errorsNew "ValidationError")

/-- Modelled from the spec: commit of a transaction (ledger, not under src/): a
transaction signed with a counter value not equal to the expected next value
for its identity is rejected with ReplayError; the counter advances only when
the transaction commits. -/
def Ledger.applyTx (s : Ledger) (ctx : ClientTransaction) : Except Error Ledger :=
  match ctx.Instructions with
  | [instr] =>
    match instr.SignerIdentities, instr.SignerCounter, instr.Signatures with
    | [id], [c], [Buf.signature sid msg] =>
      if sid = id ∧ msg = Ledger.txDigest [{ instr with Signatures := [] }] then
        if c = s.expected id.text then
          match Ledger.step s instr [id] with
          | .error e => .error e
          | .ok s1 => .ok { s1 with counters := (id.text, c) :: s1.counters }
        else .error (errorsNew "ReplayError")
      else .error (errorsNew "invalid signature")
    | _, _, _ => .error (errorsNew "ValidationError")
  | _ => .error (errorsNew "ValidationError")

/-- The panic of the signing library on a signer whose private key is nil. -/
def nilKeyPanic : Error := .panic "invalid memory address or nil pointer dereference"

/-- The error `protobuf.Encode` returns for an argument that is not a pointer to
a struct, such as a pointer to a pointer; the text of the library is not
modelled. -/
def notAStructPointer : Error := errorsNew "protobuf: not a pointer to a struct"

/-- The instance of the external collaborators over the reference ledger: the
encoder accepts a pointer to a struct and refuses a pointer to a pointer, a
signer signs unless its secret is nil, in which case the library panics, the
ledger commits what `Ledger.applyTx` accepts, and `range adminActions` takes the
entries in the order of the table. -/
def ledgerExt : Ext Ledger where
  GetGenDarc := fun s => .ok s.genesis
  GetDarcByID := fun s id =>
    match s.darcs.lookup (NewInstanceID id) with
    | some d => .ok d
    | none => .error (errorsNew "NotFoundError")
  CreateTransactionErr := fun _ _ => none
  AddTransactionAndWait := fun s ctx _ =>
    match Ledger.applyTx s ctx with
    | .ok s1 => (.ok (), s1)
    | .error e => (.error e, s)
  GetDeferredData := fun s instID =>
    match s.proposals.lookup instID with
    | some p =>
      .ok { ProposedTransaction := ⟨p.instructions⟩, ExpireBlockIndex := p.expiryHeight,
            InstructionHashes :=
              (List.range p.instructions.length).map (Ledger.instructionHash instID),
            MaxNumExecution := if p.executed then 0 else 1 }
    | none => .error (errorsNew "NotFoundError")
  ResolveInstanceID := fun s darcID name =>
    match s.names.lookup (NewInstanceID darcID, bytesOf name) with
    | some iid => .ok iid
    | none => .error (errorsNew "NotFoundError")
  GetProof := fun s key =>
    .ok { Get := fun k =>
            match s.values.lookup k with
            | some (_, v) => if k = key then .ok v else .error (errorsNew "NotFoundError")
            | none => .error (errorsNew "NotFoundError") }
  SignInstruction := fun instrs signer instr =>
    if signer.Secret = [] then .error nilKeyPanic
    else if instr.SignerCounter.length ≠ 1 then
      .error (errorsNew "the number of signers does not match the number of counters")
    else
      .ok { instr with
              SignerIdentities := [signer.Identity],
              Signatures := [Buf.signature signer.Identity
                (Ledger.txDigest (instrs.map (fun i =>
                  { i with SignerIdentities := [signer.Identity], Signatures := [] })))] }
  DeriveID := Ledger.deriveID
  Sign := fun signer msg =>
    if signer.Secret = [] then .error nilKeyPanic
    else .ok (Buf.signature signer.Identity msg)
  GetID := Ledger.darcID
  EvolveFromErr := fun _ _ => none
  MakeEvolveRequestErr := fun _ _ => none
  ToProtoErr := fun _ => none
  EncodeErr := fun depth _ => if depth = 1 then none else some notAStructPointer
  NamingInstanceID := 1 :: List.replicate 31 0
  ContractValueID := str "value"
  rangeAdminActions := adminActions


/-! ## A sample deployment, used to exhibit concrete runs -/

/-- First sample administrator. -/
def adminA : Signer := { Identity := ⟨(str "ed25519:A")⟩, Secret := [1] }

/-- Second sample administrator. -/
def adminB : Signer := { Identity := ⟨(str "ed25519:B")⟩, Secret := [2] }

/-- A signer whose private key is nil: signing with it panics. -/
def keyless : Signer := { Identity := ⟨(str "ed25519:A")⟩, Secret := [] }

/-- The rules of an admin darc whose administrators are `L`, as
`updateAdminRules` sets them. -/
def adminRulesFor (L : List GoString) : Rules :=
  [ { Action := evolve, Expr := InitAndExpr L },
    { Action := sign, Expr := InitAndExpr L },
    { Action := str "invoke:darc.evolve", Expr := InitAndExpr L },
    { Action := str "spawn:deferred", Expr := InitOrExpr L },
    { Action := str "invoke:deferred.addProof", Expr := InitOrExpr L },
    { Action := str "invoke:deferred.execProposedTx", Expr := InitOrExpr L },
    { Action := str "spawn:darc", Expr := InitAndExpr L } ]

/-- A sample admin darc with the two administrators A and B. -/
def sampleAdminDarc : Darc :=
  { Version := 0, Description := str "Admin darc guards medchain project darcs",
    BaseID := [], PrevID := [],
    Rules := adminRulesFor [(str "ed25519:A"), (str "ed25519:B")] }

/-- A sample project darc, with the rules `createProjectDarc` adds. -/
def sampleProjectDarc : Darc :=
  { Version := 0, Description := str "Project A", BaseID := [], PrevID := [],
    Rules :=
      [ { Action := evolve, Expr := str "ed25519:A" },
        { Action := sign, Expr := str "ed25519:A" },
        { Action := str "_name:value", Expr := str "ed25519:A" },
        { Action := str "spawn:value", Expr := str "ed25519:A" },
        { Action := str "invoke:value.update", Expr := str "ed25519:A" } ] }

/-- The instance id of the sample registry. -/
def sampleRegistryID : InstanceID := [7, 7]

/-- A sample registry: the querier "1:1" next to the initial entry. -/
def sampleRegistry : AccessRight :=
  { AccessRightsMap :=
      (Finmap.insert (str "1:1") (str "count_global")
        (Finmap.insert (str "init") (str "init") ∅)) }

/-- A sample ledger state: the admin darc, a project darc and its registry
bound under the name "AR". -/
def sampleLedger : Ledger :=
  { genesis := sampleAdminDarc, height := 10,
    darcs := [ (NewInstanceID (Ledger.baseID sampleAdminDarc), sampleAdminDarc),
               (NewInstanceID (Ledger.baseID sampleProjectDarc), sampleProjectDarc) ],
    proposals := [],
    values := [ (sampleRegistryID,
                 (NewInstanceID (Ledger.baseID sampleProjectDarc),
                  Buf.accessRight sampleRegistry)) ],
    names := [ ((NewInstanceID (Ledger.baseID sampleProjectDarc), bytesOf (str "AR")),
                sampleRegistryID) ],
    counters := [] }

/-- The sample world: the sample ledger, nothing built or submitted yet. -/
def sampleWorld : World Ledger := { ledger := sampleLedger, log := [] }

/-- The client of administrator A, as `NewClientWithAuth` creates it. -/
def clientA : Client := { adminkeys := adminA, genDarc := sampleAdminDarc, signerCounter := 1 }

/-- The client of administrator B. -/
def clientB : Client := { adminkeys := adminB, genDarc := sampleAdminDarc, signerCounter := 1 }


/-- A sample transaction: a deferred proposal with an empty proposed
transaction spawned under the sample admin darc, carrying the replay counter
`c`. -/
def sampleTx (c : Nat) : ClientTransaction :=
  ⟨[{ InstanceID := NewInstanceID (Ledger.baseID sampleAdminDarc),
      Spawn := some { ContractID := ContractDeferredID,
                      Args := [{ Name := str "proposedTransaction", Value := Buf.tx [] },
                               { Name := str "expireBlockIndex",
                                 Value := Buf.bytes (PutUint64 6000) }] },
      SignerCounter := [c] }]⟩


/-- The instruction `updateValue` builds: an `update` of the value instance
`vcid` to `v`, carrying the replay counter `c`. -/
def valueUpdate {σ : Type} (E : Ext σ) (vcid : InstanceID) (v : Buf) (c : Nat) : Instruction :=
  { InstanceID := vcid,
    Invoke := some { ContractID := E.ContractValueID, Command := str "update",
                     Args := [{ Name := str "value", Value := v }] },
    SignerCounter := [c] }


/-- The common tail of the three registry operations: encode the new
`AccessRight` (reached through `depth` pointers) and pass the buffer to
`updateValue`. -/
def encodeAndUpdate {σ : Type} (E : Ext σ) (depth : Nat) (ar : AccessRight) (arid : InstanceID)
    (cl : Client) (w : World σ) : Except Error Unit × Client × World σ :=
  match Encode E depth (Buf.accessRight ar) with
  | .error e => (.error (Errorf "Encoding the access right struct" e), cl, w)
  | .ok buf =>
    match updateValue E buf arid cl w with
    | (.error e, cl1, w1) => (.error (Errorf "Updating the access right" e), cl1, w1)
    | (.ok _, cl1, w1) => (.ok (), cl1, w1)

/-- What a registry operation that reaches its update has done to the world,
for the new registry value `ar`: every transaction it built or submitted is the
update of the registry instance to `ar`; when it returns no error that update
was signed, submitted and accepted; and it returns no error whenever the
encoder, `CreateTransaction`, the signer and the ledger all accept. -/
def SubmitsRegistry {σ : Type} (E : Ext σ) (depth : Nat) (ar : AccessRight) (arid : InstanceID)
    (cl : Client) (w : World σ) (r : Except Error Unit × Client × World σ) : Prop :=
  (r.2.2.log = w.log ∨
    r.2.2.log =
      w.log ++ [Event.created (valueUpdate E arid (Buf.accessRight ar) cl.signerCounter)] ∨
    ∃ si, E.SignInstruction [valueUpdate E arid (Buf.accessRight ar) cl.signerCounter]
        cl.adminkeys (valueUpdate E arid (Buf.accessRight ar) cl.signerCounter) = .ok si ∧
      r.2.2.log =
        w.log ++ [Event.created (valueUpdate E arid (Buf.accessRight ar) cl.signerCounter),
                  Event.submitted ⟨[si]⟩]) ∧
  (r.1 = .ok () →
    ∃ si, E.SignInstruction [valueUpdate E arid (Buf.accessRight ar) cl.signerCounter]
        cl.adminkeys (valueUpdate E arid (Buf.accessRight ar) cl.signerCounter) = .ok si ∧
      (E.AddTransactionAndWait w.ledger ⟨[si]⟩ 10).1 = .ok () ∧
      r.2.2.log =
        w.log ++ [Event.created (valueUpdate E arid (Buf.accessRight ar) cl.signerCounter),
                  Event.submitted ⟨[si]⟩]) ∧
  (E.EncodeErr depth (Buf.accessRight ar) = none →
    E.CreateTransactionErr w.ledger
      [valueUpdate E arid (Buf.accessRight ar) cl.signerCounter] = none →
    ∀ si, E.SignInstruction [valueUpdate E arid (Buf.accessRight ar) cl.signerCounter]
        cl.adminkeys (valueUpdate E arid (Buf.accessRight ar) cl.signerCounter) = .ok si →
      (E.AddTransactionAndWait w.ledger ⟨[si]⟩ 10).1 = .ok () → r.1 = .ok ())


/-- The registry value `createAccessRight` spawns: the map holding the one
entry "init" -> "init". -/
def initialAccessRight : AccessRight :=
  { AccessRightsMap := (∅ : StringMap).insert (str "init") (str "init") }

/-- The first instruction `createAccessRight` builds: the spawn of a value
holding `initialAccessRight` under the project darc. -/
def registrySpawn (pdarc : Bytes) (c : Nat) : Instruction :=
  { InstanceID := NewInstanceID pdarc,
    Spawn := some { ContractID := str "value",
                    Args := [{ Name := str "value", Value := Buf.accessRight initialAccessRight }] },
    SignerCounter := [c] }

/-- The second instruction `createAccessRight` builds: the naming instruction
that binds the instance `instID` under the name "AR". -/
def registryNaming {σ : Type} (E : Ext σ) (instID : InstanceID) (c : Nat) : Instruction :=
  { InstanceID := E.NamingInstanceID,
    Invoke := some { ContractID := ContractNamingID, Command := str "add",
                     Args := [{ Name := str "instanceID", Value := Buf.bytes instID },
                              { Name := str "name", Value := Buf.bytes (bytesOf (str "AR")) }] },
    SignerCounter := [c] }

/-- A sample ledger with a freshly created project: the project darc exists,
no registry has been spawned or named yet. -/
def freshLedger : Ledger :=
  { sampleLedger with values := [], names := [] }

/-- The world of the freshly created project. -/
def freshWorld : World Ledger := { ledger := freshLedger, log := [] }


/-! ## The unanimity scenario on the reference ledger -/

/-- The list `L` can be the administrators of an admin darc: it is not empty,
has no repetition, and its identity strings contain neither operator and no
outer white space. -/
def ValidIdentities (L : List GoString) : Prop :=
  L ≠ [] ∧ L.Nodup ∧ ∀ a ∈ L, '&' ∉ a ∧ '|' ∉ a ∧ NoOuterSpace a = true

/-- The instruction of an admin-set change, as `evolveAdminDarc` builds it: the
evolution of the darc stored under `adk` to the darc `nd`. -/
def evolveInstruction (adk : InstanceID) (nd : Darc) : Instruction :=
  { InstanceID := adk,
    Invoke := some { ContractID := ContractDarcID, Command := str "evolve",
                     Args := [{ Name := str "darc", Value := Buf.darc nd }] } }

/-- The darc `d` is an admin darc over the administrators `L`: its evolve rule
is the AND of `L`, and adding a proof to a deferred transaction and executing
it are guarded by the OR of `L`, as `updateAdminRules` sets them. -/
def GuardedBy (d : Darc) (L : List GoString) : Prop :=
  (Rules.Contains d.Rules (str "invoke:darc.evolve") = true ∧
    Rules.Get d.Rules (str "invoke:darc.evolve") = InitAndExpr L) ∧
  (Rules.Contains d.Rules (str "invoke:deferred.addProof") = true ∧
    Rules.Get d.Rules (str "invoke:deferred.addProof") = InitOrExpr L) ∧
  (Rules.Contains d.Rules (str "invoke:deferred.execProposedTx") = true ∧
    Rules.Get d.Rules (str "invoke:deferred.execProposedTx") = InitOrExpr L)

/-- On the ledger `s`, `pid` is a freshly proposed admin-set change to the admin
darc over `L`: the proposal holds one evolve instruction for the darc it was
spawned under, no signature is collected, it is neither executed nor expired,
and the proposed darc is the next version of the current one. -/
def PendingAdminChange (s : Ledger) (pid : InstanceID) (L : List GoString) : Prop :=
  ∃ (p : Proposal) (d nd : Darc),
    s.proposals.lookup pid = some p ∧
    p.instructions = [evolveInstruction p.darc nd] ∧
    p.collected = [] ∧ p.executed = false ∧ ¬ p.expiryHeight < s.height ∧
    s.darcs.lookup p.darc = some d ∧ GuardedBy d L ∧
    nd.Version = d.Version + 1 ∧ nd.BaseID = Ledger.baseID d

/-- The client `c` belongs to one of the administrators `L`, can sign, and
holds the replay counter the ledger `s` expects next from its identity. -/
def IsAdminClient (s : Ledger) (L : List GoString) (c : Client) : Prop :=
  c.adminkeys.Identity.text ∈ L ∧ c.adminkeys.Secret ≠ [] ∧
    c.signerCounter = s.expected c.adminkeys.Identity.text

/-- The world after the clients `cls` have called `AddSignatureToDefferedTx` on
the proposal, one after the other. -/
def collectSignatures {σ : Type} (E : Ext σ) (pid : InstanceID) : List Client → World σ → World σ
  | [], w => w
  | c :: rest, w => collectSignatures E pid rest (AddSignatureToDefferedTx E pid c w).2.2

/-- Every call of `AddSignatureToDefferedTx` in that sequence returned no
error. -/
def signaturesAdded {σ : Type} (E : Ext σ) (pid : InstanceID) : List Client → World σ → Prop
  | [], _ => True
  | c :: rest, w =>
    (AddSignatureToDefferedTx E pid c w).1 = .ok () ∧
      signaturesAdded E pid rest (AddSignatureToDefferedTx E pid c w).2.2

/-- The instruction as `ledgerExt.SignInstruction` signs it for `signer`. -/
def signedBy (signer : Signer) (instr : Instruction) : Instruction :=
  { instr with
      SignerIdentities := [signer.Identity],
      Signatures := [Buf.signature signer.Identity
        (Ledger.txDigest [{ instr with SignerIdentities := [signer.Identity], Signatures := [] }])] }

/-- The instruction `AddSignatureToDefferedTx` builds for the client `c` on the
reference ledger. -/
def addProofInstruction (pid : InstanceID) (c : Client) : Instruction :=
  { InstanceID := pid,
    Invoke := some { ContractID := ContractDeferredID, Command := str "addProof",
                     Args := [{ Name := str "identity",
                                Value := Buf.identity c.adminkeys.Identity },
                              { Name := str "signature",
                                Value := Buf.signature c.adminkeys.Identity
                                  (Ledger.instructionHash pid 0) },
                              { Name := str "index", Value := Buf.bytes (PutUint32 0) }] },
    SignerCounter := [c.signerCounter] }

/-- The instruction `ExecDefferedTx` builds for the client `c`. -/
def execInstruction (pid : InstanceID) (c : Client) : Instruction :=
  { InstanceID := pid,
    Invoke := some { ContractID := ContractDeferredID, Command := str "execProposedTx",
                     Args := [] },
    SignerCounter := [c.signerCounter] }

/-- The collected signer list after the identity `id` added its proof. -/
def addSigner (collected : List Identity) (id : Identity) : List Identity :=
  if id ∈ collected then collected else collected ++ [id]


/-- The sample world after client A has proposed to add the administrator
"ed25519:C" to the sample admin darc. -/
def proposedWorld : World Ledger :=
  (AddAdminToAdminDarc ledgerExt (Ledger.baseID sampleAdminDarc) ⟨str "ed25519:C"⟩ clientA
    sampleWorld).2.2

/-- The instance id of that proposal. -/
def proposalID : InstanceID := bytesOf (str "ed25519:A") ++ [1]

/-- Client A after `k - 1` committed transactions. -/
def clientAAt (k : Nat) : Client := { clientA with signerCounter := k }


/-! ## The admin client: creation of clients and of the admin darc -/

/-- Source `NewClient`.  `bcl` is `none` for a nil ledger client; `fresh` is the
key pair `darc.NewSignerEd25519(nil, nil)` generates.  The result is
`.error e` when the Go function returns `(nil, e)`. -/
def NewClient {σ : Type} (E : Ext σ) (bcl : Option (World σ)) (fresh : Signer) :
    Except Error Client :=
  match bcl with
  | none => .error (errorsNew "A Byzcoin Client is required")
  | some w =>
    let cl : Client :=
      { adminkeys := fresh, genDarc := ⟨0, [], [], [], []⟩, signerCounter := 1 }
    match E.GetGenDarc w.ledger with
    | .ok genDarc => .ok { cl with genDarc := genDarc }
    | .error e => .error (Errorf "getting genesis darc from chain" e)

/-- Source `NewClientWithAuth`.  `keys` is `none` for a nil pointer.  The
assignment `cl.adminkeys = *keys` comes before `err` is looked at: when
`NewClient` has returned `(nil, err)` it dereferences the nil client. -/
def NewClientWithAuth {σ : Type} (E : Ext σ) (bcl : Option (World σ)) (keys : Option Signer)
    (fresh : Signer) : Except Error Client :=
  match keys with
  | none => .error (errorsNew "Keys are required")
  | some k =>
    match NewClient E bcl fresh with
    | .error _ => .error (.panic "invalid memory address or nil pointer dereference")
    | .ok cl => .ok { cl with adminkeys := k }

/-- Go `darc.InitRules(owners, signers)` of the darc library: the rule "_evolve"
over the owners, joined with AND, and the rule "_sign" over the signers, joined
with OR. -/
def InitRules (owners signers : List Identity) : Rules :=
  [ { Action := evolve, Expr := InitAndExpr (owners.map Identity.String) },
    { Action := sign, Expr := InitOrExpr (signers.map Identity.String) } ]

/-- Go `darc.NewDarc(rules, desc)`: a darc at version 0. -/
def NewDarc (rules : Rules) (desc : GoString) : Darc :=
  { Version := 0, Description := desc, BaseID := [], PrevID := [], Rules := rules }

/-- The loop of source `AddRuleToDarc` over the actions: the rules as far as
they were added, and the error that stopped the loop, if any. -/
def AddRuleToDarc.loop (expr : Expr) : List GoString → Rules → Rules × Option Error
  | [], rs => (rs, none)
  | a :: rest, rs =>
    match Rules.AddRule rs a expr with
    | .error e => (rs, some e)
    | .ok rs1 => AddRuleToDarc.loop expr rest rs1

/-- Source `AddRuleToDarc`: the darc as the Go code leaves it behind the
pointer, and the returned error, if any. -/
def AddRuleToDarc (userDarc : Darc) (action : GoString) (expr : Expr) : Darc × Option Error :=
  let actions := Split action ','
  let r := AddRuleToDarc.loop expr actions userDarc.Rules
  ({ userDarc with Rules := r.1 }, r.2)

/-- Source `Client.createAdminDarc`: the darc and the error, if any. -/
def createAdminDarc (cl : Client) : Darc × Option Error :=
  let description := str "Admin darc guards medchain project darcs"
  let rules := InitRules [cl.adminkeys.Identity] [cl.adminkeys.Identity]
  let adminDarc := NewDarc rules description
  let adminDarcActions :=
    str "invoke:darc.evolve,spawn:deferred,invoke:deferred.addProof,invoke:deferred.execProposedTx,spawn:darc"
  let adminDarcExpr := createMultisigRuleExpression [cl.adminkeys.Identity.String]
  AddRuleToDarc adminDarc adminDarcActions adminDarcExpr

/-- Source `Client.SpawnNewAdminDarc`. -/
def SpawnNewAdminDarc {σ : Type} (E : Ext σ) (cl : Client) (w : World σ) :
    Except Error Darc × Client × World σ :=
  match createAdminDarc cl with
  | (_, some e) => (.error (Errorf "Creating the admin darc" e), cl, w)
  | (adminDarc, none) =>
    match ToProto E adminDarc with
    | .error e => (.error (Errorf "Marshalling" e), cl, w)
    | .ok buf =>
      match CreateTransaction E
          { InstanceID := NewInstanceID (GetBaseID E cl.genDarc),
            Spawn := some { ContractID := ContractDarcID,
                            Args := [{ Name := str "darc", Value := buf }] },
            SignerCounter := [cl.signerCounter] } w with
      | (.error e, w1) => (.error (Errorf "Creating the deffered transaction" e), cl, w1)
      | (.ok ctx, w1) =>
        match spawnTransaction E ctx cl w1 with
        | (.error e, cl2, w2) => (.error (Errorf "Adding transaction to the ledger" e), cl2, w2)
        | (.ok _, cl2, w2) => (.ok adminDarc, cl2, w2)

/-- The instruction `SpawnNewAdminDarc` builds: the spawn of the new admin darc
under the genesis darc of the client. -/
def adminDarcSpawn {σ : Type} (E : Ext σ) (cl : Client) : Instruction :=
  { InstanceID := NewInstanceID (GetBaseID E cl.genDarc),
    Spawn := some { ContractID := ContractDarcID,
                    Args := [{ Name := str "darc", Value := Buf.darc (createAdminDarc cl).1 }] },
    SignerCounter := [cl.signerCounter] }

/-- A sample genesis darc: administrator A may spawn darcs and deferred
transactions under it. -/
def sampleGenesisDarc : Darc :=
  { Version := 0, Description := str "genesis darc", BaseID := [], PrevID := [],
    Rules :=
      [ { Action := evolve, Expr := str "ed25519:A" },
        { Action := sign, Expr := str "ed25519:A" },
        { Action := str "spawn:darc", Expr := str "ed25519:A" },
        { Action := str "spawn:deferred", Expr := str "ed25519:A" } ] }

/-- A sample ledger that holds the genesis darc only. -/
def genesisLedger : Ledger :=
  { genesis := sampleGenesisDarc, height := 0,
    darcs := [ (NewInstanceID (Ledger.baseID sampleGenesisDarc), sampleGenesisDarc) ],
    proposals := [], values := [], names := [], counters := [] }

/-- The world of the sample genesis ledger. -/
def genesisWorld : World Ledger := { ledger := genesisLedger, log := [] }

/-- The client of administrator A on the genesis ledger. -/
def superAdminClient : Client :=
  { adminkeys := adminA, genDarc := sampleGenesisDarc, signerCounter := 1 }


/-- The reference collaborators with a ledger client whose `GetGenDarc` fails. -/
def noGenesisExt : Ext Ledger :=
  { ledgerExt with GetGenDarc := fun _ => .error (errorsNew "no genesis darc") }


/-! ## Statements about the admin-set operations -/

/-- The common tail of `AddAdminToAdminDarc`, `RemoveAdminFromAdminDarc` and
`ModifyAdminKeysFromAdminDarc`: the voter list `slc` is passed to
`evolveAdminDarc` and the transaction it returns to `addDeferredTransaction`. -/
def proposeEvolution {σ : Type} (E : Ext σ) (slc : List GoString) (adminDarc : Darc)
    (adid : Bytes) (cl : Client) (w : World σ) : Except Error InstanceID × Client × World σ :=
  match evolveAdminDarc E slc adminDarc cl w with
  | (.error e, w1) => (.error (Errorf "Evolving the admin darc" e), cl, w1)
  | (.ok proposedTransaction, w1) => addDeferredTransaction E proposedTransaction adid cl w1

/-- The sample admin darc with another evolution expression. -/
def adminDarcWithEvolve (exp : Expr) : Darc :=
  { sampleAdminDarc with
      Rules := { Action := evolve, Expr := exp } :: sampleAdminDarc.Rules.drop 1 }

/-- The sample world whose admin darc has the evolution expression `exp`. -/
def worldWithEvolve (exp : Expr) : World Ledger :=
  { ledger :=
      { sampleLedger with
          darcs := [ (NewInstanceID (Ledger.baseID sampleAdminDarc), adminDarcWithEvolve exp) ] },
    log := [] }


/-! ## Statements about the deferred-transaction instructions -/

/-- The instructions the client passed to `CreateTransaction`, in the order of
the log. -/
def createdInstructions (log : List Event) : List Instruction :=
  log.filterMap (fun e => match e with
    | .created instr => some instr
    | .submitted _ => none)

/-- The value of the argument `name` of an instruction: of its spawn, else of
its invoke. -/
def instructionArg (instr : Instruction) (name : GoString) : Option Buf :=
  match instr.Spawn, instr.Invoke with
  | some sp, _ => argValue sp.Args name
  | none, some iv => argValue iv.Args name
  | none, none => none

/-- The expiry height an instruction submits: its "expireBlockIndex" argument,
decoded as a little-endian integer. -/
def submittedExpiry (instr : Instruction) : Option Nat :=
  match instructionArg instr (str "expireBlockIndex") with
  | some (.bytes b) => some (leDecode b)
  | _ => none

/-- The instruction `spawnDeferredInstance` builds for the proposed transaction
`proposedTransactionBuf` under the darc `adid`, carrying the replay counter
`c`. -/
def deferredSpawn (proposedTransactionBuf : Buf) (adid : Bytes) (c : Nat) : Instruction :=
  { InstanceID := NewInstanceID adid,
    Spawn := some { ContractID := ContractDeferredID,
                    Args := [{ Name := str "proposedTransaction",
                               Value := proposedTransactionBuf },
                             { Name := str "expireBlockIndex",
                               Value := Buf.bytes (PutUint64 6000) }] },
    SignerCounter := [c] }

/-- The instruction `AddSignatureToDefferedTx` builds on the proposal `instID`
from the encoded identity and the signature, carrying the replay counter `c`. -/
def proofInstruction (instID : InstanceID) (identityBuf signature : Buf) (c : Nat) :
    Instruction :=
  { InstanceID := instID,
    Invoke := some { ContractID := ContractDeferredID, Command := str "addProof",
                     Args := [{ Name := str "identity", Value := identityBuf },
                              { Name := str "signature", Value := signature },
                              { Name := str "index", Value := Buf.bytes (PutUint32 0) }] },
    SignerCounter := [c] }

/-- The sample world at block height `h`. -/
def worldAtHeight (h : Nat) : World Ledger :=
  { ledger := { sampleLedger with height := h }, log := [] }


/-! ## The admin client: creation of a project -/

/-- Source `Client.createProjectDarc`. -/
def createProjectDarc {σ : Type} (E : Ext σ) (pname : GoString) (adid : Bytes) (cl : Client)
    (w : World σ) : Except Error Bytes × Client × World σ :=
  let pdarcDescription := pname
  let rules := InitRules [cl.adminkeys.Identity] [cl.adminkeys.Identity]
  let pdarc := NewDarc rules pdarcDescription
  let pdarcActions := str "_name:value,spawn:value,invoke:value.update"
  let pdarcExpr := createMultisigRuleExpression [cl.adminkeys.Identity.String]
  match AddRuleToDarc pdarc pdarcActions pdarcExpr with
  | (_, some e) => (.error (Errorf "Adding rules to darc" e), cl, w)
  | (pdarc, none) =>
    match ToProto E pdarc with
    | .error e => (.error (Errorf "Marshalling" e), cl, w)
    | .ok pdarcProto =>
      match CreateTransaction E
          { InstanceID := NewInstanceID adid,
            Spawn := some { ContractID := ContractDarcID,
                            Args := [{ Name := str "darc", Value := pdarcProto }] },
            SignerCounter := [cl.signerCounter] } w with
      | (.error e, w1) => (.error (Errorf "Creating the transaction" e), cl, w1)
      | (.ok ctx, w1) =>
        match spawnTransaction E ctx cl w1 with
        | (.error e, cl2, w2) => (.error (Errorf "Adding transaction to the ledger" e), cl2, w2)
        | (.ok _, cl2, w2) => (.ok (GetBaseID E pdarc), cl2, w2)

/-- Source `Client.CreateNewProject`. -/
def CreateNewProject {σ : Type} (E : Ext σ) (adid : Bytes) (pname : GoString) (cl : Client)
    (w : World σ) : Except Error Bytes × Client × World σ :=
  match createProjectDarc E pname adid cl w with
  | (.error e, cl1, w1) => (.error (Errorf "Creating the project darc" e), cl1, w1)
  | (.ok pdarcID, cl1, w1) =>
    match createAccessRight E adid pdarcID cl1 w1 with
    | (.error e, cl2, w2) => (.error (Errorf "Creating the access right" e), cl2, w2)
    | (.ok _, cl2, w2) => (.ok pdarcID, cl2, w2)

/-! ## Statements about the replay counter -/

/-- The transactions the client passed to `AddTransactionAndWait`, in the order
of the log. -/
def submittedTransactions (log : List Event) : List ClientTransaction :=
  log.filterMap (fun e => match e with
    | .submitted ctx => some ctx
    | .created _ => none)

/-- The events a call added to the log: those of `w1` after the ones of `w`. -/
def eventsSince {σ : Type} (w w1 : World σ) : List Event :=
  w1.log.drop w.log.length

/-- The books kept while a record of client calls is replayed against the
ledger: the state of the ledger, the replay counter the client holds, the number
of transactions committed, and whether every instruction built so far carried
the counter the client held when it was built. -/
structure Audit (σ : Type) where
  ledger : σ
  counter : Nat
  commits : Nat
  carried : Bool

/-- One event replayed: an instruction built is compared with the counter held;
a transaction submitted goes to the ledger as `spawnTransaction` sends it, and
only a commit moves the counter, by one in `uint64` arithmetic. -/
def auditStep {σ : Type} (E : Ext σ) (a : Audit σ) : Event → Audit σ
  | .created instr =>
    { a with carried := a.carried && decide (instr.SignerCounter = [a.counter]) }
  | .submitted ctx =>
    match E.AddTransactionAndWait a.ledger ctx 10 with
    | (.ok _, s) =>
      { a with ledger := s, counter := (a.counter + 1) % 2 ^ 64, commits := a.commits + 1 }
    | (.error _, s) => { a with ledger := s }

/-- The record `evs` replayed from the books `a`. -/
def audit {σ : Type} (E : Ext σ) (a : Audit σ) (evs : List Event) : Audit σ :=
  evs.foldl (auditStep E) a

/-- The call that took the client from `cl` to `cl1` and the world from `w` to
`w1` added the events `evs` to the log, and their replay accounts for it: it
ends in the ledger of `w1` with the counter of `cl1` after `k` commits, every
instruction built having carried the counter held at the time. -/
def Accounts {σ : Type} (E : Ext σ) (cl : Client) (w : World σ) (cl1 : Client) (w1 : World σ)
    (evs : List Event) (k : Nat) : Prop :=
  w1.log = w.log ++ evs ∧
    ∀ n, audit E ⟨w.ledger, cl.signerCounter, n, true⟩ evs =
      ⟨w1.ledger, cl1.signerCounter, n + k, true⟩

/-- The sample world after administrator A has spawned its own admin darc under
the genesis darc. -/
def soleAdminWorld : World Ledger :=
  (SpawnNewAdminDarc ledgerExt superAdminClient genesisWorld).2.2

/-- The admin darc of administrator A alone, as `createAdminDarc` builds it. -/
def soleAdminDarc : Darc := (createAdminDarc superAdminClient).1


/-- The instruction `createProjectDarc` builds: the spawn of the serialised
project darc under the admin darc `adid`, carrying the replay counter `c`. -/
def projectDarcSpawn (adid : Bytes) (pdarcProto : Buf) (c : Nat) : Instruction :=
  { InstanceID := NewInstanceID adid,
    Spawn := some { ContractID := ContractDarcID,
                    Args := [{ Name := str "darc", Value := pdarcProto }] },
    SignerCounter := [c] }


/-- The outcome `r` of a call made by the client `cl` in the world `w` keeps the
count: the events it added to the log account for the client and the world it
ends in, with at most `most` commits. -/
def KeepsCount {σ α : Type} (E : Ext σ) (cl : Client) (w : World σ)
    (r : Except Error α × Client × World σ) (most : Nat) : Prop :=
  ∃ evs k, k ≤ most ∧ Accounts E cl w r.2.1 r.2.2 evs k

/-- The events `CreateNewProject` adds to the log. -/
def projectEvents {σ : Type} (E : Ext σ) (adid : Bytes) (pname : GoString) (cl : Client)
    (w : World σ) : List Event :=
  eventsSince w (CreateNewProject E adid pname cl w).2.2

/-- The replay of the events of `CreateNewProject`, from the ledger of `w` and
the counter of `cl`. -/
def projectAudit {σ : Type} (E : Ext σ) (adid : Bytes) (pname : GoString) (cl : Client)
    (w : World σ) : Audit σ :=
  audit E ⟨w.ledger, cl.signerCounter, 0, true⟩ (projectEvents E adid pname cl w)


/-- The expressions the darcs proposed on the ledger `s` give to `action`: for
every stored proposal, the rule of the darc each proposed instruction carries. -/
def proposedRules (s : Ledger) (action : GoString) : List Expr :=
  s.proposals.flatMap (fun p =>
    p.2.instructions.filterMap (fun i =>
      match instructionArg i (str "darc") with
      | some (.darc d) => some (Rules.Get d.Rules action)
      | _ => none))


/-- The world of the freshly created project after client A has created its
registry with `createAccessRight`. -/
def registryWorld : World Ledger :=
  (createAccessRight ledgerExt (Ledger.baseID sampleAdminDarc) (Ledger.baseID sampleProjectDarc)
    clientA freshWorld).2.2

/-- That world after client A has revoked the querier "init": the registry of
the project has no entry left. -/
def emptiedWorld : World Ledger :=
  (RemoveQuerierFromProject ledgerExt (Ledger.baseID sampleProjectDarc) (str "init")
    (clientAAt 3) registryWorld).2.2

/-! # Theorems -/

/-! ## Strings -/

theorem dropWhile_pad (p : Char → Bool) (pre l : List Char) (hpre : ∀ c ∈ pre, p c = true)
    (hl : l.head?.all (fun c => !p c) = true) : (pre ++ l).dropWhile p = l := by
  induction pre with
  | nil =>
    cases l with
    | nil => rfl
    | cons c t =>
      have hc : p c = false := by simpa using hl
      simp [List.dropWhile, hc]
  | cons x pre ih =>
    have hx : p x = true := hpre x (by simp)
    have ih1 := ih (fun c hc => hpre c (by simp [hc]))
    simp [List.dropWhile, hx, ih1]

theorem head?_append_all (p : Char → Bool) (a post : List Char) (ha : a ≠ [])
    (h : a.head?.all p = true) : (a ++ post).head?.all p = true := by
  cases a with
  | nil => exact absurd rfl ha
  | cons c t => simpa using h

theorem TrimSpace_pad (a pre post : List Char) (ha : NoOuterSpace a = true)
    (hpre : ∀ c ∈ pre, IsSpace c = true) (hpost : ∀ c ∈ post, IsSpace c = true) :
    TrimSpace (pre ++ a ++ post) = a := by
  unfold NoOuterSpace at ha
  rw [Bool.and_eq_true] at ha
  obtain ⟨hh, hl⟩ := ha
  unfold TrimSpace List.rdropWhile
  by_cases hnil : a = []
  · subst hnil
    have h1 : (pre ++ [] ++ post).dropWhile IsSpace = [] := by
      have := dropWhile_pad IsSpace (pre ++ post) [] (by
        intro c hc
        rcases List.mem_append.mp hc with h | h
        · exact hpre c h
        · exact hpost c h) (by simp)
      simpa using this
    rw [h1]; rfl
  · have h1 : (pre ++ a ++ post).dropWhile IsSpace = a ++ post := by
      rw [List.append_assoc]
      exact dropWhile_pad IsSpace pre (a ++ post) hpre (head?_append_all _ a post hnil hh)
    rw [h1, List.reverse_append]
    have h2 : (post.reverse ++ a.reverse).dropWhile IsSpace = a.reverse := by
      apply dropWhile_pad
      · intro c hc
        exact hpost c (List.mem_reverse.mp hc)
      · rw [List.head?_reverse]; exact hl
    rw [h2, List.reverse_reverse]

theorem TrimSpace_self (a : List Char) (ha : NoOuterSpace a = true) : TrimSpace a = a := by
  simpa using TrimSpace_pad a [] [] ha (by simp) (by simp)

theorem Split_go_no_sep (sep : Char) (s acc : List Char) (hs : sep ∉ s) :
    Split.go sep s acc = [acc.reverse ++ s] := by
  induction s generalizing acc with
  | nil => simp [Split.go]
  | cons c cs ih =>
    have hc : c ≠ sep := fun h => hs (by simp [h])
    have hcs : sep ∉ cs := fun h => hs (by simp [h])
    simp [Split.go, hc, ih (c :: acc) hcs]

theorem Split_go_append_sep (sep : Char) (a rest acc : List Char) (ha : sep ∉ a) :
    Split.go sep (a ++ sep :: rest) acc = (acc.reverse ++ a) :: Split.go sep rest [] := by
  induction a generalizing acc with
  | nil => simp [Split.go]
  | cons c cs ih =>
    have hc : c ≠ sep := fun h => ha (by simp [h])
    have hcs : sep ∉ cs := fun h => ha (by simp [h])
    simp [Split.go, hc, ih (c :: acc) hcs]

theorem Join_cons_cons (a b : GoString) (rest : List GoString) (sep : GoString) :
    Join (a :: b :: rest) sep = a ++ sep ++ Join (b :: rest) sep := rfl

theorem andSep_eq : (str " & ") = [Char.ofNat 32, '&', Char.ofNat 32] := by decide

theorem orSep_eq : (str " | ") = [Char.ofNat 32, '|', Char.ofNat 32] := by decide

theorem split_join_aux (c : Char) (hc : c ≠ Char.ofNat 32) (rest : List GoString) :
    ∀ (a : GoString) (acc : List Char), (∀ x ∈ acc, IsSpace x = true) → c ∉ a →
      NoOuterSpace a = true → (∀ s ∈ rest, c ∉ s) → (∀ s ∈ rest, NoOuterSpace s = true) →
      (Split.go c (Join (a :: rest) [Char.ofNat 32, c, Char.ofNat 32]) acc).map TrimSpace =
        a :: rest := by
  induction rest with
  | nil =>
    intro a acc hacc ha hsp _ _
    have h := TrimSpace_pad a acc.reverse [] hsp
      (fun x hx => hacc x (List.mem_reverse.mp hx)) (by simp)
    simp only [List.append_nil] at h
    simp [Join, Split_go_no_sep _ _ _ ha, h]
  | cons b rest ih =>
    intro a acc hacc ha hsp hamp hws
    have hsplit : Join (a :: b :: rest) [Char.ofNat 32, c, Char.ofNat 32] =
        (a ++ [Char.ofNat 32]) ++
          c :: (Char.ofNat 32 :: Join (b :: rest) [Char.ofNat 32, c, Char.ofNat 32]) := by
      rw [Join_cons_cons]; simp
    have ha1 : c ∉ a ++ [Char.ofNat 32] := by
      intro h
      rcases List.mem_append.mp h with h | h
      · exact ha h
      · exact hc (List.mem_singleton.mp h)
    rw [hsplit, Split_go_append_sep _ _ _ _ ha1]
    have hstep : Split.go c (Char.ofNat 32 :: Join (b :: rest) [Char.ofNat 32, c, Char.ofNat 32])
        [] = Split.go c (Join (b :: rest) [Char.ofNat 32, c, Char.ofNat 32]) [Char.ofNat 32] := by
      have hne : Char.ofNat 32 ≠ c := fun h => hc h.symm
      simp [Split.go, hne]
    rw [hstep, List.map_cons]
    have hspace : IsSpace (Char.ofNat 32) = true := by decide
    have h1 := TrimSpace_pad a acc.reverse [Char.ofNat 32] hsp
      (fun x hx => hacc x (List.mem_reverse.mp hx))
      (fun x hx => by rw [List.mem_singleton.mp hx]; exact hspace)
    have h2 := ih b [Char.ofNat 32]
      (fun x hx => by rw [List.mem_singleton.mp hx]; exact hspace)
      (hamp b (by simp)) (hws b (by simp))
      (fun s hs => hamp s (by simp [hs])) (fun s hs => hws s (by simp [hs]))
    rw [h2, ← List.append_assoc, h1]

theorem leaves_Join (c : Char) (hc : c ≠ Char.ofNat 32) (L : List GoString) (hne : L ≠ [])
    (hsep : ∀ s ∈ L, c ∉ s) (hws : ∀ s ∈ L, NoOuterSpace s = true) :
    (Split (Join L [Char.ofNat 32, c, Char.ofNat 32]) c).map TrimSpace = L := by
  cases L with
  | nil => exact absurd rfl hne
  | cons a rest =>
    exact split_join_aux c hc rest a [] (by simp) (hsep a (by simp)) (hws a (by simp))
      (fun s hs => hsep s (by simp [hs])) (fun s hs => hws s (by simp [hs]))

/-! ## C1 -/

/-- C1. Expression round trip (unanimous): for every non-empty list `L` of
identity strings that contain no '&' and have no leading or trailing white
space, splitting `createMultisigRuleExpression(L)` on "&" and trimming every
piece, as the admin operations do, gives back `L`. -/
theorem round_trip_unanimous (L : List GoString) (hne : L ≠ [])
    (hamp : ∀ s ∈ L, '&' ∉ s) (hws : ∀ s ∈ L, NoOuterSpace s = true) :
    splitAndTrim (createMultisigRuleExpression L) = L := by
  unfold splitAndTrim createMultisigRuleExpression InitAndExpr
  rw [andSep_eq]
  exact leaves_Join '&' (by decide) L hne hamp hws

/-- Witness of C1 on the identities "ed25519:aa", "ed25519:bb", "x". -/
theorem round_trip_unanimous_witness :
    splitAndTrim (createMultisigRuleExpression
      [(str "ed25519:aa"), (str "ed25519:bb"), (str "x")]) =
      [(str "ed25519:aa"), (str "ed25519:bb"), (str "x")] :=
  round_trip_unanimous _ (by decide) (by decide) (by decide)

/-! ## C2 -/

theorem mem_dropWhile_of_not (p : Char → Bool) (c : Char) (s : List Char) (hc : c ∈ s)
    (hp : p c = false) : c ∈ s.dropWhile p := by
  induction s with
  | nil => exact absurd hc (by simp)
  | cons x xs ih =>
    by_cases hx : p x = true
    · have hne : c ≠ x := fun h => by rw [h, hx] at hp; exact absurd hp (by simp)
      have hcx : c ∈ xs := by
        rcases List.mem_cons.mp hc with h | h
        · exact absurd h hne
        · exact h
      simpa [List.dropWhile, hx] using ih hcx
    · have hx1 : p x = false := by simpa using hx
      simpa [List.dropWhile, hx1] using hc

theorem mem_TrimSpace_of_not_space (c : Char) (s : List Char) (hc : c ∈ s)
    (hp : IsSpace c = false) : c ∈ TrimSpace s := by
  unfold TrimSpace List.rdropWhile
  rw [List.mem_reverse]
  apply mem_dropWhile_of_not _ _ _ _ hp
  rw [List.mem_reverse]
  exact mem_dropWhile_of_not _ _ _ hc hp

theorem bar_mem_Join (a b : GoString) (rest : List GoString) :
    '|' ∈ Join (a :: b :: rest) (str " | ") := by
  rw [Join_cons_cons, orSep_eq]; simp

theorem not_mem_Join (c : Char) (sep : GoString) (hsep : c ∉ sep) (L : List GoString)
    (hL : ∀ s ∈ L, c ∉ s) : c ∉ Join L sep := by
  induction L with
  | nil => simp [Join]
  | cons a rest ih =>
    cases rest with
    | nil => simpa [Join] using hL a (by simp)
    | cons b rest =>
      rw [Join_cons_cons]
      have h1 := hL a (by simp)
      have h2 := ih (fun s hs => hL s (by simp [hs]))
      intro h
      rcases List.mem_append.mp h with h | h
      · rcases List.mem_append.mp h with h | h
        · exact h1 h
        · exact hsep h
      · exact h2 h

/-- C2, as stated, fails: on the identities "a" and "b", which contain no '&',
no '|' and no outer white space, the parse of the any-of expression "a | b"
is the one-element list holding "a | b", whose set of elements is not that of
the identity list. -/
theorem round_trip_anyof_counterexample :
    ([(str "a"), (str "b")] ≠ [] ∧
      ∀ s ∈ [(str "a"), (str "b")], '&' ∉ s ∧ '|' ∉ s ∧ NoOuterSpace s = true) ∧
    splitAndTrim (InitOrExpr [(str "a"), (str "b")]) = [(str "a | b")] ∧
    ¬ (∀ x, x ∈ splitAndTrim (InitOrExpr [(str "a"), (str "b")]) ↔
        x ∈ [(str "a"), (str "b")]) := by
  refine ⟨⟨by decide, by decide⟩, by decide, ?_⟩
  intro h
  have h1 := (h (str "a")).mpr (by decide)
  exact absurd h1 (by decide)

/-- C2, amended. For every non-empty list `L` of identity strings that contain
no '&', no '|' and no leading or trailing white space, the identity-list parse
of the admin operations, applied to the any-of expression `InitOrExpr(L)`,
returns the one-element list holding the whole (trimmed) expression; the set
of its elements equals that of `L` exactly when `L` has one element. -/
theorem round_trip_anyof_amended (L : List GoString) (hne : L ≠ [])
    (hamp : ∀ s ∈ L, '&' ∉ s) (hbar : ∀ s ∈ L, '|' ∉ s)
    (hws : ∀ s ∈ L, NoOuterSpace s = true) :
    splitAndTrim (InitOrExpr L) = [TrimSpace (InitOrExpr L)] ∧
    ((∀ x, x ∈ splitAndTrim (InitOrExpr L) ↔ x ∈ L) ↔ L.length = 1) := by
  have hparse : splitAndTrim (InitOrExpr L) = [TrimSpace (InitOrExpr L)] := by
    unfold splitAndTrim Split InitOrExpr
    rw [Split_go_no_sep _ _ _ (not_mem_Join '&' _ (by decide) L hamp)]
    simp
  refine ⟨hparse, ?_⟩
  rw [hparse]
  constructor
  · intro h
    cases L with
    | nil => exact absurd rfl hne
    | cons a rest =>
      cases rest with
      | nil => rfl
      | cons b rest =>
        exfalso
        have hin : TrimSpace (InitOrExpr (a :: b :: rest)) ∈ a :: b :: rest :=
          (h _).mp (by simp)
        exact hbar _ hin (mem_TrimSpace_of_not_space _ _ (bar_mem_Join a b rest) (by decide))
  · intro h x
    cases L with
    | nil => exact absurd rfl hne
    | cons a rest =>
      cases rest with
      | nil =>
        have ha : TrimSpace (InitOrExpr [a]) = a := by
          simpa [InitOrExpr, Join] using TrimSpace_self a (hws a (by simp))
        rw [ha]
      | cons b rest => simp at h

/-- Witness of the amended C2 on the identities "a" and "b". -/
theorem round_trip_anyof_amended_witness :
    splitAndTrim (InitOrExpr [(str "a"), (str "b")]) =
      [TrimSpace (InitOrExpr [(str "a"), (str "b")])] ∧
    ((∀ x, x ∈ splitAndTrim (InitOrExpr [(str "a"), (str "b")]) ↔
        x ∈ [(str "a"), (str "b")]) ↔ [(str "a"), (str "b")].length = 1) :=
  round_trip_anyof_amended _ (by decide) (by decide) (by decide) (by decide)

/-! ## C3 -/

theorem Rules.Get_map_same (rs : Rules) (a : GoString) (expr : Expr)
    (h : Rules.Contains rs a = true) :
    Rules.Get (rs.map (fun r => if r.Action = a then { r with Expr := expr } else r)) a = expr := by
  induction rs with
  | nil => simp [Rules.Contains] at h
  | cons r rest ih =>
    by_cases hr : r.Action = a
    · simp [Rules.Get, hr]
    · have hrest : Rules.Contains rest a = true := by
        simpa [Rules.Contains, hr] using h
      simp [Rules.Get, hr, ih hrest]

theorem Rules.Get_map_other (rs : Rules) (a b : GoString) (expr : Expr) (hab : b ≠ a) :
    Rules.Get (rs.map (fun r => if r.Action = a then { r with Expr := expr } else r)) b =
      Rules.Get rs b := by
  induction rs with
  | nil => rfl
  | cons r rest ih =>
    by_cases hr : r.Action = a
    · have hrb : ¬ r.Action = b := fun h => hab (h ▸ hr)
      have hab1 : ¬ a = b := fun h => hab h.symm
      simp [Rules.Get, hr, hrb, hab1, ih]
    · simp [Rules.Get, hr, ih]

theorem Rules.Get_updateRule (rs rs1 : Rules) (a : GoString) (expr : Expr)
    (h : Rules.updateRule rs a expr = .ok rs1) :
    Rules.Get rs1 a = expr ∧ ∀ b, b ≠ a → Rules.Get rs1 b = Rules.Get rs b := by
  unfold Rules.updateRule at h
  split at h
  · rename_i hc
    injection h with h
    subst h
    exact ⟨Rules.Get_map_same rs a expr hc, fun b hb => Rules.Get_map_other rs a b expr hb⟩
  · exact absurd h (by simp)

theorem Rules.Get_UpdateRule (rs rs1 : Rules) (a : GoString) (expr : Expr)
    (h : Rules.UpdateRule rs a expr = .ok rs1) :
    Rules.Get rs1 a = expr ∧ ∀ b, b ≠ a → Rules.Get rs1 b = Rules.Get rs b := by
  unfold Rules.UpdateRule at h
  split at h
  · exact absurd h (by simp)
  · exact Rules.Get_updateRule rs rs1 a expr h

theorem updateAdminRules_loop_other (exprs : List Expr) (order : List (GoString × Nat)) :
    ∀ (rs rs1 : Rules), updateAdminRules.loop exprs order rs = .ok rs1 →
      ∀ b, b ∉ order.map Prod.fst → Rules.Get rs1 b = Rules.Get rs b := by
  induction order with
  | nil =>
    intro rs rs1 h b _
    simp only [updateAdminRules.loop] at h
    injection h with h
    rw [h]
  | cons kv rest ih =>
    obtain ⟨k, v⟩ := kv
    intro rs rs1 h b hb
    simp only [updateAdminRules.loop] at h
    split at h
    · exact absurd h (by simp)
    · split at h
      · exact absurd h (by simp)
      · rename_i ex _ _ rs2 hupd
        have hbk : b ≠ k := fun hEq => hb (by simp [hEq])
        have hbrest : b ∉ rest.map Prod.fst := fun hin => hb (by simp at hin ⊢; exact Or.inr hin)
        rw [ih rs2 rs1 h b hbrest]
        exact (Rules.Get_UpdateRule rs rs2 k ex hupd).2 b hbk

theorem updateAdminRules_loop_get (exprs : List Expr) (order : List (GoString × Nat)) :
    ∀ (rs rs1 : Rules), (order.map Prod.fst).Nodup →
      updateAdminRules.loop exprs order rs = .ok rs1 →
      ∀ k v, (k, v) ∈ order → exprs[v]? = some (Rules.Get rs1 k) := by
  induction order with
  | nil => intro rs rs1 _ _ k v hin; exact absurd hin (by simp)
  | cons kv rest ih =>
    obtain ⟨k0, v0⟩ := kv
    intro rs rs1 hnd h k v hin
    simp only [updateAdminRules.loop] at h
    have hnd1 : k0 ∉ rest.map Prod.fst ∧ (rest.map Prod.fst).Nodup := by
      simpa [List.nodup_cons] using hnd
    split at h
    · exact absurd h (by simp)
    · rename_i ex hex
      split at h
      · exact absurd h (by simp)
      · rename_i rs2 hupd
        rcases List.mem_cons.mp hin with heq | hrest
        · injection heq with hk hv
          subst hk; subst hv
          rw [updateAdminRules_loop_other exprs rest rs2 rs1 h k hnd1.1,
            (Rules.Get_UpdateRule rs rs2 k ex hupd).1]
          exact hex
        · exact ih rs2 rs1 hnd1.2 h k v hrest

theorem adminActions_keys_nodup : (adminActions.map Prod.fst).Nodup := by decide

theorem updateAdminRules_get {σ : Type} (E : Ext σ)
    (hperm : E.rangeAdminActions.Perm adminActions) (d d1 : Darc) (e0 e1 : Expr)
    (h : updateAdminRules E d [e0, e1] = .ok d1) :
    ∀ k v, (k, v) ∈ adminActions → [e0, e1][v]? = some (Rules.Get d1.Rules k) := by
  intro k v hkv
  unfold updateAdminRules at h
  simp only [List.getElem?_cons_zero] at h
  split at h
  · exact absurd h (by simp)
  · split at h
    · exact absurd h (by simp)
    · split at h
      · exact absurd h (by simp)
      · rename_i rs3 hloop
        injection h with h
        subst h
        have hnd : (E.rangeAdminActions.map Prod.fst).Nodup :=
          (hperm.map Prod.fst).nodup_iff.mpr adminActions_keys_nodup
        exact updateAdminRules_loop_get [e0, e1] E.rangeAdminActions _ rs3 hnd hloop k v
          (hperm.mem_iff.mpr hkv)

/-- C3. Policy-kind mapping: whenever `evolveAdminDarc(L, old)` succeeds, the
transaction it returns invokes `evolve` on the old darc with a proposed darc
whose rules "invoke:darc.evolve" and "spawn:darc" equal the AND expression
over `L` and whose rules "spawn:deferred", "invoke:deferred.addProof" and
"invoke:deferred.execProposedTx" equal the OR expression over `L`; this holds
for every order in which `range adminActions` visits the table. -/
theorem policy_kind_mapping {σ : Type} (E : Ext σ)
    (hperm : E.rangeAdminActions.Perm adminActions) (L : List GoString) (old : Darc)
    (cl : Client) (w w1 : World σ) (tx : ClientTransaction)
    (h : evolveAdminDarc E L old cl w = (.ok tx, w1)) :
    ∃ proposed : Darc,
      tx.Instructions =
        [{ InstanceID := NewInstanceID (GetBaseID E old),
           Invoke := some { ContractID := ContractDarcID, Command := str "evolve",
                            Args := [{ Name := str "darc", Value := Buf.darc proposed }] } }] ∧
      Rules.Get proposed.Rules (str "invoke:darc.evolve") = InitAndExpr L ∧
      Rules.Get proposed.Rules (str "spawn:darc") = InitAndExpr L ∧
      Rules.Get proposed.Rules (str "spawn:deferred") = InitOrExpr L ∧
      Rules.Get proposed.Rules (str "invoke:deferred.addProof") = InitOrExpr L ∧
      Rules.Get proposed.Rules (str "invoke:deferred.execProposedTx") = InitOrExpr L := by
  unfold evolveAdminDarc at h
  cases hupd : updateAdminRules E old [createMultisigRuleExpression L, InitOrExpr L] with
  | error e => simp [hupd] at h
  | ok d1 =>
    have hget := updateAdminRules_get E hperm old d1 _ _ hupd
    cases hev : E.EvolveFromErr d1 old with
    | some e => simp [hupd, EvolveFrom, hev] at h
    | none =>
      cases hmk : E.MakeEvolveRequestErr
          { d1 with Version := old.Version + 1, PrevID := E.GetID old,
                    BaseID := GetBaseID E old } (AuthKey cl) with
      | some e => simp [hupd, EvolveFrom, hev, MakeEvolveRequest, hmk] at h
      | none =>
        cases hct : E.CreateTransactionErr w.ledger
            [{ InstanceID := NewInstanceID (GetBaseID E old),
               Invoke := some { ContractID := ContractDarcID, Command := str "evolve",
                                Args := [{ Name := str "darc",
                                           Value := Buf.darc
                                             { d1 with Version := old.Version + 1,
                                                       PrevID := E.GetID old,
                                                       BaseID := GetBaseID E old } }] } }] with
        | some e =>
          simp [hupd, EvolveFrom, hev, MakeEvolveRequest, hmk, CreateTransaction, hct] at h
        | none =>
          simp only [hupd, EvolveFrom, hev, MakeEvolveRequest, hmk, CreateTransaction, hct,
            Prod.mk.injEq, Except.ok.injEq] at h
          refine ⟨_, by rw [← h.1], ?_, ?_, ?_, ?_, ?_⟩
          · have := hget (str "invoke:darc.evolve") 0 (by decide)
            simpa [createMultisigRuleExpression] using this.symm
          · have := hget (str "spawn:darc") 0 (by decide)
            simpa [createMultisigRuleExpression] using this.symm
          · have := hget (str "spawn:deferred") 1 (by decide)
            simpa using this.symm
          · have := hget (str "invoke:deferred.addProof") 1 (by decide)
            simpa using this.symm
          · have := hget (str "invoke:deferred.execProposedTx") 1 (by decide)
            simpa using this.symm

/-- Witness of C3: on the sample ledger, client A evolves the sample admin darc
to the administrators A, B and C; the call succeeds and the proposed darc has
the five rules of the claim. -/
theorem policy_kind_mapping_witness :
    ∃ tx w1, evolveAdminDarc ledgerExt [str "ed25519:A", str "ed25519:B", str "ed25519:C"]
        sampleAdminDarc clientA sampleWorld = (.ok tx, w1) ∧
      ∃ proposed : Darc,
        tx.Instructions =
          [{ InstanceID := NewInstanceID (GetBaseID ledgerExt sampleAdminDarc),
             Invoke := some { ContractID := ContractDarcID, Command := str "evolve",
                              Args := [{ Name := str "darc", Value := Buf.darc proposed }] } }] ∧
        Rules.Get proposed.Rules (str "invoke:darc.evolve") =
          InitAndExpr [str "ed25519:A", str "ed25519:B", str "ed25519:C"] ∧
        Rules.Get proposed.Rules (str "spawn:darc") =
          InitAndExpr [str "ed25519:A", str "ed25519:B", str "ed25519:C"] ∧
        Rules.Get proposed.Rules (str "spawn:deferred") =
          InitOrExpr [str "ed25519:A", str "ed25519:B", str "ed25519:C"] ∧
        Rules.Get proposed.Rules (str "invoke:deferred.addProof") =
          InitOrExpr [str "ed25519:A", str "ed25519:B", str "ed25519:C"] ∧
        Rules.Get proposed.Rules (str "invoke:deferred.execProposedTx") =
          InitOrExpr [str "ed25519:A", str "ed25519:B", str "ed25519:C"] :=
  ⟨_, _, rfl, policy_kind_mapping ledgerExt (List.Perm.refl _) _ sampleAdminDarc clientA
    sampleWorld _ _ rfl⟩


/-! ## C5 -/

/-- C5. Replay counter moves only on commit: for every client state and
transaction, `spawnTransaction` returns an error and leaves `signerCounter`
unchanged when signing fails, and also when the ledger rejects the signed
transaction; when the ledger confirms the commit it returns no error and sets
`signerCounter` to the old value plus one in `uint64` arithmetic, which is
exactly the old value plus one unless the old value is the largest `uint64`. -/
theorem counter_moves_only_on_commit {σ : Type} (E : Ext σ) (ctx : ClientTransaction)
    (cl : Client) (w : World σ) :
    (∀ e, FillSignersAndSignWith E ctx cl.adminkeys = .error e →
      (spawnTransaction E ctx cl w).1 = .error (Errorf "Signing" e) ∧
      (spawnTransaction E ctx cl w).2.1.signerCounter = cl.signerCounter) ∧
    (∀ sctx e, FillSignersAndSignWith E ctx cl.adminkeys = .ok sctx →
      (E.AddTransactionAndWait w.ledger sctx 10).1 = .error e →
      (spawnTransaction E ctx cl w).1 = .error (Errorf "Adding transaction to the ledger" e) ∧
      (spawnTransaction E ctx cl w).2.1.signerCounter = cl.signerCounter) ∧
    (∀ sctx, FillSignersAndSignWith E ctx cl.adminkeys = .ok sctx →
      (E.AddTransactionAndWait w.ledger sctx 10).1 = .ok () →
      (spawnTransaction E ctx cl w).1 = .ok sctx ∧
      (spawnTransaction E ctx cl w).2.1.signerCounter = (cl.signerCounter + 1) % 2 ^ 64 ∧
      (cl.signerCounter + 1 < 2 ^ 64 →
        (spawnTransaction E ctx cl w).2.1.signerCounter = cl.signerCounter + 1)) := by
  refine ⟨?_, ?_, ?_⟩
  · intro e hs
    simp only [spawnTransaction, hs, and_self]
  · intro sctx e hs hl
    simp only [spawnTransaction, hs, AddTransactionAndWait, hl, and_self]
  · intro sctx hs hl
    simp only [spawnTransaction, hs, AddTransactionAndWait, hl, incrementSignerCounter, true_and]
    exact fun hlt => Nat.mod_eq_of_lt hlt


/-- Witness of C5 on the sample ledger: signing a transaction whose instruction
carries no counter fails and client A keeps its counter 1; client A submitting the stale counter 5 is
rejected by the ledger and keeps its counter 1; client A submitting the
expected counter 1 commits and moves to 2. -/
theorem counter_moves_only_on_commit_witness :
    ((spawnTransaction ledgerExt ⟨[{ InstanceID := sampleRegistryID }]⟩ clientA
        sampleWorld).1 =
        .error (Errorf "Signing"
          (errorsNew "the number of signers does not match the number of counters")) ∧
      (spawnTransaction ledgerExt ⟨[{ InstanceID := sampleRegistryID }]⟩ clientA
        sampleWorld).2.1.signerCounter = 1) ∧
    ((spawnTransaction ledgerExt (sampleTx 5) clientA sampleWorld).1 =
        .error (Errorf "Adding transaction to the ledger" (errorsNew "ReplayError")) ∧
      (spawnTransaction ledgerExt (sampleTx 5) clientA sampleWorld).2.1.signerCounter = 1) ∧
    (spawnTransaction ledgerExt (sampleTx 1) clientA sampleWorld).2.1.signerCounter = 2 :=
  ⟨(counter_moves_only_on_commit ledgerExt ⟨[{ InstanceID := sampleRegistryID }]⟩ clientA
      sampleWorld).1 _ rfl,
   (counter_moves_only_on_commit ledgerExt (sampleTx 5) clientA sampleWorld).2.1 _ _ rfl rfl,
   ((counter_moves_only_on_commit ledgerExt (sampleTx 1) clientA sampleWorld).2.2 _ rfl rfl).2.2
      (by decide)⟩


/-! ## C6 -/

theorem IndexOf_loop_eq_neg_one (rule : GoString) (rules : List GoString) :
    ∀ k : Nat, IndexOf.loop rule rules k = -1 ↔ rule ∉ rules := by
  induction rules with
  | nil => intro k; simp [IndexOf.loop]
  | cons v rest ih =>
    intro k
    by_cases h : rule = v
    · have hk : ¬ ((k : Int) = -1) := by omega
      simp [IndexOf.loop, h, hk]
    · simp [IndexOf.loop, h, ih (k + 1)]

theorem IndexOf_eq_neg_one (rule : GoString) (rules : List GoString) :
    IndexOf rule rules = -1 ↔ rule ∉ rules :=
  IndexOf_loop_eq_neg_one rule rules 0

/-- C6. Remove of an unknown admin fails early: when the admin darc is read
from the ledger and the identity is not an element of the identity list parsed
from its evolution expression, `RemoveAdminFromAdminDarc` returns the error
"The adminID doesn't exist in the admin darc"; the world is left as it was, so
no transaction was built or submitted, and the client, with its
`signerCounter`, is unchanged. -/
theorem remove_unknown_admin_fails_early {σ : Type} (E : Ext σ) (adid : Bytes)
    (adminId : Identity) (cl : Client) (w : World σ) (adminDarc : Darc)
    (hdarc : E.GetDarcByID w.ledger adid = .ok adminDarc)
    (hnot : adminId.String ∉ splitAndTrim (Rules.GetEvolutionExpr adminDarc.Rules)) :
    (RemoveAdminFromAdminDarc E adid adminId cl w).1 =
        .error (errorsNew "The adminID doesn't exist in the admin darc") ∧
      (RemoveAdminFromAdminDarc E adid adminId cl w).2.2 = w ∧
      (RemoveAdminFromAdminDarc E adid adminId cl w).2.2.log = w.log ∧
      (RemoveAdminFromAdminDarc E adid adminId cl w).2.1 = cl ∧
      (RemoveAdminFromAdminDarc E adid adminId cl w).2.1.signerCounter = cl.signerCounter := by
  have hidx := (IndexOf_eq_neg_one adminId.String _).mpr hnot
  simp only [RemoveAdminFromAdminDarc, hdarc, hidx, if_true, and_self]

/-- Witness of C6: on the sample ledger, whose admin darc lists A and B,
removing the unknown identity "ed25519:Z" fails without touching the world or
the client. -/
theorem remove_unknown_admin_fails_early_witness :
    (RemoveAdminFromAdminDarc ledgerExt (Ledger.baseID sampleAdminDarc) ⟨str "ed25519:Z"⟩
        clientA sampleWorld).1 =
        .error (errorsNew "The adminID doesn't exist in the admin darc") ∧
      (RemoveAdminFromAdminDarc ledgerExt (Ledger.baseID sampleAdminDarc) ⟨str "ed25519:Z"⟩
        clientA sampleWorld).2.2 = sampleWorld ∧
      (RemoveAdminFromAdminDarc ledgerExt (Ledger.baseID sampleAdminDarc) ⟨str "ed25519:Z"⟩
        clientA sampleWorld).2.2.log = sampleWorld.log ∧
      (RemoveAdminFromAdminDarc ledgerExt (Ledger.baseID sampleAdminDarc) ⟨str "ed25519:Z"⟩
        clientA sampleWorld).2.1 = clientA ∧
      (RemoveAdminFromAdminDarc ledgerExt (Ledger.baseID sampleAdminDarc) ⟨str "ed25519:Z"⟩
        clientA sampleWorld).2.1.signerCounter = clientA.signerCounter :=
  remove_unknown_admin_fails_early ledgerExt _ _ clientA sampleWorld sampleAdminDarc rfl
    (by decide)


/-! ## The transactions of the registry operations -/

theorem FillSignersAndSignWith_single {σ : Type} (E : Ext σ) (i : Instruction) (s : Signer) :
    FillSignersAndSignWith E ⟨[i]⟩ s =
      match E.SignInstruction [i] s i with
      | .error e => .error e
      | .ok si => .ok ⟨[si]⟩ := by
  unfold FillSignersAndSignWith
  cases h : E.SignInstruction [i] s i with
  | error e => simp [signEach, h]
  | ok si => simp [signEach, h]

/-- What `updateValue` does, step by step: the one instruction it builds, the
signed transaction it submits, and the outcome. -/
theorem updateValue_eq {σ : Type} (E : Ext σ) (v : Buf) (vcid : InstanceID) (cl : Client)
    (w : World σ) :
    updateValue E v vcid cl w =
      match E.CreateTransactionErr w.ledger [valueUpdate E vcid v cl.signerCounter] with
      | some e =>
        (.error (Errorf "Creating the transaction" e), cl,
          { w with log := w.log ++ [Event.created (valueUpdate E vcid v cl.signerCounter)] })
      | none =>
        match E.SignInstruction [valueUpdate E vcid v cl.signerCounter] cl.adminkeys
            (valueUpdate E vcid v cl.signerCounter) with
        | .error e =>
          (.error (Errorf "Signing" e), cl,
            { w with log := w.log ++ [Event.created (valueUpdate E vcid v cl.signerCounter)] })
        | .ok si =>
          match (E.AddTransactionAndWait w.ledger ⟨[si]⟩ 10).1 with
          | .error e =>
            (.error (Errorf "Adding transaction to the ledger" e), cl,
              { ledger := (E.AddTransactionAndWait w.ledger ⟨[si]⟩ 10).2,
                log := w.log ++ [Event.created (valueUpdate E vcid v cl.signerCounter),
                                 Event.submitted ⟨[si]⟩] })
          | .ok _ =>
            (.ok (), incrementSignerCounter cl,
              { ledger := (E.AddTransactionAndWait w.ledger ⟨[si]⟩ 10).2,
                log := w.log ++ [Event.created (valueUpdate E vcid v cl.signerCounter),
                                 Event.submitted ⟨[si]⟩] }) := by
  unfold updateValue CreateTransaction
  rw [show ({ InstanceID := vcid,
              Invoke := some { ContractID := E.ContractValueID, Command := str "update",
                               Args := [{ Name := str "value", Value := v }] },
              SignerCounter := [cl.signerCounter] } : Instruction) =
        valueUpdate E vcid v cl.signerCounter from rfl]
  cases hct : E.CreateTransactionErr w.ledger [valueUpdate E vcid v cl.signerCounter] with
  | some e => rfl
  | none =>
    simp only [spawnTransaction, FillSignersAndSignWith_single]
    cases hs : E.SignInstruction [valueUpdate E vcid v cl.signerCounter] cl.adminkeys
        (valueUpdate E vcid v cl.signerCounter) with
    | error e => rfl
    | ok si =>
      simp only [AddTransactionAndWait]
      cases hl : (E.AddTransactionAndWait w.ledger ⟨[si]⟩ 10).1 with
      | error e => simp [List.append_assoc]
      | ok u => simp [List.append_assoc]


theorem encodeAndUpdate_submits {σ : Type} (E : Ext σ) (depth : Nat) (ar : AccessRight)
    (arid : InstanceID) (cl : Client) (w : World σ) :
    SubmitsRegistry E depth ar arid cl w (encodeAndUpdate E depth ar arid cl w) := by
  unfold SubmitsRegistry encodeAndUpdate Encode
  cases henc : E.EncodeErr depth (Buf.accessRight ar) with
  | some e => simp
  | none =>
    simp only [updateValue_eq]
    cases hct : E.CreateTransactionErr w.ledger
        [valueUpdate E arid (Buf.accessRight ar) cl.signerCounter] with
    | some e => simp
    | none =>
      cases hs : E.SignInstruction [valueUpdate E arid (Buf.accessRight ar) cl.signerCounter]
          cl.adminkeys (valueUpdate E arid (Buf.accessRight ar) cl.signerCounter) with
      | error e => simp
      | ok si =>
        cases hl : (E.AddTransactionAndWait w.ledger ⟨[si]⟩ 10).1 with
        | error e => simp [hl]
        | ok u => simp [hl]


theorem Finmap_erase_of_not_mem (m : StringMap) (k : GoString) (h : k ∉ m) : m.erase k = m := by
  apply Finmap.ext_lookup
  intro x
  by_cases hx : x = k
  · subst hx
    rw [Finmap.lookup_erase, Finmap.lookup_eq_none.mpr h]
  · exact Finmap.lookup_erase_ne hx

/-! ## C7 and C8: what the grant and the modification do with the registry read -/

theorem assignEntry_nil (k v : GoString) :
    assignEntry ∅ k v = .error (.panic "assignment to entry in nil map") := by
  simp [assignEntry, isNilMap]

theorem assignEntry_ok (m : StringMap) (k v : GoString) (h : m ≠ ∅) :
    assignEntry m k v = .ok (m.insert k v) := by
  simp [assignEntry, isNilMap, h]

theorem ne_empty_of_mem (m : StringMap) (k : GoString) (h : k ∈ m) : m ≠ ∅ := by
  intro he
  rw [he] at h
  exact Finmap.not_mem_empty h

/-- The three ways of `AddQuerierToProject` on the registry read from the
ledger: an id that is a key of the map is refused with world and client
untouched; on a registry without entries, whose decoded map is nil, the
assignment panics with world and client untouched; otherwise every transaction
built or submitted is the update of the registry instance to the old map
extended with the id, every other entry unchanged. -/
theorem AddQuerierToProject_of_read {σ : Type} (E : Ext σ) (pdid : Bytes)
    (qid access : GoString) (cl : Client) (w : World σ) (ar : AccessRight) (arid : InstanceID)
    (hread : GetAccessRightFromProjectDarcID E pdid w = .ok (ar, arid)) :
    (qid ∈ ar.AccessRightsMap →
      (∃ e, (AddQuerierToProject E pdid qid access cl w).1 = .error e) ∧
      (AddQuerierToProject E pdid qid access cl w).2.2 = w ∧
      (AddQuerierToProject E pdid qid access cl w).2.1 = cl) ∧
    (ar.AccessRightsMap = ∅ →
      AddQuerierToProject E pdid qid access cl w =
        (.error (.panic "assignment to entry in nil map"), cl, w)) ∧
    (qid ∉ ar.AccessRightsMap → ar.AccessRightsMap ≠ ∅ →
      SubmitsRegistry E 1 { AccessRightsMap := ar.AccessRightsMap.insert qid access } arid cl w
        (AddQuerierToProject E pdid qid access cl w) ∧
      (ar.AccessRightsMap.insert qid access).lookup qid = some access ∧
      ∀ k, k ≠ qid →
        (ar.AccessRightsMap.insert qid access).lookup k = ar.AccessRightsMap.lookup k) := by
  refine ⟨?_, ?_, ?_⟩
  · intro hin
    simp only [AddQuerierToProject, hread, hin, if_true, and_self, and_true]
    exact ⟨_, rfl⟩
  · intro hnil
    have hnot : qid ∉ (∅ : StringMap) := Finmap.not_mem_empty
    simp only [AddQuerierToProject, hread, hnil, hnot, if_false, assignEntry_nil]
  · intro hnot hne
    refine ⟨?_, Finmap.lookup_insert _, fun k hk => Finmap.lookup_insert_of_ne _ hk⟩
    have h : AddQuerierToProject E pdid qid access cl w =
        encodeAndUpdate E 1 { AccessRightsMap := ar.AccessRightsMap.insert qid access } arid
          cl w := by
      simp only [AddQuerierToProject, hread, hnot, if_false, assignEntry_ok _ _ _ hne,
        encodeAndUpdate]
    rw [h]
    exact encodeAndUpdate_submits E 1 _ arid cl w

/-- The ways of `ModifyQuerierAccessRightsForProject` on the registry read from
the ledger: an id that is not a key of the map is refused with world and client
untouched; for a key of the map, when `protobuf.Encode` refuses the pointer to
a pointer it is handed, the call returns the encoding error with world and
client untouched. -/
theorem ModifyQuerierAccessRightsForProject_of_read {σ : Type} (E : Ext σ) (pdid : Bytes)
    (qid access : GoString) (cl : Client) (w : World σ) (ar : AccessRight) (arid : InstanceID)
    (hread : GetAccessRightFromProjectDarcID E pdid w = .ok (ar, arid)) :
    (qid ∉ ar.AccessRightsMap →
      ModifyQuerierAccessRightsForProject E pdid qid access cl w =
        (.error (.err ["The querier doesn't exist in the access rights  ", "%!w(<nil>)"]),
          cl, w)) ∧
    (qid ∈ ar.AccessRightsMap →
      ∀ e, E.EncodeErr 2
          (Buf.accessRight { AccessRightsMap := ar.AccessRightsMap.insert qid access }) = some e →
        ModifyQuerierAccessRightsForProject E pdid qid access cl w =
          (.error (Errorf "Encoding the access right struct" e), cl, w)) := by
  constructor
  · intro hnot
    simp only [ModifyQuerierAccessRightsForProject, hread, hnot, not_false_eq_true, if_true]
  · intro hin e henc
    simp only [ModifyQuerierAccessRightsForProject, hread, hin, not_true_eq_false, if_false,
      assignEntry_ok _ _ _ (ne_empty_of_mem _ _ hin), Encode, henc]

/-- C7, evaluated on the code. On the sample ledger client A creates the
registry of a fresh project and then revokes the querier "init": both calls
return no error and the registry read back has no entry. Granting the querier
"1:1" on it then neither returns an error value nor submits the extended map:
the assignment into the nil map the empty registry decodes to panics, and world
and client are as before the call. On the sample registry, which holds "1:1",
granting "1:1" again is refused and granting "2:1" succeeds. -/
theorem grant_on_emptied_registry_panics :
    ((createAccessRight ledgerExt (Ledger.baseID sampleAdminDarc)
        (Ledger.baseID sampleProjectDarc) clientA freshWorld).1 = .ok () ∧
      (createAccessRight ledgerExt (Ledger.baseID sampleAdminDarc)
        (Ledger.baseID sampleProjectDarc) clientA freshWorld).2.1 = clientAAt 3 ∧
      (RemoveQuerierFromProject ledgerExt (Ledger.baseID sampleProjectDarc) (str "init")
        (clientAAt 3) registryWorld).1 = .ok () ∧
      (GetAccessRightFromProjectDarcID ledgerExt (Ledger.baseID sampleProjectDarc)
        emptiedWorld).toOption.map (fun r => r.1) = some { AccessRightsMap := ∅ }) ∧
    (str "1:1" ∉ (∅ : StringMap) ∧
      AddQuerierToProject ledgerExt (Ledger.baseID sampleProjectDarc) (str "1:1") (str "count")
          (clientAAt 4) emptiedWorld =
        (.error (.panic "assignment to entry in nil map"), clientAAt 4, emptiedWorld) ∧
      createdInstructions (AddQuerierToProject ledgerExt (Ledger.baseID sampleProjectDarc)
          (str "1:1") (str "count") (clientAAt 4) emptiedWorld).2.2.log =
        createdInstructions emptiedWorld.log) ∧
    ((AddQuerierToProject ledgerExt (Ledger.baseID sampleProjectDarc) (str "1:1")
        (str "count_global") clientA sampleWorld).1 =
        .error (.err ["The querier already exist in the access rights ", "%!w(<nil>)"]) ∧
      (AddQuerierToProject ledgerExt (Ledger.baseID sampleProjectDarc) (str "2:1") (str "count")
        clientA sampleWorld).1 = .ok ()) :=
  ⟨⟨rfl, rfl, rfl, rfl⟩, ⟨Finmap.not_mem_empty, rfl, rfl⟩, ⟨rfl, rfl⟩⟩

/-- C8, evaluated on the code. On the sample registry, which holds the querier
"1:1", `ModifyQuerierAccessRightsForProject` for "1:1" does not submit the map
with the new access string: it hands `protobuf.Encode` a pointer to the pointer
`ar`, the encoder refuses it, and the call returns the encoding error with world
and client as before, no instruction built. The sibling `AddQuerierToProject`,
which passes `ar` itself, encodes and succeeds. For the unknown querier "2:1"
the modification is refused with world and client as before. -/
theorem modify_known_querier_fails_encoding :
    (str "1:1" ∈ sampleRegistry.AccessRightsMap ∧
      ModifyQuerierAccessRightsForProject ledgerExt (Ledger.baseID sampleProjectDarc)
          (str "1:1") (str "count") clientA sampleWorld =
        (.error (Errorf "Encoding the access right struct" notAStructPointer), clientA,
          sampleWorld) ∧
      createdInstructions (ModifyQuerierAccessRightsForProject ledgerExt
          (Ledger.baseID sampleProjectDarc) (str "1:1") (str "count") clientA
          sampleWorld).2.2.log = []) ∧
    (AddQuerierToProject ledgerExt (Ledger.baseID sampleProjectDarc) (str "2:1") (str "count")
        clientA sampleWorld).1 = .ok () ∧
    (str "2:1" ∉ sampleRegistry.AccessRightsMap ∧
      ModifyQuerierAccessRightsForProject ledgerExt (Ledger.baseID sampleProjectDarc)
          (str "2:1") (str "count") clientA sampleWorld =
        (.error (.err ["The querier doesn't exist in the access rights  ", "%!w(<nil>)"]),
          clientA, sampleWorld)) :=
  ⟨⟨by decide, rfl, rfl⟩, rfl, ⟨by decide, rfl⟩⟩

/-! ## C9 -/

/-- C9. Revoke is idempotent: for every registry map read from the ledger and
every querier id, present or not, every transaction `RemoveQuerierFromProject`
builds or submits is the update of the registry instance to the old map
without the id, and the call returns no error when encoder, signer and ledger
accept; the submitted map has no entry for the id, agrees with the old map on
every other key, is the old map itself when the id was absent, and revoking
the id from it again gives the same map. -/
theorem revoke_idempotent {σ : Type} (E : Ext σ) (pdid : Bytes) (qid : GoString)
    (cl : Client) (w : World σ) (ar : AccessRight) (arid : InstanceID)
    (hread : GetAccessRightFromProjectDarcID E pdid w = .ok (ar, arid)) :
    SubmitsRegistry E 1 { AccessRightsMap := ar.AccessRightsMap.erase qid } arid cl w
        (RemoveQuerierFromProject E pdid qid cl w) ∧
      qid ∉ ar.AccessRightsMap.erase qid ∧
      (∀ k, k ≠ qid → (ar.AccessRightsMap.erase qid).lookup k = ar.AccessRightsMap.lookup k) ∧
      (qid ∉ ar.AccessRightsMap → ar.AccessRightsMap.erase qid = ar.AccessRightsMap) ∧
      (ar.AccessRightsMap.erase qid).erase qid = ar.AccessRightsMap.erase qid := by
  refine ⟨?_, Finmap.not_mem_erase_self, fun k hk => Finmap.lookup_erase_ne hk,
    Finmap_erase_of_not_mem _ _, Finmap_erase_of_not_mem _ _ Finmap.not_mem_erase_self⟩
  have h : RemoveQuerierFromProject E pdid qid cl w =
      encodeAndUpdate E 1 { AccessRightsMap := ar.AccessRightsMap.erase qid } arid cl w := by
    simp only [RemoveQuerierFromProject, hread, encodeAndUpdate]
  rw [h]
  exact encodeAndUpdate_submits E 1 _ arid cl w


/-! ## Witness of C9 on the sample ledger -/

/-- Witness of C9: on the sample registry, revoking the absent querier "2:1"
submits the registry unchanged and succeeds, as does revoking "1:1"; the
registry read back after revoking "1:1" twice is the one read back after
revoking it once. -/
theorem revoke_idempotent_witness :
    (SubmitsRegistry ledgerExt 1
        { AccessRightsMap := sampleRegistry.AccessRightsMap.erase (str "2:1") }
        sampleRegistryID clientA sampleWorld
        (RemoveQuerierFromProject ledgerExt (Ledger.baseID sampleProjectDarc) (str "2:1")
          clientA sampleWorld) ∧
      (str "2:1") ∉ sampleRegistry.AccessRightsMap.erase (str "2:1") ∧
      (∀ k, k ≠ (str "2:1") →
        (sampleRegistry.AccessRightsMap.erase (str "2:1")).lookup k =
          sampleRegistry.AccessRightsMap.lookup k) ∧
      ((str "2:1") ∉ sampleRegistry.AccessRightsMap →
        sampleRegistry.AccessRightsMap.erase (str "2:1") = sampleRegistry.AccessRightsMap) ∧
      (sampleRegistry.AccessRightsMap.erase (str "2:1")).erase (str "2:1") =
        sampleRegistry.AccessRightsMap.erase (str "2:1")) ∧
    (RemoveQuerierFromProject ledgerExt (Ledger.baseID sampleProjectDarc) (str "2:1")
        clientA sampleWorld).1 = .ok () ∧
    (RemoveQuerierFromProject ledgerExt (Ledger.baseID sampleProjectDarc) (str "1:1")
        clientA sampleWorld).1 = .ok () ∧
    (RemoveQuerierFromProject ledgerExt (Ledger.baseID sampleProjectDarc) (str "1:1")
        (clientAAt 2)
        (RemoveQuerierFromProject ledgerExt (Ledger.baseID sampleProjectDarc) (str "1:1")
          clientA sampleWorld).2.2).1 = .ok () ∧
    GetAccessRightFromProjectDarcID ledgerExt (Ledger.baseID sampleProjectDarc)
        (RemoveQuerierFromProject ledgerExt (Ledger.baseID sampleProjectDarc) (str "1:1")
          (clientAAt 2)
          (RemoveQuerierFromProject ledgerExt (Ledger.baseID sampleProjectDarc) (str "1:1")
            clientA sampleWorld).2.2).2.2 =
      GetAccessRightFromProjectDarcID ledgerExt (Ledger.baseID sampleProjectDarc)
        (RemoveQuerierFromProject ledgerExt (Ledger.baseID sampleProjectDarc) (str "1:1")
          clientA sampleWorld).2.2 :=
  ⟨revoke_idempotent ledgerExt (Ledger.baseID sampleProjectDarc) (str "2:1") clientA
      sampleWorld sampleRegistry sampleRegistryID rfl,
   rfl, rfl, rfl, rfl⟩


/-! ## C10 -/

/-- C10, as stated, fails: on the sample ledger with a freshly created project,
`createAccessRight` succeeds, and the registry then read back for the project
is not empty, it holds the key "init"; `AddQuerierToProject` for the querier
id "init" is refused as a duplicate. -/
theorem registry_starts_empty_counterexample :
    (createAccessRight ledgerExt (Ledger.baseID sampleAdminDarc)
        (Ledger.baseID sampleProjectDarc) clientA freshWorld).1 = .ok () ∧
    (∃ arid, GetAccessRightFromProjectDarcID ledgerExt (Ledger.baseID sampleProjectDarc)
        (createAccessRight ledgerExt (Ledger.baseID sampleAdminDarc)
          (Ledger.baseID sampleProjectDarc) clientA freshWorld).2.2 =
          .ok (initialAccessRight, arid)) ∧
    (str "init") ∈ initialAccessRight.AccessRightsMap ∧
    initialAccessRight.AccessRightsMap ≠ ∅ ∧
    (AddQuerierToProject ledgerExt (Ledger.baseID sampleProjectDarc) (str "init")
        (str "count_global")
        (createAccessRight ledgerExt (Ledger.baseID sampleAdminDarc)
          (Ledger.baseID sampleProjectDarc) clientA freshWorld).2.1
        (createAccessRight ledgerExt (Ledger.baseID sampleAdminDarc)
          (Ledger.baseID sampleProjectDarc) clientA freshWorld).2.2).1 =
      .error (.err ["The querier already exist in the access rights ", "%!w(<nil>)"]) := by
  refine ⟨rfl, ⟨_, rfl⟩, by decide, by decide, rfl⟩


theorem createAccessRight_ok {σ : Type} (E : Ext σ) (adid pdarc : Bytes) (cl : Client)
    (w : World σ) (hok : (createAccessRight E adid pdarc cl w).1 = .ok ()) :
    ∃ s1 s2,
      E.SignInstruction [registrySpawn pdarc cl.signerCounter] cl.adminkeys
        (registrySpawn pdarc cl.signerCounter) = .ok s1 ∧
      E.SignInstruction
        [registryNaming E (E.DeriveID s1 []) (incrementSignerCounter cl).signerCounter]
        cl.adminkeys
        (registryNaming E (E.DeriveID s1 []) (incrementSignerCounter cl).signerCounter) =
          .ok s2 ∧
      (createAccessRight E adid pdarc cl w).2.2.log =
        w.log ++ [Event.created (registrySpawn pdarc cl.signerCounter),
                  Event.submitted ⟨[s1]⟩,
                  Event.created
                    (registryNaming E (E.DeriveID s1 []) (incrementSignerCounter cl).signerCounter),
                  Event.submitted ⟨[s2]⟩] := by
  unfold createAccessRight at hok ⊢
  simp only [Encode, CreateTransaction, spawnTransaction, FillSignersAndSignWith_single,
    AddTransactionAndWait, firstInstruction] at hok ⊢
  rw [show ({ AccessRightsMap := (∅ : StringMap).insert (str "init") (str "init") } : AccessRight)
    = initialAccessRight from rfl] at hok ⊢
  cases henc : E.EncodeErr 1 (Buf.accessRight initialAccessRight) with
  | some e => simp [henc] at hok
  | none =>
    simp only [henc] at hok ⊢
    rw [show ({ InstanceID := NewInstanceID pdarc,
                Spawn := some { ContractID := str "value",
                                Args := [{ Name := str "value",
                                           Value := Buf.accessRight initialAccessRight }] },
                SignerCounter := [cl.signerCounter] } : Instruction) =
          registrySpawn pdarc cl.signerCounter from rfl] at hok ⊢
    cases hct : E.CreateTransactionErr w.ledger [registrySpawn pdarc cl.signerCounter] with
    | some e => simp [hct] at hok
    | none =>
      simp only [hct, FillSignersAndSignWith_single] at hok ⊢
      cases hs : E.SignInstruction [registrySpawn pdarc cl.signerCounter] cl.adminkeys
          (registrySpawn pdarc cl.signerCounter) with
      | error e => simp [hs] at hok
      | ok s1 =>
        simp only [hs] at hok ⊢
        cases hl : (E.AddTransactionAndWait w.ledger ⟨[s1]⟩ 10).1 with
        | error e => simp [hl] at hok
        | ok u =>
          simp only [hl] at hok ⊢
          rw [show ({ InstanceID := E.NamingInstanceID,
                      Invoke := some { ContractID := ContractNamingID, Command := str "add",
                                       Args := [{ Name := str "instanceID",
                                                  Value := Buf.bytes (E.DeriveID s1 []) },
                                                { Name := str "name",
                                                  Value := Buf.bytes (bytesOf (str "AR")) }] },
                      SignerCounter := [(incrementSignerCounter cl).signerCounter] } :
                    Instruction) =
                registryNaming E (E.DeriveID s1 []) (incrementSignerCounter cl).signerCounter
              from rfl] at hok ⊢
          cases hct2 : E.CreateTransactionErr (E.AddTransactionAndWait w.ledger ⟨[s1]⟩ 10).2
              [registryNaming E (E.DeriveID s1 []) (incrementSignerCounter cl).signerCounter] with
          | some e => simp [hct2] at hok
          | none =>
            simp only [hct2, FillSignersAndSignWith_single] at hok ⊢
            cases hs2 : E.SignInstruction
                [registryNaming E (E.DeriveID s1 []) (incrementSignerCounter cl).signerCounter]
                (incrementSignerCounter cl).adminkeys
                (registryNaming E (E.DeriveID s1 [])
                  (incrementSignerCounter cl).signerCounter) with
            | error e => simp [hs2] at hok
            | ok s2 =>
              simp only [hs2] at hok ⊢
              refine ⟨s1, s2, rfl, hs2, ?_⟩
              cases hl2 : (E.AddTransactionAndWait (E.AddTransactionAndWait w.ledger ⟨[s1]⟩ 10).2
                  ⟨[s2]⟩ 10).1 with
              | error e => simp [hl2] at hok
              | ok u2 => simp [List.append_assoc]

theorem createAccessRight_spawns {σ : Type} (E : Ext σ) (adid pdarc : Bytes) (cl : Client)
    (w : World σ) (henc : E.EncodeErr 1 (Buf.accessRight initialAccessRight) = none) :
    ∃ tail, (createAccessRight E adid pdarc cl w).2.2.log =
      w.log ++ Event.created (registrySpawn pdarc cl.signerCounter) :: tail := by
  unfold createAccessRight
  simp only [Encode, CreateTransaction, spawnTransaction, AddTransactionAndWait,
    firstInstruction]
  rw [show ({ AccessRightsMap := (∅ : StringMap).insert (str "init") (str "init") } : AccessRight)
    = initialAccessRight from rfl]
  simp only [henc]
  rw [show ({ InstanceID := NewInstanceID pdarc,
              Spawn := some { ContractID := str "value",
                              Args := [{ Name := str "value",
                                         Value := Buf.accessRight initialAccessRight }] },
              SignerCounter := [cl.signerCounter] } : Instruction) =
        registrySpawn pdarc cl.signerCounter from rfl]
  cases hct : E.CreateTransactionErr w.ledger [registrySpawn pdarc cl.signerCounter] with
  | some e => exact ⟨[], rfl⟩
  | none =>
    simp only [hct, FillSignersAndSignWith_single]
    cases hs : E.SignInstruction [registrySpawn pdarc cl.signerCounter] cl.adminkeys
        (registrySpawn pdarc cl.signerCounter) with
    | error e => exact ⟨[], rfl⟩
    | ok s1 =>
      simp only [hs]
      cases hl : (E.AddTransactionAndWait w.ledger ⟨[s1]⟩ 10).1 with
      | error e => exact ⟨[Event.submitted ⟨[s1]⟩], by simp⟩
      | ok u =>
        simp only [hl]
        rw [show ({ InstanceID := E.NamingInstanceID,
                    Invoke := some { ContractID := ContractNamingID, Command := str "add",
                                     Args := [{ Name := str "instanceID",
                                                Value := Buf.bytes (E.DeriveID s1 []) },
                                              { Name := str "name",
                                                Value := Buf.bytes (bytesOf (str "AR")) }] },
                    SignerCounter := [(incrementSignerCounter cl).signerCounter] } :
                  Instruction) =
              registryNaming E (E.DeriveID s1 []) (incrementSignerCounter cl).signerCounter
            from rfl]
        cases hct2 : E.CreateTransactionErr (E.AddTransactionAndWait w.ledger ⟨[s1]⟩ 10).2
            [registryNaming E (E.DeriveID s1 []) (incrementSignerCounter cl).signerCounter] with
        | some e => exact ⟨_, by simp [List.append_assoc]; rfl⟩
        | none =>
          simp only [hct2, FillSignersAndSignWith_single]
          cases hs2 : E.SignInstruction
              [registryNaming E (E.DeriveID s1 []) (incrementSignerCounter cl).signerCounter]
              (incrementSignerCounter cl).adminkeys
              (registryNaming E (E.DeriveID s1 [])
                (incrementSignerCounter cl).signerCounter) with
          | error e => exact ⟨_, by simp [List.append_assoc]; rfl⟩
          | ok s2 =>
            simp only [hs2]
            cases hl2 : (E.AddTransactionAndWait (E.AddTransactionAndWait w.ledger ⟨[s1]⟩ 10).2
                ⟨[s2]⟩ 10).1 with
            | error e => exact ⟨_, by simp [List.append_assoc]; rfl⟩
            | ok u2 => exact ⟨_, by simp [List.append_assoc]; rfl⟩

/-- C10, amended. The access-right value that `createAccessRight` spawns for a
new project is the grants map with exactly one entry, "init" -> "init": it is
the value of the first transaction the call builds (whenever the encoder
accepts it), and a call that returns no error has spawned it and then bound
the spawned instance under the name "AR".  On a project whose registry still
holds that value, `AddQuerierToProject` is refused as a duplicate for the
querier id "init", without building or submitting anything, and for every
other querier id submits the registry extended with that id. -/
theorem registry_starts_with_init {σ : Type} (E : Ext σ) (adid pdarc : Bytes) (cl : Client)
    (w : World σ) :
    (initialAccessRight.AccessRightsMap.lookup (str "init") = some (str "init") ∧
      ∀ k, k ∈ initialAccessRight.AccessRightsMap ↔ k = (str "init")) ∧
    (E.EncodeErr 1 (Buf.accessRight initialAccessRight) = none →
      ∃ tail, (createAccessRight E adid pdarc cl w).2.2.log =
        w.log ++ Event.created (registrySpawn pdarc cl.signerCounter) :: tail) ∧
    ((createAccessRight E adid pdarc cl w).1 = .ok () →
      ∃ s1 s2,
        E.SignInstruction [registrySpawn pdarc cl.signerCounter] cl.adminkeys
          (registrySpawn pdarc cl.signerCounter) = .ok s1 ∧
        E.SignInstruction
          [registryNaming E (E.DeriveID s1 []) (incrementSignerCounter cl).signerCounter]
          cl.adminkeys
          (registryNaming E (E.DeriveID s1 []) (incrementSignerCounter cl).signerCounter) =
            .ok s2 ∧
        (createAccessRight E adid pdarc cl w).2.2.log =
          w.log ++ [Event.created (registrySpawn pdarc cl.signerCounter),
                    Event.submitted ⟨[s1]⟩,
                    Event.created
                      (registryNaming E (E.DeriveID s1 [])
                        (incrementSignerCounter cl).signerCounter),
                    Event.submitted ⟨[s2]⟩]) ∧
    (∀ (pdid : Bytes) (qid access : GoString) (arid : InstanceID) (cl1 : Client)
        (w1 : World σ),
      GetAccessRightFromProjectDarcID E pdid w1 = .ok (initialAccessRight, arid) →
      (qid = (str "init") →
        (∃ e, (AddQuerierToProject E pdid qid access cl1 w1).1 = .error e) ∧
        (AddQuerierToProject E pdid qid access cl1 w1).2.2 = w1 ∧
        (AddQuerierToProject E pdid qid access cl1 w1).2.1 = cl1) ∧
      (qid ≠ (str "init") →
        SubmitsRegistry E 1
          { AccessRightsMap := initialAccessRight.AccessRightsMap.insert qid access } arid cl1 w1
          (AddQuerierToProject E pdid qid access cl1 w1))) := by
  have hkeys : ∀ k, k ∈ initialAccessRight.AccessRightsMap ↔ k = (str "init") := by
    intro k
    unfold initialAccessRight
    rw [Finmap.mem_insert]
    constructor
    · rintro (h | h)
      · exact h
      · exact absurd h Finmap.not_mem_empty
    · exact Or.inl
  refine ⟨⟨by decide, hkeys⟩, createAccessRight_spawns E adid pdarc cl w,
    createAccessRight_ok E adid pdarc cl w, ?_⟩
  intro pdid qid access arid cl1 w1 hread
  constructor
  · intro hq
    have hin : qid ∈ initialAccessRight.AccessRightsMap := (hkeys qid).mpr hq
    simp only [AddQuerierToProject, hread, hin, if_true, and_self, and_true]
    exact ⟨_, rfl⟩
  · intro hq
    have hnot : qid ∉ initialAccessRight.AccessRightsMap := fun h => hq ((hkeys qid).mp h)
    have h : AddQuerierToProject E pdid qid access cl1 w1 =
        encodeAndUpdate E 1
          { AccessRightsMap := initialAccessRight.AccessRightsMap.insert qid access } arid
          cl1 w1 := by
      simp only [AddQuerierToProject, hread, hnot, if_false,
        assignEntry_ok _ _ _ (ne_empty_of_mem _ _ ((hkeys (str "init")).mpr rfl)),
        encodeAndUpdate]
    rw [h]
    exact encodeAndUpdate_submits E 1 _ arid cl1 w1

/-- Witness of the amended C10 on the sample ledger with a freshly created
project: `createAccessRight` succeeds there, and on the resulting world the
querier "2:1" is granted while "init" is refused. -/
theorem registry_starts_with_init_witness :
    (createAccessRight ledgerExt (Ledger.baseID sampleAdminDarc)
        (Ledger.baseID sampleProjectDarc) clientA freshWorld).1 = .ok () ∧
    (∃ s1 s2,
      ledgerExt.SignInstruction
          [registrySpawn (Ledger.baseID sampleProjectDarc) clientA.signerCounter]
          clientA.adminkeys
          (registrySpawn (Ledger.baseID sampleProjectDarc) clientA.signerCounter) = .ok s1 ∧
      ledgerExt.SignInstruction
          [registryNaming ledgerExt (ledgerExt.DeriveID s1 [])
            (incrementSignerCounter clientA).signerCounter]
          clientA.adminkeys
          (registryNaming ledgerExt (ledgerExt.DeriveID s1 [])
            (incrementSignerCounter clientA).signerCounter) = .ok s2 ∧
      (createAccessRight ledgerExt (Ledger.baseID sampleAdminDarc)
          (Ledger.baseID sampleProjectDarc) clientA freshWorld).2.2.log =
        freshWorld.log ++
          [Event.created (registrySpawn (Ledger.baseID sampleProjectDarc) clientA.signerCounter),
           Event.submitted ⟨[s1]⟩,
           Event.created
             (registryNaming ledgerExt (ledgerExt.DeriveID s1 [])
               (incrementSignerCounter clientA).signerCounter),
           Event.submitted ⟨[s2]⟩]) ∧
    (AddQuerierToProject ledgerExt (Ledger.baseID sampleProjectDarc) (str "2:1")
        (str "count_global")
        (createAccessRight ledgerExt (Ledger.baseID sampleAdminDarc)
          (Ledger.baseID sampleProjectDarc) clientA freshWorld).2.1
        (createAccessRight ledgerExt (Ledger.baseID sampleAdminDarc)
          (Ledger.baseID sampleProjectDarc) clientA freshWorld).2.2).1 = .ok () :=
  ⟨rfl,
   (registry_starts_with_init ledgerExt (Ledger.baseID sampleAdminDarc)
      (Ledger.baseID sampleProjectDarc) clientA freshWorld).2.2.1 rfl,
   rfl⟩


/-! ## C4: unanimity on the reference ledger -/

theorem Satisfies_InitAndExpr (S L : List GoString) (hL : ValidIdentities L) :
    Satisfies S (InitAndExpr L) = L.all (fun a => decide (a ∈ S)) := by
  obtain ⟨hne, _, hok⟩ := hL
  have hbar : '|' ∉ InitAndExpr L :=
    not_mem_Join '|' _ (by decide) L (fun s hs => (hok s hs).2.1)
  have hleaves : leaves '&' (InitAndExpr L) = L := by
    unfold leaves InitAndExpr
    rw [andSep_eq]
    exact leaves_Join '&' (by decide) L hne (fun s hs => (hok s hs).1)
      (fun s hs => (hok s hs).2.2)
  unfold Satisfies
  rw [if_neg hbar, hleaves]

theorem Satisfies_InitOrExpr (S L : List GoString) (hL : ValidIdentities L) :
    Satisfies S (InitOrExpr L) = L.any (fun a => decide (a ∈ S)) := by
  obtain ⟨hne, _, hok⟩ := hL
  cases L with
  | nil => exact absurd rfl hne
  | cons a rest =>
    cases rest with
    | nil =>
      have ha := hok a (by simp)
      have hexpr : InitOrExpr [a] = a := rfl
      have hleaves : leaves '&' a = [a] := by
        unfold leaves Split
        rw [Split_go_no_sep _ _ _ ha.1]
        simp [TrimSpace_self a ha.2.2]
      unfold Satisfies
      rw [hexpr, if_neg ha.2.1, hleaves]
      simp
    | cons b rest =>
      have hbar : '|' ∈ InitOrExpr (a :: b :: rest) := bar_mem_Join a b rest
      have hamp : '&' ∉ InitOrExpr (a :: b :: rest) :=
        not_mem_Join '&' _ (by decide) _ (fun s hs => (hok s hs).1)
      have hleaves : leaves '|' (InitOrExpr (a :: b :: rest)) = a :: b :: rest := by
        unfold leaves InitOrExpr
        rw [orSep_eq]
        exact leaves_Join '|' (by decide) _ hne (fun s hs => (hok s hs).2.1)
          (fun s hs => (hok s hs).2.2)
      unfold Satisfies
      rw [if_pos hbar, if_neg hamp, hleaves]

theorem applyTx_signedBy (s : Ledger) (signer : Signer) (instr : Instruction) (k : Nat)
    (hk : instr.SignerCounter = [k]) :
    Ledger.applyTx s ⟨[signedBy signer instr]⟩ =
      if k = s.expected signer.Identity.text then
        match Ledger.step s (signedBy signer instr) [signer.Identity] with
        | .error e => .error e
        | .ok s1 => .ok { s1 with counters := (signer.Identity.text, k) :: s1.counters }
      else .error (errorsNew "ReplayError") := by
  simp [Ledger.applyTx, signedBy, hk]

theorem SignInstruction_ledger (signer : Signer) (instr : Instruction) (k : Nat)
    (hk : instr.SignerCounter = [k]) (hsec : signer.Secret ≠ []) :
    ledgerExt.SignInstruction [instr] signer instr = .ok (signedBy signer instr) := by
  simp [ledgerExt, signedBy, hk, hsec]


theorem ExecDefferedTx_ledger (pid : InstanceID) (ce : Client) (w : World Ledger)
    (hsec : ce.adminkeys.Secret ≠ []) :
    (ExecDefferedTx ledgerExt pid ce w).1 =
        (match Ledger.applyTx w.ledger ⟨[signedBy ce.adminkeys (execInstruction pid ce)]⟩ with
          | .ok _ => .ok ()
          | .error e => .error (Errorf "Adding transaction to the ledger" e)) ∧
      (ExecDefferedTx ledgerExt pid ce w).2.2.ledger =
        (match Ledger.applyTx w.ledger ⟨[signedBy ce.adminkeys (execInstruction pid ce)]⟩ with
          | .ok s1 => s1
          | .error _ => w.ledger) := by
  have hsign := SignInstruction_ledger ce.adminkeys (execInstruction pid ce) ce.signerCounter rfl
    hsec
  have hct : ∀ (s : Ledger) (l : List Instruction), ledgerExt.CreateTransactionErr s l = none :=
    fun _ _ => rfl
  have hadd : ∀ (s : Ledger) (ctx : ClientTransaction) (n : Nat),
      ledgerExt.AddTransactionAndWait s ctx n =
        (match Ledger.applyTx s ctx with
          | .ok s1 => (.ok (), s1)
          | .error e => (.error e, s)) := fun _ _ _ => rfl
  unfold ExecDefferedTx CreateTransaction
  rw [show ({ InstanceID := pid,
              Invoke := some { ContractID := ContractDeferredID,
                               Command := str "execProposedTx", Args := [] },
              SignerCounter := [ce.signerCounter] } : Instruction) = execInstruction pid ce
        from rfl]
  simp only [hct, spawnTransaction, FillSignersAndSignWith_single, hsign, AddTransactionAndWait,
    hadd]
  cases Ledger.applyTx w.ledger ⟨[signedBy ce.adminkeys (execInstruction pid ce)]⟩ with
  | error e => exact ⟨rfl, rfl⟩
  | ok s1 => exact ⟨rfl, rfl⟩

theorem ExecDefferedTx_keyless (pid : InstanceID) (ce : Client) (w : World Ledger)
    (hsec : ce.adminkeys.Secret = []) :
    (∃ e, (ExecDefferedTx ledgerExt pid ce w).1 = .error e) ∧
      (ExecDefferedTx ledgerExt pid ce w).2.2.ledger = w.ledger := by
  have hct : ∀ (s : Ledger) (l : List Instruction), ledgerExt.CreateTransactionErr s l = none :=
    fun _ _ => rfl
  have hsign : ∀ (l : List Instruction) (i : Instruction),
      ledgerExt.SignInstruction l ce.adminkeys i = .error nilKeyPanic := by
    intro l i
    simp [ledgerExt, hsec]
  unfold ExecDefferedTx CreateTransaction
  simp only [hct, spawnTransaction, FillSignersAndSignWith_single, hsign, and_true]
  exact ⟨_, rfl⟩

theorem applyPlain_evolve (s : Ledger) (adk : InstanceID) (d nd : Darc)
    (signers : List Identity) (hd : s.darcs.lookup adk = some d) :
    Ledger.applyPlain s (evolveInstruction adk nd) signers =
      if ! s.authorised adk (str "invoke:darc.evolve") signers then
        .error (errorsNew "AuthorizationError")
      else if nd.Version = d.Version + 1 ∧ nd.BaseID = Ledger.baseID d then
        .ok { s with darcs := (adk, nd) :: s.darcs }
      else .error (errorsNew "ValidationError") := by
  simp [Ledger.applyPlain, evolveInstruction, argValue, hd]

theorem authorised_evolve (s : Ledger) (adk : InstanceID) (d : Darc) (L : List GoString)
    (signers : List Identity) (hL : ValidIdentities L) (hd : s.darcs.lookup adk = some d)
    (hg : GuardedBy d L) :
    s.authorised adk (str "invoke:darc.evolve") signers =
      L.all (fun a => decide (a ∈ signers.map Identity.String)) := by
  unfold Ledger.authorised
  rw [hd]
  simp only [hg.1.1, hg.1.2, Bool.true_and]
  exact Satisfies_InitAndExpr _ L hL

theorem authorised_addProof (s : Ledger) (adk : InstanceID) (d : Darc) (L : List GoString)
    (signers : List Identity) (hL : ValidIdentities L) (hd : s.darcs.lookup adk = some d)
    (hg : GuardedBy d L) :
    s.authorised adk (str "invoke:deferred.addProof") signers =
      L.any (fun a => decide (a ∈ signers.map Identity.String)) := by
  unfold Ledger.authorised
  rw [hd]
  simp only [hg.2.1.1, hg.2.1.2, Bool.true_and]
  exact Satisfies_InitOrExpr _ L hL

theorem authorised_exec (s : Ledger) (adk : InstanceID) (d : Darc) (L : List GoString)
    (signers : List Identity) (hL : ValidIdentities L) (hd : s.darcs.lookup adk = some d)
    (hg : GuardedBy d L) :
    s.authorised adk (str "invoke:deferred.execProposedTx") signers =
      L.any (fun a => decide (a ∈ signers.map Identity.String)) := by
  unfold Ledger.authorised
  rw [hd]
  simp only [hg.2.2.1, hg.2.2.2, Bool.true_and]
  exact Satisfies_InitOrExpr _ L hL

theorem any_mem_single (L : List GoString) (a : GoString) (ha : a ∈ L) :
    L.any (fun x => decide (x ∈ [a])) = true := by
  rw [List.any_eq_true]
  exact ⟨a, ha, by simp⟩

theorem execProposedTx_unsatisfied (s : Ledger) (pid : InstanceID) (p : Proposal) (d nd : Darc)
    (L : List GoString) (hL : ValidIdentities L) (hp : s.proposals.lookup pid = some p)
    (hi : p.instructions = [evolveInstruction p.darc nd])
    (hd : s.darcs.lookup p.darc = some d) (hg : GuardedBy d L)
    (a : GoString) (ha : a ∈ L) (hna : a ∉ p.collected.map Identity.String)
    (instr : Instruction) (hpid : instr.InstanceID = pid) (signers : List Identity) :
    ∃ e, Ledger.execProposedTx s instr signers = .error e := by
  have hauth : s.authorised p.darc (str "invoke:darc.evolve") p.collected = false := by
    rw [authorised_evolve s p.darc d L p.collected hL hd hg, List.all_eq_false]
    exact ⟨a, ha, by simpa using hna⟩
  unfold Ledger.execProposedTx
  rw [hpid, hp]
  simp only
  split
  · exact ⟨_, rfl⟩
  · split
    · exact ⟨_, rfl⟩
    · split
      · exact ⟨_, rfl⟩
      · rw [hi]
        simp only [applyPlain_evolve s p.darc d nd p.collected hd, hauth]
        exact ⟨_, rfl⟩

theorem execProposedTx_executed (s : Ledger) (pid : InstanceID) (p : Proposal)
    (hp : s.proposals.lookup pid = some p) (hx : p.executed = true)
    (instr : Instruction) (hpid : instr.InstanceID = pid) (signers : List Identity) :
    ∃ e, Ledger.execProposedTx s instr signers = .error e := by
  unfold Ledger.execProposedTx
  rw [hpid, hp]
  simp only [hx]
  split
  · exact ⟨_, rfl⟩
  · exact ⟨_, rfl⟩

theorem execProposedTx_satisfied (s : Ledger) (pid : InstanceID) (p : Proposal) (d nd : Darc)
    (L : List GoString) (hL : ValidIdentities L) (hp : s.proposals.lookup pid = some p)
    (hi : p.instructions = [evolveInstruction p.darc nd])
    (hx : p.executed = false) (hexp : ¬ p.expiryHeight < s.height)
    (hd : s.darcs.lookup p.darc = some d) (hg : GuardedBy d L)
    (hnd : nd.Version = d.Version + 1 ∧ nd.BaseID = Ledger.baseID d)
    (hall : ∀ a ∈ L, a ∈ p.collected.map Identity.String)
    (instr : Instruction) (hpid : instr.InstanceID = pid) (id : Identity)
    (hid : id.text ∈ L) :
    Ledger.execProposedTx s instr [id] =
      .ok { s with darcs := (p.darc, nd) :: s.darcs,
                   proposals := (pid, { p with executed := true }) :: s.proposals } := by
  have hauth : s.authorised p.darc (str "invoke:darc.evolve") p.collected = true := by
    rw [authorised_evolve s p.darc d L p.collected hL hd hg, List.all_eq_true]
    intro a ha
    simpa using hall a ha
  have houter : s.authorised p.darc (str "invoke:deferred.execProposedTx") [id] = true := by
    rw [authorised_exec s p.darc d L [id] hL hd hg]
    exact any_mem_single L id.text hid
  unfold Ledger.execProposedTx
  rw [hpid, hp]
  simp only [houter, hx, hexp, hi, applyPlain_evolve s p.darc d nd p.collected hd, hauth, hnd]
  simp


theorem step_addProof (s : Ledger) (pid : InstanceID) (p : Proposal) (d : Darc)
    (L : List GoString) (hL : ValidIdentities L) (hp : s.proposals.lookup pid = some p)
    (hi : p.instructions ≠ []) (hexp : ¬ p.expiryHeight < s.height)
    (hd : s.darcs.lookup p.darc = some d) (hg : GuardedBy d L)
    (c : Client) (hc : c.adminkeys.Identity.text ∈ L) :
    Ledger.step s (signedBy c.adminkeys (addProofInstruction pid c)) [c.adminkeys.Identity] =
      .ok { s with proposals :=
              (pid, { p with collected := addSigner p.collected c.adminkeys.Identity })
                :: s.proposals } := by
  have houter : s.authorised p.darc (str "invoke:deferred.addProof") [c.adminkeys.Identity]
      = true := by
    rw [authorised_addProof s p.darc d L [c.adminkeys.Identity] hL hd hg]
    exact any_mem_single L c.adminkeys.Identity.text hc
  have h1 : ¬ (str "identity") = (str "signature") := by decide
  have h2 : ¬ (str "identity") = (str "index") := by decide
  have h3 : ¬ (str "signature") = (str "index") := by decide
  have h4 : leDecode (PutUint32 0) = 0 := by decide
  have h5 : 0 < p.instructions.length := List.length_pos.mpr hi
  simp [Ledger.step, signedBy, addProofInstruction, Ledger.addProof, hp, houter, hexp, argValue,
    h1, h2, h3, h4, h5, addSigner]

theorem AddSignatureToDefferedTx_ledger (pid : InstanceID) (c : Client) (w : World Ledger)
    (p : Proposal) (x : Instruction) (hp : w.ledger.proposals.lookup pid = some p)
    (hi : p.instructions = [x]) (hsec : c.adminkeys.Secret ≠ []) :
    (AddSignatureToDefferedTx ledgerExt pid c w).1 =
        (match Ledger.applyTx w.ledger ⟨[signedBy c.adminkeys (addProofInstruction pid c)]⟩ with
          | .ok _ => .ok ()
          | .error e => .error (Errorf "Adding transaction to the ledger" e)) ∧
      (AddSignatureToDefferedTx ledgerExt pid c w).2.2.ledger =
        (match Ledger.applyTx w.ledger ⟨[signedBy c.adminkeys (addProofInstruction pid c)]⟩ with
          | .ok s1 => s1
          | .error _ => w.ledger) := by
  have hsign := SignInstruction_ledger c.adminkeys (addProofInstruction pid c) c.signerCounter
    rfl hsec
  have hct : ∀ (s : Ledger) (l : List Instruction), ledgerExt.CreateTransactionErr s l = none :=
    fun _ _ => rfl
  have hadd : ∀ (s : Ledger) (ctx : ClientTransaction) (n : Nat),
      ledgerExt.AddTransactionAndWait s ctx n =
        (match Ledger.applyTx s ctx with
          | .ok s1 => (.ok (), s1)
          | .error e => (.error e, s)) := fun _ _ _ => rfl
  have hget : ledgerExt.GetDeferredData w.ledger pid =
      .ok { ProposedTransaction := ⟨p.instructions⟩, ExpireBlockIndex := p.expiryHeight,
            InstructionHashes := [Ledger.instructionHash pid 0],
            MaxNumExecution := if p.executed then 0 else 1 } := by
    simp [ledgerExt, hp, hi, List.range_succ]
  have henc : ∀ (b : Buf), ledgerExt.EncodeErr 1 b = none := fun _ => rfl
  have hsg : ∀ msg, ledgerExt.Sign c.adminkeys msg =
      .ok (Buf.signature c.adminkeys.Identity msg) := by
    intro msg
    simp [ledgerExt, hsec]
  unfold AddSignatureToDefferedTx CreateTransaction
  simp only [hget, Encode, henc, firstHash, AuthKey, hsg]
  rw [show ({ InstanceID := pid,
              Invoke := some { ContractID := ContractDeferredID, Command := str "addProof",
                               Args := [{ Name := str "identity",
                                          Value := Buf.identity c.adminkeys.Identity },
                                        { Name := str "signature",
                                          Value := Buf.signature c.adminkeys.Identity
                                            (Ledger.instructionHash pid 0) },
                                        { Name := str "index",
                                          Value := Buf.bytes (PutUint32 0) }] },
              SignerCounter := [c.signerCounter] } : Instruction) = addProofInstruction pid c
        from rfl]
  simp only [hct, spawnTransaction, FillSignersAndSignWith_single, hsign, AddTransactionAndWait,
    hadd]
  cases Ledger.applyTx w.ledger ⟨[signedBy c.adminkeys (addProofInstruction pid c)]⟩ with
  | error e => exact ⟨rfl, rfl⟩
  | ok s1 => exact ⟨rfl, rfl⟩


theorem addSignature_admin (pid : InstanceID) (c : Client) (w : World Ledger) (p : Proposal)
    (x : Instruction) (d : Darc) (L : List GoString) (hL : ValidIdentities L)
    (hp : w.ledger.proposals.lookup pid = some p) (hi : p.instructions = [x])
    (hexp : ¬ p.expiryHeight < w.ledger.height) (hd : w.ledger.darcs.lookup p.darc = some d)
    (hg : GuardedBy d L) (hc : IsAdminClient w.ledger L c) :
    (AddSignatureToDefferedTx ledgerExt pid c w).1 = .ok () ∧
      (AddSignatureToDefferedTx ledgerExt pid c w).2.2.ledger =
        { w.ledger with
            proposals :=
              (pid, { p with collected := addSigner p.collected c.adminkeys.Identity })
                :: w.ledger.proposals,
            counters := (c.adminkeys.Identity.text, c.signerCounter) :: w.ledger.counters } := by
  obtain ⟨hin, hsec, hctr⟩ := hc
  have hne : p.instructions ≠ [] := by rw [hi]; simp
  have hstep := step_addProof w.ledger pid p d L hL hp hne hexp hd hg c hin
  have happly := applyTx_signedBy w.ledger c.adminkeys (addProofInstruction pid c)
    c.signerCounter rfl
  rw [if_pos hctr, hstep] at happly
  have h := AddSignatureToDefferedTx_ledger pid c w p x hp hi hsec
  rw [happly] at h
  exact h

theorem expected_cons_ne (s : Ledger) (k x : GoString) (n : Nat) (h : x ≠ k) :
    Ledger.expected { s with counters := (k, n) :: s.counters } x = Ledger.expected s x := by
  have hb : (x == k) = false := by simpa using h
  simp [Ledger.expected, List.lookup, hb]

theorem foldl_addSigner (ids : List Identity) :
    ∀ C : List Identity, (C ++ ids).Nodup → ids.foldl addSigner C = C ++ ids := by
  induction ids with
  | nil => intro C _; simp
  | cons id rest ih =>
    intro C hnd
    have hid : id ∉ C := by
      intro h
      have := (List.nodup_append.mp hnd).2.2
      exact this h (by simp)
    have hstep : addSigner C id = C ++ [id] := by simp [addSigner, hid]
    rw [List.foldl_cons, hstep, ih (C ++ [id]) (by simpa using hnd)]
    simp

theorem collectSignatures_spec (pid : InstanceID) (d : Darc) (L : List GoString)
    (hL : ValidIdentities L) (x : Instruction) (cls : List Client) :
    ∀ (w : World Ledger) (p : Proposal),
      w.ledger.proposals.lookup pid = some p → p.instructions = [x] →
      ¬ p.expiryHeight < w.ledger.height → w.ledger.darcs.lookup p.darc = some d →
      GuardedBy d L → (cls.map (fun c => c.adminkeys.Identity.text)).Nodup →
      (∀ c ∈ cls, IsAdminClient w.ledger L c) →
      signaturesAdded ledgerExt pid cls w ∧
      (collectSignatures ledgerExt pid cls w).ledger.proposals.lookup pid =
        some { p with collected :=
                 (cls.map (fun c => c.adminkeys.Identity)).foldl addSigner p.collected } ∧
      (collectSignatures ledgerExt pid cls w).ledger.darcs = w.ledger.darcs ∧
      (collectSignatures ledgerExt pid cls w).ledger.height = w.ledger.height ∧
      ∀ y, y ∉ cls.map (fun c => c.adminkeys.Identity.text) →
        (collectSignatures ledgerExt pid cls w).ledger.expected y = w.ledger.expected y := by
  induction cls with
  | nil =>
    intro w p hp _ _ _ _ _ _
    exact ⟨trivial, by simpa [collectSignatures] using hp, rfl, rfl, fun _ _ => rfl⟩
  | cons c rest ih =>
    intro w p hp hi hexp hd hg hnd hadm
    have hc := hadm c (by simp)
    obtain ⟨hok, hledger⟩ := addSignature_admin pid c w p x d L hL hp hi hexp hd hg hc
    have hnd1 : c.adminkeys.Identity.text ∉ rest.map (fun c => c.adminkeys.Identity.text) ∧
        (rest.map (fun c => c.adminkeys.Identity.text)).Nodup := by
      simpa [List.nodup_cons] using hnd
    have hp1 : (AddSignatureToDefferedTx ledgerExt pid c w).2.2.ledger.proposals.lookup pid =
        some { p with collected := addSigner p.collected c.adminkeys.Identity } := by
      rw [hledger]; simp
    have hadm1 : ∀ c1 ∈ rest,
        IsAdminClient (AddSignatureToDefferedTx ledgerExt pid c w).2.2.ledger L c1 := by
      intro c1 hc1
      obtain ⟨h1, h2, h3⟩ := hadm c1 (by simp [hc1])
      refine ⟨h1, h2, ?_⟩
      have hne : c1.adminkeys.Identity.text ≠ c.adminkeys.Identity.text := by
        intro heq
        exact hnd1.1 (heq ▸ List.mem_map_of_mem (fun c => c.adminkeys.Identity.text) hc1)
      rw [hledger, h3]
      exact (expected_cons_ne _ _ _ _ hne).symm
    have ih1 := ih (AddSignatureToDefferedTx ledgerExt pid c w).2.2
      { p with collected := addSigner p.collected c.adminkeys.Identity } hp1 hi
      (by rw [hledger]; exact hexp) (by rw [hledger]; exact hd) hg hnd1.2 hadm1
    obtain ⟨ha, hb, hc2, hd2, he⟩ := ih1
    refine ⟨⟨hok, ha⟩, ?_, ?_, ?_, ?_⟩
    · simpa [collectSignatures] using hb
    · simp only [collectSignatures]; rw [hc2, hledger]
    · simp only [collectSignatures]; rw [hd2, hledger]
    · intro y hy
      have hy1 : y ≠ c.adminkeys.Identity.text ∧
          y ∉ rest.map (fun c => c.adminkeys.Identity.text) := by
        simpa using hy
      simp only [collectSignatures]
      rw [he y hy1.2, hledger]
      exact expected_cons_ne _ _ _ _ hy1.1


theorem step_exec (s : Ledger) (signer : Signer) (pid : InstanceID) (ce : Client)
    (signers : List Identity) :
    Ledger.step s (signedBy signer (execInstruction pid ce)) signers =
      Ledger.execProposedTx s (signedBy signer (execInstruction pid ce)) signers := by
  have h1 : ¬ (str "execProposedTx") = (str "addProof") := by decide
  simp [Ledger.step, signedBy, execInstruction, h1]

theorem ExecDefferedTx_error_of (pid : InstanceID) (ce : Client) (w : World Ledger)
    (h : ∀ signers, ∃ e, Ledger.execProposedTx w.ledger
      (signedBy ce.adminkeys (execInstruction pid ce)) signers = .error e) :
    (∃ e, (ExecDefferedTx ledgerExt pid ce w).1 = .error e) ∧
      (ExecDefferedTx ledgerExt pid ce w).2.2.ledger = w.ledger := by
  by_cases hsec : ce.adminkeys.Secret = []
  · exact ExecDefferedTx_keyless pid ce w hsec
  · rw [(ExecDefferedTx_ledger pid ce w hsec).1, (ExecDefferedTx_ledger pid ce w hsec).2,
      applyTx_signedBy w.ledger ce.adminkeys (execInstruction pid ce) ce.signerCounter rfl]
    split_ifs with hk
    · obtain ⟨e, he⟩ := h [ce.adminkeys.Identity]
      rw [step_exec, he]
      exact ⟨⟨_, rfl⟩, rfl⟩
    · exact ⟨⟨_, rfl⟩, rfl⟩

theorem ExecDefferedTx_admin (pid : InstanceID) (ce : Client) (w : World Ledger)
    (L : List GoString) (hce : IsAdminClient w.ledger L ce) (s1 : Ledger)
    (h : Ledger.execProposedTx w.ledger (signedBy ce.adminkeys (execInstruction pid ce))
      [ce.adminkeys.Identity] = .ok s1) :
    (ExecDefferedTx ledgerExt pid ce w).1 = .ok () ∧
      (ExecDefferedTx ledgerExt pid ce w).2.2.ledger =
        { s1 with counters := (ce.adminkeys.Identity.text, ce.signerCounter) :: s1.counters } := by
  obtain ⟨_, hsec, hctr⟩ := hce
  have happly := applyTx_signedBy w.ledger ce.adminkeys (execInstruction pid ce)
    ce.signerCounter rfl
  rw [if_pos hctr, step_exec, h] at happly
  have hx := ExecDefferedTx_ledger pid ce w hsec
  rw [happly] at hx
  exact hx

/-- C4. Unanimity, on the reference ledger modelled from the spec: let the
admin darc have the evolve rule AND of the `N` distinct admin identities `L`
and let `pid` be a freshly proposed admin-set change.  After any group of
distinct admins (each with a usable key and the replay counter the ledger
expects) has called `AddSignatureToDefferedTx`, every one of those calls has
succeeded; while the group has fewer than `N` members `ExecDefferedTx` fails
for every client and leaves the ledger as it was; once all `N` have signed
`ExecDefferedTx` by an admin succeeds, and every further `ExecDefferedTx` on
the same proposal fails. -/
theorem unanimity (s : Ledger) (log : List Event) (pid : InstanceID) (L : List GoString)
    (hL : ValidIdentities L) (hpend : PendingAdminChange s pid L) (cls : List Client)
    (hdist : (cls.map (fun c => c.adminkeys.Identity.text)).Nodup)
    (hadm : ∀ c ∈ cls, IsAdminClient s L c) :
    signaturesAdded ledgerExt pid cls ⟨s, log⟩ ∧
    (cls.length < L.length →
      ∀ ce : Client,
        (∃ e,
          (ExecDefferedTx ledgerExt pid ce (collectSignatures ledgerExt pid cls ⟨s, log⟩)).1 =
            .error e) ∧
        (ExecDefferedTx ledgerExt pid ce
            (collectSignatures ledgerExt pid cls ⟨s, log⟩)).2.2.ledger =
          (collectSignatures ledgerExt pid cls ⟨s, log⟩).ledger) ∧
    (cls.length = L.length →
      ∀ ce : Client, IsAdminClient (collectSignatures ledgerExt pid cls ⟨s, log⟩).ledger L ce →
        (ExecDefferedTx ledgerExt pid ce (collectSignatures ledgerExt pid cls ⟨s, log⟩)).1 =
          .ok () ∧
        ∀ ce2 : Client, ∃ e,
          (ExecDefferedTx ledgerExt pid ce2
            (ExecDefferedTx ledgerExt pid ce
              (collectSignatures ledgerExt pid cls ⟨s, log⟩)).2.2).1 = .error e) := by
  obtain ⟨p, d, nd, hp, hi, hcol, hx, hexp, hd, hg, hnd⟩ := hpend
  obtain ⟨hsigned, hprop, hdarcs, hheight, _⟩ :=
    collectSignatures_spec pid d L hL _ cls ⟨s, log⟩ p hp hi hexp hd hg hdist hadm
  have hidnd : (cls.map (fun c => c.adminkeys.Identity)).Nodup := by
    have h := hdist
    rw [show cls.map (fun c => c.adminkeys.Identity.text) =
      (cls.map (fun c => c.adminkeys.Identity)).map Identity.text by simp] at h
    exact List.Nodup.of_map _ h
  have hfold : (cls.map (fun c => c.adminkeys.Identity)).foldl addSigner p.collected =
      cls.map (fun c => c.adminkeys.Identity) := by
    rw [hcol, foldl_addSigner _ [] (by simpa using hidnd)]
    simp
  rw [hfold] at hprop
  have htexts : (cls.map (fun c => c.adminkeys.Identity)).map Identity.String =
      cls.map (fun c => c.adminkeys.Identity.text) := by
    simp [Identity.String]
  have hsub : cls.map (fun c => c.adminkeys.Identity.text) ⊆ L := by
    intro a ha
    obtain ⟨c, hc, rfl⟩ := List.mem_map.mp ha
    exact (hadm c hc).1
  refine ⟨hsigned, ?_, ?_⟩
  · intro hlt ce
    have hmiss : ∃ a ∈ L, a ∉ cls.map (fun c => c.adminkeys.Identity.text) := by
      by_contra hcon
      have hall : L ⊆ cls.map (fun c => c.adminkeys.Identity.text) := by
        intro a ha
        by_contra hna
        exact hcon ⟨a, ha, hna⟩
      have hle := (List.subperm_of_subset hL.2.1 hall).length_le
      simp at hle
      omega
    obtain ⟨a, ha, hna⟩ := hmiss
    apply ExecDefferedTx_error_of
    intro signers
    exact execProposedTx_unsatisfied _ pid _ d nd L hL hprop hi (by rw [hdarcs]; exact hd) hg a ha
      (by simpa [htexts] using hna) _ rfl signers
  · intro heq ce hce
    have hall : ∀ a ∈ L, a ∈ cls.map (fun c => c.adminkeys.Identity.text) := by
      have hperm := (List.subperm_of_subset hdist hsub).perm_of_length_le (by simp; omega)
      exact fun a ha => hperm.symm.subset ha
    have hexec := execProposedTx_satisfied (collectSignatures ledgerExt pid cls ⟨s, log⟩).ledger
      pid _ d nd L hL hprop hi hx (by rw [hheight]; exact hexp) (by rw [hdarcs]; exact hd) hg hnd
      (by simpa [htexts] using hall) (signedBy ce.adminkeys (execInstruction pid ce)) rfl
      ce.adminkeys.Identity hce.1
    obtain ⟨hok, hledger⟩ := ExecDefferedTx_admin pid ce _ L hce _ hexec
    refine ⟨hok, ?_⟩
    intro ce2
    apply (ExecDefferedTx_error_of _ _ _ _).1
    intro signers
    refine execProposedTx_executed _ pid
      { p with collected := cls.map (fun c => c.adminkeys.Identity), executed := true }
      ?_ rfl _ rfl signers
    rw [hledger]
    simp


theorem sample_valid : ValidIdentities [str "ed25519:A", str "ed25519:B"] := by
  unfold ValidIdentities
  decide

theorem sample_pending :
    PendingAdminChange proposedWorld.ledger proposalID [str "ed25519:A", str "ed25519:B"] := by
  refine ⟨_, _, _, rfl, rfl, rfl, rfl, by decide, rfl, ?_, rfl, rfl⟩
  unfold GuardedBy
  decide

/-- Witness of C4 on the sample ledger, where client A has proposed to add the
administrator C to the admin darc over A and B: after A alone has signed,
execution fails; after A and B have signed, execution by A succeeds and a
second execution fails for every client. -/
theorem unanimity_witness :
    ((∃ e, (ExecDefferedTx ledgerExt proposalID (clientAAt 3)
        (collectSignatures ledgerExt proposalID [clientAAt 2] proposedWorld)).1 = .error e) ∧
      (ExecDefferedTx ledgerExt proposalID (clientAAt 3)
          (collectSignatures ledgerExt proposalID [clientAAt 2] proposedWorld)).2.2.ledger =
        (collectSignatures ledgerExt proposalID [clientAAt 2] proposedWorld).ledger) ∧
    ((ExecDefferedTx ledgerExt proposalID (clientAAt 3)
        (collectSignatures ledgerExt proposalID [clientAAt 2, clientB] proposedWorld)).1 =
        .ok () ∧
      ∀ ce2 : Client, ∃ e,
        (ExecDefferedTx ledgerExt proposalID ce2
          (ExecDefferedTx ledgerExt proposalID (clientAAt 3)
            (collectSignatures ledgerExt proposalID [clientAAt 2, clientB]
              proposedWorld)).2.2).1 = .error e) :=
  ⟨(unanimity proposedWorld.ledger proposedWorld.log proposalID
      [str "ed25519:A", str "ed25519:B"] sample_valid sample_pending [clientAAt 2]
      (by decide)
      (by
        intro c hc
        rw [List.mem_singleton.mp hc]
        exact ⟨by decide, by decide, rfl⟩)).2.1 (by decide) (clientAAt 3),
   (unanimity proposedWorld.ledger proposedWorld.log proposalID
      [str "ed25519:A", str "ed25519:B"] sample_valid sample_pending [clientAAt 2, clientB]
      (by decide)
      (by
        intro c hc
        rcases List.mem_cons.mp hc with h | h
        · rw [h]; exact ⟨by decide, by decide, rfl⟩
        · rw [List.mem_singleton.mp h]; exact ⟨by decide, by decide, rfl⟩)).2.2 rfl
      (clientAAt 3) ⟨by decide, by decide, rfl⟩⟩


/-! ## C14 -/

theorem IndexOf_loop_first (rule : GoString) (rules : List GoString) :
    ∀ k : Nat, rule ∈ rules →
      ∃ i : Nat, IndexOf.loop rule rules k = ((k + i : Nat) : Int) ∧ i < rules.length ∧
        rules[i]? = some rule ∧ ∀ j, j < i → rules[j]? ≠ some rule := by
  induction rules with
  | nil => intro k h; exact absurd h (by simp)
  | cons v rest ih =>
    intro k hmem
    by_cases h : rule = v
    · refine ⟨0, by simp [IndexOf.loop, h], by simp, by simp [h], ?_⟩
      intro j hj
      exact absurd hj (by omega)
    · have hrest : rule ∈ rest := by
        rcases List.mem_cons.mp hmem with h1 | h1
        · exact absurd h1 h
        · exact h1
      obtain ⟨i, hi, hlt, hget, hmin⟩ := ih (k + 1) hrest
      refine ⟨i + 1, ?_, by simp; omega, by simpa using hget, ?_⟩
      · simp only [IndexOf.loop, h, if_false, hi]
        congr 1
        omega
      · intro j hj
        cases j with
        | zero =>
          simp only [List.getElem?_cons_zero, ne_eq, Option.some.injEq]
          exact fun hv => h hv.symm
        | succ j =>
          simp only [List.getElem?_cons_succ]
          exact hmin j (by omega)

/-- C14. IndexOf finds the first exact match: for every string `r` and list
`rs`, `IndexOf(r, rs)` is -1 if and only if no element of `rs` equals `r`;
otherwise it is the smallest index `i` with `rs[i] == r`, so `0 <= i < len(rs)`.
Equality is equality of the strings as they are: nothing is trimmed or case
folded. -/
theorem IndexOf_first_match (r : GoString) (rs : List GoString) :
    (IndexOf r rs = -1 ↔ ∀ v ∈ rs, v ≠ r) ∧
    (r ∈ rs →
      ∃ i : Nat, IndexOf r rs = (i : Int) ∧ 0 ≤ IndexOf r rs ∧ i < rs.length ∧
        rs[i]? = some r ∧ ∀ j, j < i → rs[j]? ≠ some r) := by
  constructor
  · rw [IndexOf_eq_neg_one]
    constructor
    · intro h v hv hvr
      exact h (hvr ▸ hv)
    · intro h hmem
      exact h r hmem rfl
  · intro hmem
    obtain ⟨i, hi, hlt, hget, hmin⟩ := IndexOf_loop_first r rs 0 hmem
    have hidx : IndexOf r rs = (i : Int) := by
      unfold IndexOf
      rw [hi]
      simp
    exact ⟨i, hidx, by rw [hidx]; omega, hlt, hget, hmin⟩

/-- Witness of C14: among " a", "A", "b", "a", "a" the first exact match of "a"
is at index 3, the entries " a" and "A" do not match. -/
theorem IndexOf_first_match_witness :
    IndexOf (str "a") [str " a", str "A", str "b", str "a", str "a"] = 3 ∧
    IndexOf (str "a") [str " a", str "A"] = -1 ∧
    ∃ i : Nat, IndexOf (str "a") [str " a", str "A", str "b", str "a", str "a"] = (i : Int) ∧
      0 ≤ IndexOf (str "a") [str " a", str "A", str "b", str "a", str "a"] ∧
      i < [str " a", str "A", str "b", str "a", str "a"].length ∧
      [str " a", str "A", str "b", str "a", str "a"][i]? = some (str "a") ∧
      ∀ j, j < i → [str " a", str "A", str "b", str "a", str "a"][j]? ≠ some (str "a") :=
  ⟨by decide, by decide,
   (IndexOf_first_match (str "a") [str " a", str "A", str "b", str "a", str "a"]).2
     (by decide)⟩


/-! ## C17 -/

theorem createAdminDarc_eq (cl : Client) :
    createAdminDarc cl =
      ({ Version := 0, Description := str "Admin darc guards medchain project darcs",
         BaseID := [], PrevID := [],
         Rules :=
           [ { Action := evolve, Expr := InitAndExpr [cl.adminkeys.Identity.String] },
             { Action := sign, Expr := InitOrExpr [cl.adminkeys.Identity.String] },
             { Action := str "invoke:darc.evolve",
               Expr := InitAndExpr [cl.adminkeys.Identity.String] },
             { Action := str "spawn:deferred",
               Expr := InitAndExpr [cl.adminkeys.Identity.String] },
             { Action := str "invoke:deferred.addProof",
               Expr := InitAndExpr [cl.adminkeys.Identity.String] },
             { Action := str "invoke:deferred.execProposedTx",
               Expr := InitAndExpr [cl.adminkeys.Identity.String] },
             { Action := str "spawn:darc",
               Expr := InitAndExpr [cl.adminkeys.Identity.String] } ] }, none) := by
  rfl


/-- C17. A fresh admin darc can be created: for a client whose keys sign the
spawn and whose ledger accepts it (the darc serialises and the transaction is
created), `SpawnNewAdminDarc` returns no error, and the darc it returns guards
each of "invoke:darc.evolve", "spawn:deferred", "invoke:deferred.addProof",
"invoke:deferred.execProposedTx" and "spawn:darc" with the AND expression over
the single identity of the creator. -/
theorem fresh_admin_darc {σ : Type} (E : Ext σ) (cl : Client) (w : World σ) (si : Instruction)
    (hproto : E.ToProtoErr (createAdminDarc cl).1 = none)
    (hcreate : E.CreateTransactionErr w.ledger [adminDarcSpawn E cl] = none)
    (hsign : E.SignInstruction [adminDarcSpawn E cl] cl.adminkeys (adminDarcSpawn E cl) = .ok si)
    (haccept : (E.AddTransactionAndWait w.ledger ⟨[si]⟩ 10).1 = .ok ()) :
    ∃ d : Darc, (SpawnNewAdminDarc E cl w).1 = .ok d ∧
      (∀ a ∈ [str "invoke:darc.evolve", str "spawn:deferred", str "invoke:deferred.addProof",
               str "invoke:deferred.execProposedTx", str "spawn:darc"],
        Rules.Contains d.Rules a = true ∧
        Rules.Get d.Rules a = InitAndExpr [cl.adminkeys.Identity.String]) := by
  refine ⟨(createAdminDarc cl).1, ?_, ?_⟩
  · have hnone : (createAdminDarc cl).2 = none := by rw [createAdminDarc_eq]
    unfold SpawnNewAdminDarc
    have hpair : createAdminDarc cl = ((createAdminDarc cl).1, none) := by
      rw [← hnone]
    rw [hpair]
    simp only [ToProto, hproto, CreateTransaction]
    rw [show ({ InstanceID := NewInstanceID (GetBaseID E cl.genDarc),
                Spawn := some { ContractID := ContractDarcID,
                                Args := [{ Name := str "darc",
                                           Value := Buf.darc (createAdminDarc cl).1 }] },
                SignerCounter := [cl.signerCounter] } : Instruction) = adminDarcSpawn E cl
          from rfl]
    simp only [hcreate, spawnTransaction, FillSignersAndSignWith_single, hsign,
      AddTransactionAndWait, haccept]
  · intro a ha
    rw [createAdminDarc_eq]
    simp only [List.mem_cons, List.mem_singleton, List.not_mem_nil, or_false] at ha
    rcases ha with h | h | h | h | h <;> subst h <;> exact ⟨rfl, rfl⟩

/-- Witness of C17: on the sample genesis ledger, administrator A spawns a fresh
admin darc; the call succeeds and the five rules hold "ed25519:A". -/
theorem fresh_admin_darc_witness :
    ∃ d : Darc, (SpawnNewAdminDarc ledgerExt superAdminClient genesisWorld).1 = .ok d ∧
      (∀ a ∈ [str "invoke:darc.evolve", str "spawn:deferred", str "invoke:deferred.addProof",
               str "invoke:deferred.execProposedTx", str "spawn:darc"],
        Rules.Contains d.Rules a = true ∧
        Rules.Get d.Rules a = InitAndExpr [superAdminClient.adminkeys.Identity.String]) :=
  fresh_admin_darc ledgerExt superAdminClient genesisWorld
    (signedBy adminA (adminDarcSpawn ledgerExt superAdminClient)) rfl rfl rfl rfl


/-! ## C20 -/

/-- C20, evaluated on the code: with non-nil keys, `NewClientWithAuth` does not
return an error for a nil ledger client, nor for one whose `GetGenDarc` fails:
`NewClient` has returned a nil client and the assignment `cl.adminkeys = *keys`
dereferences it, which is a run-time panic.  With a working ledger client the
returned client has `AuthKey()` equal to the keys and `signerCounter` 1, and
with nil keys an error is returned. -/
theorem NewClientWithAuth_nil_client_panics :
    NewClientWithAuth ledgerExt none (some adminA) adminB =
      .error (.panic "invalid memory address or nil pointer dereference") ∧
    NewClient ledgerExt none adminB = .error (errorsNew "A Byzcoin Client is required") ∧
    NewClientWithAuth noGenesisExt (some genesisWorld) (some adminA) adminB =
      .error (.panic "invalid memory address or nil pointer dereference") ∧
    NewClientWithAuth ledgerExt (some genesisWorld) (some adminA) adminB =
      .ok { adminkeys := adminA, genDarc := sampleGenesisDarc, signerCounter := 1 } ∧
    NewClientWithAuth ledgerExt (some genesisWorld) none adminB =
      .error (errorsNew "Keys are required") := by
  refine ⟨rfl, rfl, rfl, rfl, rfl⟩


/-! ## Admin-set operations: the voter list handed to `evolveAdminDarc` -/

theorem IndexOf_eq_of_first (rule : GoString) (rules : List GoString) (i : Nat)
    (hget : rules[i]? = some rule) (hmin : ∀ j, j < i → rules[j]? ≠ some rule) :
    IndexOf rule rules = (i : Int) := by
  have hmem : rule ∈ rules := by
    obtain ⟨h, hh⟩ := List.getElem?_eq_some_iff.mp hget
    exact hh ▸ List.getElem_mem h
  obtain ⟨k, hk, _, hkget, hkmin⟩ := IndexOf_loop_first rule rules 0 hmem
  have hki : k = i := by
    rcases Nat.lt_trichotomy k i with h | h | h
    · exact absurd hkget (hmin k h)
    · exact h
    · exact absurd hget (hkmin i h)
  unfold IndexOf
  rw [hk, ← hki]
  simp

/-- C15. Add appends without a duplicate check: when the admin darc is read
from the ledger and its evolution expression parses to the list `L`,
`AddAdminToAdminDarc` hands `L ++ [a]` to `evolveAdminDarc` and the transaction
it returns to `addDeferredTransaction`, whether or not `a` occurs in `L`. The
list has length `len(L) + 1`, its first `len(L)` entries are `L`, its last entry
is `a`, and when `a` occurs in `L` it occurs in the list at two places. -/
theorem add_appends_without_duplicate_check {σ : Type} (E : Ext σ) (adid : Bytes)
    (a : Identity) (cl : Client) (w : World σ) (adminDarc : Darc)
    (hdarc : E.GetDarcByID w.ledger adid = .ok adminDarc) :
    AddAdminToAdminDarc E adid a cl w =
        proposeEvolution E (splitAndTrim (Rules.GetEvolutionExpr adminDarc.Rules) ++ [a.String])
          adminDarc adid cl w ∧
      (splitAndTrim (Rules.GetEvolutionExpr adminDarc.Rules) ++ [a.String]).length =
        (splitAndTrim (Rules.GetEvolutionExpr adminDarc.Rules)).length + 1 ∧
      (splitAndTrim (Rules.GetEvolutionExpr adminDarc.Rules) ++ [a.String]).take
          (splitAndTrim (Rules.GetEvolutionExpr adminDarc.Rules)).length =
        splitAndTrim (Rules.GetEvolutionExpr adminDarc.Rules) ∧
      (splitAndTrim (Rules.GetEvolutionExpr adminDarc.Rules) ++ [a.String])[
          (splitAndTrim (Rules.GetEvolutionExpr adminDarc.Rules)).length]? = some a.String ∧
      (a.String ∈ splitAndTrim (Rules.GetEvolutionExpr adminDarc.Rules) →
        2 ≤ (splitAndTrim (Rules.GetEvolutionExpr adminDarc.Rules) ++ [a.String]).count
          a.String) := by
  refine ⟨?_, by simp, by simp, by simp, ?_⟩
  · simp only [AddAdminToAdminDarc, hdarc, proposeEvolution]
  · intro hmem
    have h1 : 0 < (splitAndTrim (Rules.GetEvolutionExpr adminDarc.Rules)).count a.String :=
      List.count_pos_iff.mpr hmem
    simp only [List.count_append, List.count_singleton_self]
    omega


/-- Witness of C15: the sample admin darc lists A and B; adding A once more is
accepted, the list handed on is A, B, A and the proposal is stored. -/
theorem add_appends_without_duplicate_check_witness :
    ledgerExt.GetDarcByID sampleWorld.ledger (Ledger.baseID sampleAdminDarc) =
        .ok sampleAdminDarc ∧
      splitAndTrim (Rules.GetEvolutionExpr sampleAdminDarc.Rules) =
        [str "ed25519:A", str "ed25519:B"] ∧
      AddAdminToAdminDarc ledgerExt (Ledger.baseID sampleAdminDarc) adminA.Identity clientA
          sampleWorld =
        proposeEvolution ledgerExt [str "ed25519:A", str "ed25519:B", str "ed25519:A"]
          sampleAdminDarc (Ledger.baseID sampleAdminDarc) clientA sampleWorld ∧
      (AddAdminToAdminDarc ledgerExt (Ledger.baseID sampleAdminDarc) adminA.Identity clientA
          sampleWorld).1.toBool = true ∧
      2 ≤ ([str "ed25519:A", str "ed25519:B"] ++ [adminA.Identity.String]).count
        adminA.Identity.String :=
  ⟨rfl, rfl,
   (add_appends_without_duplicate_check ledgerExt (Ledger.baseID sampleAdminDarc)
      adminA.Identity clientA sampleWorld sampleAdminDarc rfl).1,
   rfl,
   (add_appends_without_duplicate_check ledgerExt (Ledger.baseID sampleAdminDarc)
      adminA.Identity clientA sampleWorld sampleAdminDarc rfl).2.2.2.2 (by decide)⟩

/-- C18. Remove deletes exactly the first occurrence: when the admin darc is
read from the ledger, its evolution expression parses to the list `L` and `i` is
the first index at which `a` occurs in `L`, `RemoveAdminFromAdminDarc` hands `L`
without the entry at index `i` to `evolveAdminDarc` and the transaction it
returns to `addDeferredTransaction`. That list has length `len(L) - 1`, agrees
with `L` below `i`, and holds at every index `j` from `i` on the entry `L` holds
at `j + 1`, so the other entries keep their order. -/
theorem remove_deletes_first_occurrence {σ : Type} (E : Ext σ) (adid : Bytes)
    (a : Identity) (cl : Client) (w : World σ) (adminDarc : Darc) (i : Nat)
    (hdarc : E.GetDarcByID w.ledger adid = .ok adminDarc)
    (hat : (splitAndTrim (Rules.GetEvolutionExpr adminDarc.Rules))[i]? = some a.String)
    (hfirst : ∀ j, j < i →
      (splitAndTrim (Rules.GetEvolutionExpr adminDarc.Rules))[j]? ≠ some a.String) :
    RemoveAdminFromAdminDarc E adid a cl w =
        proposeEvolution E ((splitAndTrim (Rules.GetEvolutionExpr adminDarc.Rules)).eraseIdx i)
          adminDarc adid cl w ∧
      ((splitAndTrim (Rules.GetEvolutionExpr adminDarc.Rules)).eraseIdx i).length =
        (splitAndTrim (Rules.GetEvolutionExpr adminDarc.Rules)).length - 1 ∧
      (∀ j, j < i →
        ((splitAndTrim (Rules.GetEvolutionExpr adminDarc.Rules)).eraseIdx i)[j]? =
          (splitAndTrim (Rules.GetEvolutionExpr adminDarc.Rules))[j]?) ∧
      (∀ j, i ≤ j →
        ((splitAndTrim (Rules.GetEvolutionExpr adminDarc.Rules)).eraseIdx i)[j]? =
          (splitAndTrim (Rules.GetEvolutionExpr adminDarc.Rules))[j + 1]?) := by
  have hidx := IndexOf_eq_of_first a.String _ i hat hfirst
  have hlt : i < (splitAndTrim (Rules.GetEvolutionExpr adminDarc.Rules)).length :=
    (List.getElem?_eq_some_iff.mp hat).1
  have hne : ¬ ((i : Int) = -1) := by omega
  refine ⟨?_, List.length_eraseIdx_of_lt hlt, ?_, ?_⟩
  · simp only [RemoveAdminFromAdminDarc, hdarc, hidx, hne, if_false, Int.toNat_ofNat,
      proposeEvolution, List.eraseIdx_eq_take_drop_succ]
  · intro j hj
    rw [List.getElem?_eraseIdx, if_pos hj]
  · intro j hj
    rw [List.getElem?_eraseIdx, if_neg (by omega)]

/-- Witness of C18: the admin darc whose evolution expression lists A, B, A, C
loses only its first A: the list handed on is B, A, C. -/
theorem remove_deletes_first_occurrence_witness :
    splitAndTrim (Rules.GetEvolutionExpr
        (adminDarcWithEvolve (str "ed25519:A & ed25519:B & ed25519:A & ed25519:C")).Rules) =
        [str "ed25519:A", str "ed25519:B", str "ed25519:A", str "ed25519:C"] ∧
      RemoveAdminFromAdminDarc ledgerExt (Ledger.baseID sampleAdminDarc) adminA.Identity clientA
          (worldWithEvolve (str "ed25519:A & ed25519:B & ed25519:A & ed25519:C")) =
        proposeEvolution ledgerExt [str "ed25519:B", str "ed25519:A", str "ed25519:C"]
          (adminDarcWithEvolve (str "ed25519:A & ed25519:B & ed25519:A & ed25519:C"))
          (Ledger.baseID sampleAdminDarc) clientA
          (worldWithEvolve (str "ed25519:A & ed25519:B & ed25519:A & ed25519:C")) ∧
      (RemoveAdminFromAdminDarc ledgerExt (Ledger.baseID sampleAdminDarc) adminA.Identity clientA
          (worldWithEvolve (str "ed25519:A & ed25519:B & ed25519:A & ed25519:C"))).1.toBool =
        true :=
  ⟨rfl,
   (remove_deletes_first_occurrence ledgerExt (Ledger.baseID sampleAdminDarc) adminA.Identity
      clientA (worldWithEvolve (str "ed25519:A & ed25519:B & ed25519:A & ed25519:C"))
      (adminDarcWithEvolve (str "ed25519:A & ed25519:B & ed25519:A & ed25519:C")) 0 rfl rfl
      (fun j hj => absurd hj (Nat.not_lt_zero j))).1,
   rfl⟩

/-- C19. Key rotation replaces in place: when the admin darc is read from the
ledger and its evolution expression parses to the list `L`,
`ModifyAdminKeysFromAdminDarc` returns the error "The adminID doesn't exist in
the admin darc" with the world and the client untouched when `oldkey` does not
occur in `L`; when `i` is the first index at which `oldkey` occurs, it hands
`L` with the entry at `i` replaced by `newkey` to `evolveAdminDarc` and the
transaction it returns to `addDeferredTransaction`. That list has the length of
`L`, holds `newkey` at `i` and agrees with `L` at every other index. -/
theorem key_rotation_replaces_in_place {σ : Type} (E : Ext σ) (adid : Bytes)
    (oldkey newkey : Identity) (cl : Client) (w : World σ) (adminDarc : Darc)
    (hdarc : E.GetDarcByID w.ledger adid = .ok adminDarc) :
    (oldkey.String ∉ splitAndTrim (Rules.GetEvolutionExpr adminDarc.Rules) →
        ModifyAdminKeysFromAdminDarc E adid oldkey newkey cl w =
          (.error (errorsNew "The adminID doesn't exist in the admin darc"), cl, w)) ∧
      (∀ i : Nat,
        (splitAndTrim (Rules.GetEvolutionExpr adminDarc.Rules))[i]? = some oldkey.String →
        (∀ j, j < i →
          (splitAndTrim (Rules.GetEvolutionExpr adminDarc.Rules))[j]? ≠ some oldkey.String) →
        ModifyAdminKeysFromAdminDarc E adid oldkey newkey cl w =
            proposeEvolution E
              ((splitAndTrim (Rules.GetEvolutionExpr adminDarc.Rules)).set i newkey.String)
              adminDarc adid cl w ∧
          ((splitAndTrim (Rules.GetEvolutionExpr adminDarc.Rules)).set i newkey.String).length =
            (splitAndTrim (Rules.GetEvolutionExpr adminDarc.Rules)).length ∧
          ((splitAndTrim (Rules.GetEvolutionExpr adminDarc.Rules)).set i newkey.String)[i]? =
            some newkey.String ∧
          (∀ j, j ≠ i →
            ((splitAndTrim (Rules.GetEvolutionExpr adminDarc.Rules)).set i newkey.String)[j]? =
              (splitAndTrim (Rules.GetEvolutionExpr adminDarc.Rules))[j]?)) := by
  constructor
  · intro hnot
    have hidx := (IndexOf_eq_neg_one oldkey.String _).mpr hnot
    simp only [ModifyAdminKeysFromAdminDarc, hdarc, hidx, if_true]
  · intro i hat hfirst
    have hidx := IndexOf_eq_of_first oldkey.String _ i hat hfirst
    have hlt : i < (splitAndTrim (Rules.GetEvolutionExpr adminDarc.Rules)).length :=
      (List.getElem?_eq_some_iff.mp hat).1
    have hne : ¬ ((i : Int) = -1) := by omega
    refine ⟨?_, List.length_set _ _ _, ?_, ?_⟩
    · simp only [ModifyAdminKeysFromAdminDarc, hdarc, hidx, hne, if_false, Int.toNat_ofNat,
        proposeEvolution]
    · rw [List.getElem?_set_self hlt]
    · intro j hj
      rw [List.getElem?_set_ne (Ne.symm hj)]

/-- Witness of C19: on the sample ledger, whose admin darc lists A and B,
rotating the unknown key Z fails with the world untouched, and rotating B to N
hands on the list A, N and stores the proposal. -/
theorem key_rotation_replaces_in_place_witness :
    ModifyAdminKeysFromAdminDarc ledgerExt (Ledger.baseID sampleAdminDarc) ⟨str "ed25519:Z"⟩
          ⟨str "ed25519:N"⟩ clientA sampleWorld =
        (.error (errorsNew "The adminID doesn't exist in the admin darc"), clientA,
          sampleWorld) ∧
      ModifyAdminKeysFromAdminDarc ledgerExt (Ledger.baseID sampleAdminDarc) adminB.Identity
          ⟨str "ed25519:N"⟩ clientA sampleWorld =
        proposeEvolution ledgerExt [str "ed25519:A", str "ed25519:N"] sampleAdminDarc
          (Ledger.baseID sampleAdminDarc) clientA sampleWorld ∧
      (ModifyAdminKeysFromAdminDarc ledgerExt (Ledger.baseID sampleAdminDarc) adminB.Identity
          ⟨str "ed25519:N"⟩ clientA sampleWorld).1.toBool = true :=
  ⟨(key_rotation_replaces_in_place ledgerExt (Ledger.baseID sampleAdminDarc) ⟨str "ed25519:Z"⟩
      ⟨str "ed25519:N"⟩ clientA sampleWorld sampleAdminDarc rfl).1 (by decide),
   ((key_rotation_replaces_in_place ledgerExt (Ledger.baseID sampleAdminDarc) adminB.Identity
      ⟨str "ed25519:N"⟩ clientA sampleWorld sampleAdminDarc rfl).2 1 rfl
      (by intro j hj; interval_cases j; decide)).1,
   rfl⟩


/-! ## The instructions of the deferred-transaction operations -/

theorem createdInstructions_append (a b : List Event) :
    createdInstructions (a ++ b) = createdInstructions a ++ createdInstructions b := by
  simp [createdInstructions, List.filterMap_append]

theorem spawnTransaction_created {σ : Type} (E : Ext σ) (ctx : ClientTransaction) (cl : Client)
    (w : World σ) :
    createdInstructions (spawnTransaction E ctx cl w).2.2.log = createdInstructions w.log := by
  unfold spawnTransaction
  cases hs : FillSignersAndSignWith E ctx cl.adminkeys with
  | error e => rfl
  | ok sctx =>
    simp only [AddTransactionAndWait]
    cases hl : (E.AddTransactionAndWait w.ledger sctx 10).1 with
    | error e => simp [createdInstructions_append, createdInstructions]
    | ok u => simp [createdInstructions_append, createdInstructions]

theorem CreateTransaction_created {σ : Type} (E : Ext σ) (instr : Instruction) (w : World σ) :
    createdInstructions (CreateTransaction E instr w).2.log =
      createdInstructions w.log ++ [instr] := by
  unfold CreateTransaction
  cases E.CreateTransactionErr w.ledger [instr] with
  | some e => simp [createdInstructions_append, createdInstructions]
  | none => simp [createdInstructions_append, createdInstructions]

theorem spawnDeferredInstance_created {σ : Type} (E : Ext σ) (buf : Buf) (adid : Bytes)
    (cl : Client) (w : World σ) :
    createdInstructions (spawnDeferredInstance E buf adid cl w).2.2.log =
      createdInstructions w.log ++ [deferredSpawn buf adid cl.signerCounter] := by
  have hc := CreateTransaction_created E (deferredSpawn buf adid cl.signerCounter) w
  unfold spawnDeferredInstance
  simp only []
  rw [show ({ InstanceID := NewInstanceID adid,
              Spawn := some { ContractID := ContractDeferredID,
                              Args := [{ Name := str "proposedTransaction", Value := buf },
                                       { Name := str "expireBlockIndex",
                                         Value := Buf.bytes (PutUint64 6000) }] },
              SignerCounter := [cl.signerCounter] } : Instruction) =
        deferredSpawn buf adid cl.signerCounter from rfl]
  cases hct : CreateTransaction E (deferredSpawn buf adid cl.signerCounter) w with
  | mk r w1 =>
    rw [hct] at hc
    cases r with
    | error e => exact hc
    | ok ctx =>
      have hs := spawnTransaction_created E ctx cl w1
      rcases hst : spawnTransaction E ctx cl w1 with ⟨r2, cl2, w2⟩
      rw [hst] at hs
      simp only [hst]
      cases r2 with
      | error e => exact hs.trans hc
      | ok sctx =>
        cases hf : firstInstruction sctx with
        | error e => simp only [hf]; exact hs.trans hc
        | ok instr => simp only [hf]; exact hs.trans hc

theorem leDecode_PutUint64 (v : Nat) (h : v < 2 ^ 64) : leDecode (PutUint64 v) = v := by
  simp only [PutUint64, List.range_succ, List.range_zero, List.map, List.nil_append,
    List.cons_append, leDecode]
  omega

theorem leDecode_PutUint32 (v : Nat) (h : v < 2 ^ 32) : leDecode (PutUint32 v) = v := by
  simp only [PutUint32, List.range_succ, List.range_zero, List.map, List.nil_append,
    List.cons_append, leDecode]
  omega


/-- Counterexample to C12: on the sample ledger at block height 10 the expiry
height `spawnDeferredInstance` submits is 6000 and the ledger stores the
proposal with the expiry height 6000, not 10 + 6000; so the submitted expiry is
not the height plus 6000 at every height. -/
theorem default_expiry_relative_counterexample :
    (worldAtHeight 10).ledger.height = 10 ∧
      (createdInstructions (spawnDeferredInstance ledgerExt (Buf.tx [])
          (Ledger.baseID sampleAdminDarc) clientA (worldAtHeight 10)).2.2.log).map
          submittedExpiry = [some 6000] ∧
      (spawnDeferredInstance ledgerExt (Buf.tx []) (Ledger.baseID sampleAdminDarc) clientA
          (worldAtHeight 10)).2.2.ledger.proposals.map (fun p => p.2.expiryHeight) = [6000] ∧
      ¬ (∀ h : Nat,
          (createdInstructions (spawnDeferredInstance ledgerExt (Buf.tx [])
            (Ledger.baseID sampleAdminDarc) clientA (worldAtHeight h)).2.2.log).map
            submittedExpiry = [some (h + 6000)]) := by
  refine ⟨rfl, rfl, rfl, ?_⟩
  intro H
  have h10 := H 10
  rw [show (createdInstructions (spawnDeferredInstance ledgerExt (Buf.tx [])
          (Ledger.baseID sampleAdminDarc) clientA (worldAtHeight 10)).2.2.log).map
          submittedExpiry = [some 6000] from rfl] at h10
  exact absurd h10 (by decide)

/-- C12, amended. The default expiry is a constant: for every ledger, whatever
its state and height at the moment a proposal is created, the one instruction
`spawnDeferredInstance` builds submits the expiry height 6000, as the 8 bytes
`PutUint64 6000`; on the sample ledger at any block height `h` the proposal is
stored with the expiry height 6000. -/
theorem default_expiry_is_constant {σ : Type} (E : Ext σ) (buf : Buf) (adid : Bytes)
    (cl : Client) (w : World σ) :
    createdInstructions (spawnDeferredInstance E buf adid cl w).2.2.log =
        createdInstructions w.log ++ [deferredSpawn buf adid cl.signerCounter] ∧
      instructionArg (deferredSpawn buf adid cl.signerCounter) (str "expireBlockIndex") =
        some (Buf.bytes (PutUint64 6000)) ∧
      submittedExpiry (deferredSpawn buf adid cl.signerCounter) = some 6000 ∧
      ∀ h : Nat,
        (createdInstructions (spawnDeferredInstance ledgerExt (Buf.tx [])
            (Ledger.baseID sampleAdminDarc) clientA (worldAtHeight h)).2.2.log).map
            submittedExpiry = [some 6000] ∧
        (spawnDeferredInstance ledgerExt (Buf.tx []) (Ledger.baseID sampleAdminDarc) clientA
          (worldAtHeight h)).2.2.ledger.proposals.map (fun p => p.2.expiryHeight) = [6000] :=
  ⟨spawnDeferredInstance_created E buf adid cl w, rfl, rfl, fun _ => ⟨rfl, rfl⟩⟩

/-- C16. Persisted fixed-width encodings: the one instruction
`spawnDeferredInstance` builds carries as "expireBlockIndex" the 8 bytes
`PutUint64 6000`, the little-endian encoding of the expiry height 6000, which
decode to 6000. When the proposal is read, the identity is encoded and the
signer signs, the one instruction `AddSignatureToDefferedTx` builds carries as
"index" the 4 bytes `PutUint32 0`, all zero, which decode to 0, and as
"signature" the signature over the entry of `InstructionHashes` at that index 0.
For every `uint64` value `PutUint64` gives 8 bytes below 256 that decode to the
value, and for every `uint32` value `PutUint32` gives 4 such bytes. -/
theorem fixed_width_encodings {σ : Type} (E : Ext σ) (buf : Buf) (adid : Bytes)
    (instID : InstanceID) (cl : Client) (w : World σ) (result : DeferredData) (h0 : Bytes)
    (sig : Buf)
    (hget : E.GetDeferredData w.ledger instID = .ok result)
    (henc : E.EncodeErr 1 (Buf.identity (AuthKey cl).Identity) = none)
    (hhash : result.InstructionHashes[0]? = some h0)
    (hsig : E.Sign (AuthKey cl) h0 = .ok sig) :
    (createdInstructions (spawnDeferredInstance E buf adid cl w).2.2.log =
        createdInstructions w.log ++ [deferredSpawn buf adid cl.signerCounter] ∧
      instructionArg (deferredSpawn buf adid cl.signerCounter) (str "expireBlockIndex") =
        some (Buf.bytes (PutUint64 6000)) ∧
      (PutUint64 6000).length = 8 ∧ PutUint64 6000 = [112, 23, 0, 0, 0, 0, 0, 0] ∧
      leDecode (PutUint64 6000) = 6000) ∧
    (createdInstructions (AddSignatureToDefferedTx E instID cl w).2.2.log =
        createdInstructions w.log ++
          [proofInstruction instID (Buf.identity (AuthKey cl).Identity) sig cl.signerCounter] ∧
      instructionArg
          (proofInstruction instID (Buf.identity (AuthKey cl).Identity) sig cl.signerCounter)
          (str "index") = some (Buf.bytes (PutUint32 0)) ∧
      (PutUint32 0).length = 4 ∧ PutUint32 0 = [0, 0, 0, 0] ∧ leDecode (PutUint32 0) = 0 ∧
      instructionArg
          (proofInstruction instID (Buf.identity (AuthKey cl).Identity) sig cl.signerCounter)
          (str "signature") = some sig ∧
      result.InstructionHashes[leDecode (PutUint32 0)]? = some h0) ∧
    (∀ v : Nat, v < 2 ^ 64 →
      (PutUint64 v).length = 8 ∧ leDecode (PutUint64 v) = v ∧ ∀ b ∈ PutUint64 v, b < 256) ∧
    (∀ v : Nat, v < 2 ^ 32 →
      (PutUint32 v).length = 4 ∧ leDecode (PutUint32 v) = v ∧ ∀ b ∈ PutUint32 v, b < 256) := by
  refine ⟨⟨spawnDeferredInstance_created E buf adid cl w, rfl, rfl, rfl, rfl⟩,
    ⟨?_, rfl, rfl, rfl, rfl, rfl, hhash⟩, ?_, ?_⟩
  · have hfirst : firstHash result.InstructionHashes = .ok h0 := by
      cases hl : result.InstructionHashes with
      | nil => rw [hl] at hhash; simp at hhash
      | cons a rest =>
        rw [hl] at hhash
        simp only [List.getElem?_cons_zero, Option.some.injEq] at hhash
        simp only [firstHash, hhash]
    have hc := CreateTransaction_created E
      (proofInstruction instID (Buf.identity (AuthKey cl).Identity) sig cl.signerCounter) w
    unfold AddSignatureToDefferedTx
    simp only [hget, Encode, henc, hfirst, hsig]
    rw [show ({ InstanceID := instID,
                Invoke := some { ContractID := ContractDeferredID, Command := str "addProof",
                                 Args := [{ Name := str "identity",
                                            Value := Buf.identity (AuthKey cl).Identity },
                                          { Name := str "signature", Value := sig },
                                          { Name := str "index",
                                            Value := Buf.bytes (PutUint32 0) }] },
                SignerCounter := [cl.signerCounter] } : Instruction) =
          proofInstruction instID (Buf.identity (AuthKey cl).Identity) sig cl.signerCounter
          from rfl]
    rcases hct : CreateTransaction E
      (proofInstruction instID (Buf.identity (AuthKey cl).Identity) sig cl.signerCounter) w
      with ⟨r, w1⟩
    rw [hct] at hc
    cases r with
    | error e => exact hc
    | ok ctx =>
      have hs := spawnTransaction_created E ctx cl w1
      rcases hst : spawnTransaction E ctx cl w1 with ⟨r2, cl2, w2⟩
      rw [hst] at hs
      simp only [hst]
      cases r2 with
      | error e => exact hs.trans hc
      | ok sctx => exact hs.trans hc
  · intro v hv
    refine ⟨by simp [PutUint64], leDecode_PutUint64 v hv, ?_⟩
    intro b hb
    simp only [PutUint64, List.mem_map] at hb
    obtain ⟨i, _, hi⟩ := hb
    rw [← hi]
    exact Nat.mod_lt _ (by decide)
  · intro v hv
    refine ⟨by simp [PutUint32], leDecode_PutUint32 v hv, ?_⟩
    intro b hb
    simp only [PutUint32, List.mem_map] at hb
    obtain ⟨i, _, hi⟩ := hb
    rw [← hi]
    exact Nat.mod_lt _ (by decide)


/-- Witness of C16: on the sample ledger with the pending proposal of client A,
client B adds its signature; the instruction built carries the index bytes
0, 0, 0, 0 and the signature of B over the hash of instruction 0 of the
proposal, and the call succeeds. -/
theorem fixed_width_encodings_witness :
    createdInstructions (AddSignatureToDefferedTx ledgerExt proposalID clientB
        proposedWorld).2.2.log =
        createdInstructions proposedWorld.log ++
          [proofInstruction proposalID (Buf.identity adminB.Identity)
            (Buf.signature adminB.Identity (Ledger.instructionHash proposalID 0)) 1] ∧
      (AddSignatureToDefferedTx ledgerExt proposalID clientB proposedWorld).1 = .ok () ∧
      ((PutUint64 6000).length = 8 ∧ leDecode (PutUint64 6000) = 6000 ∧
        ∀ b ∈ PutUint64 6000, b < 256) :=
  ⟨(fixed_width_encodings ledgerExt (Buf.tx []) (Ledger.baseID sampleAdminDarc) proposalID
      clientB proposedWorld _ (Ledger.instructionHash proposalID 0)
      (Buf.signature adminB.Identity (Ledger.instructionHash proposalID 0))
      rfl rfl rfl rfl).2.1.1,
   rfl,
   (fixed_width_encodings ledgerExt (Buf.tx []) (Ledger.baseID sampleAdminDarc) proposalID
      clientB proposedWorld _ (Ledger.instructionHash proposalID 0)
      (Buf.signature adminB.Identity (Ledger.instructionHash proposalID 0))
      rfl rfl rfl rfl).2.2.1 6000 (by decide)⟩


/-! ## The identity-list parse on malformed expressions -/

theorem Split_go_ne_nil (sep : Char) (s : List Char) : ∀ acc, Split.go sep s acc ≠ [] := by
  induction s with
  | nil => intro acc; simp [Split.go]
  | cons c cs ih =>
    intro acc
    by_cases h : c = sep
    · simp [Split.go, h]
    · simpa [Split.go, h] using ih (c :: acc)

theorem Split_go_pieces (sep : Char) (s : List Char) :
    ∀ acc, sep ∉ acc → ∀ p ∈ Split.go sep s acc, sep ∉ p := by
  induction s with
  | nil =>
    intro acc hacc p hp
    simp only [Split.go, List.mem_singleton] at hp
    rw [hp]
    simpa using hacc
  | cons c cs ih =>
    intro acc hacc p hp
    by_cases h : c = sep
    · simp only [Split.go, h, if_true, List.mem_cons] at hp
      rcases hp with hp | hp
      · rw [hp]; simpa using hacc
      · exact ih [] (by simp) p hp
    · simp only [Split.go, h, if_false] at hp
      refine ih (c :: acc) ?_ p hp
      intro hm
      rcases List.mem_cons.mp hm with hm | hm
      · exact h hm.symm
      · exact hacc hm

theorem Split_go_keeps (sep c : Char) (hc : c ≠ sep) (s : List Char) :
    ∀ acc, c ∈ s ∨ c ∈ acc → ∃ p ∈ Split.go sep s acc, c ∈ p := by
  induction s with
  | nil =>
    intro acc h
    rcases h with h | h
    · exact absurd h (by simp)
    · exact ⟨acc.reverse, by simp [Split.go], by simpa using h⟩
  | cons x xs ih =>
    intro acc h
    by_cases hx : x = sep
    · simp only [Split.go, hx, if_true]
      rcases h with h | h
      · rcases List.mem_cons.mp h with h | h
        · exact absurd (h.trans hx) hc
        · obtain ⟨p, hp, hcp⟩ := ih [] (Or.inl h)
          exact ⟨p, List.mem_cons_of_mem _ hp, hcp⟩
      · exact ⟨acc.reverse, by simp, by simpa using h⟩
    · simp only [Split.go, hx, if_false]
      apply ih (x :: acc)
      rcases h with h | h
      · rcases List.mem_cons.mp h with h | h
        · exact Or.inr (by simp [h])
        · exact Or.inl h
      · exact Or.inr (List.mem_cons_of_mem _ h)

theorem mem_of_mem_TrimSpace (c : Char) (s : List Char) (hc : c ∈ TrimSpace s) : c ∈ s := by
  unfold TrimSpace List.rdropWhile at hc
  rw [List.mem_reverse] at hc
  have h1 := (List.dropWhile_sublist _).subset hc
  rw [List.mem_reverse] at h1
  exact (List.dropWhile_sublist _).subset h1

theorem splitAndTrim_total (exp : Expr) :
    splitAndTrim exp ≠ [] ∧ (∀ p ∈ splitAndTrim exp, '&' ∉ p) ∧
      ('|' ∈ exp → ∃ p ∈ splitAndTrim exp, '|' ∈ p) := by
  refine ⟨?_, ?_, ?_⟩
  · simpa [splitAndTrim, Split] using Split_go_ne_nil '&' exp []
  · intro p hp
    simp only [splitAndTrim, Split, List.mem_map] at hp
    obtain ⟨q, hq, hqp⟩ := hp
    intro hmem
    rw [← hqp] at hmem
    exact Split_go_pieces '&' exp [] (by simp) q hq (mem_of_mem_TrimSpace _ _ hmem)
  · intro hbar
    obtain ⟨q, hq, hcq⟩ := Split_go_keeps '&' '|' (by decide) exp [] (Or.inl hbar)
    exact ⟨TrimSpace q, by simpa [splitAndTrim, Split] using ⟨q, hq, rfl⟩,
      mem_TrimSpace_of_not_space _ _ hcq (by decide)⟩


theorem IndexOf_of_mem (rule : GoString) (rules : List GoString) (hmem : rule ∈ rules) :
    ∃ i : Nat, i < rules.length ∧ IndexOf rule rules = (i : Int) := by
  obtain ⟨i, hi, hlt, _, _⟩ := IndexOf_loop_first rule rules 0 hmem
  refine ⟨i, hlt, ?_⟩
  unfold IndexOf
  rw [hi]
  simp

theorem RemoveAdminFromAdminDarc_at {σ : Type} (E : Ext σ) (adid : Bytes) (a : Identity)
    (cl : Client) (w : World σ) (adminDarc : Darc) (i : Nat)
    (hdarc : E.GetDarcByID w.ledger adid = .ok adminDarc)
    (hidx : IndexOf a.String (splitAndTrim (Rules.GetEvolutionExpr adminDarc.Rules)) = (i : Int)) :
    RemoveAdminFromAdminDarc E adid a cl w =
      proposeEvolution E ((splitAndTrim (Rules.GetEvolutionExpr adminDarc.Rules)).eraseIdx i)
        adminDarc adid cl w := by
  have hne : ¬ ((i : Int) = -1) := by omega
  simp only [RemoveAdminFromAdminDarc, hdarc, hidx, hne, if_false, Int.toNat_ofNat,
    proposeEvolution, List.eraseIdx_eq_take_drop_succ]

theorem ModifyAdminKeysFromAdminDarc_at {σ : Type} (E : Ext σ) (adid : Bytes)
    (oldkey newkey : Identity) (cl : Client) (w : World σ) (adminDarc : Darc) (i : Nat)
    (hdarc : E.GetDarcByID w.ledger adid = .ok adminDarc)
    (hidx : IndexOf oldkey.String (splitAndTrim (Rules.GetEvolutionExpr adminDarc.Rules)) =
      (i : Int)) :
    ModifyAdminKeysFromAdminDarc E adid oldkey newkey cl w =
      proposeEvolution E
        ((splitAndTrim (Rules.GetEvolutionExpr adminDarc.Rules)).set i newkey.String)
        adminDarc adid cl w := by
  have hne : ¬ ((i : Int) = -1) := by omega
  simp only [ModifyAdminKeysFromAdminDarc, hdarc, hidx, hne, if_false, Int.toNat_ofNat,
    proposeEvolution]

/-- Counterexample to C13: the parse of the empty expression is the list holding
the empty string, the parse of the mixed expression
"ed25519:A & ed25519:B | ed25519:C" is the list of "ed25519:A" and
"ed25519:B | ed25519:C"; on a ledger whose admin darc has the empty evolution
expression, and on one where it has the mixed expression, `AddAdminToAdminDarc`,
`RemoveAdminFromAdminDarc` and `ModifyAdminKeysFromAdminDarc` return no error
and store a proposal. -/
theorem malformed_expressions_rejected_counterexample :
    (Rules.GetEvolutionExpr (adminDarcWithEvolve (str "")).Rules = str "" ∧
      splitAndTrim (str "") = [str ""] ∧
      (AddAdminToAdminDarc ledgerExt (Ledger.baseID sampleAdminDarc) ⟨str "ed25519:D"⟩ clientA
        (worldWithEvolve (str ""))).1.toBool = true ∧
      (RemoveAdminFromAdminDarc ledgerExt (Ledger.baseID sampleAdminDarc) ⟨str ""⟩ clientA
        (worldWithEvolve (str ""))).1.toBool = true ∧
      (ModifyAdminKeysFromAdminDarc ledgerExt (Ledger.baseID sampleAdminDarc) ⟨str ""⟩
        ⟨str "ed25519:D"⟩ clientA (worldWithEvolve (str ""))).1.toBool = true ∧
      (AddAdminToAdminDarc ledgerExt (Ledger.baseID sampleAdminDarc) ⟨str "ed25519:D"⟩ clientA
        (worldWithEvolve (str ""))).2.2.ledger.proposals.length = 1) ∧
    (Rules.GetEvolutionExpr
        (adminDarcWithEvolve (str "ed25519:A & ed25519:B | ed25519:C")).Rules =
        str "ed25519:A & ed25519:B | ed25519:C" ∧
      splitAndTrim (str "ed25519:A & ed25519:B | ed25519:C") =
        [str "ed25519:A", str "ed25519:B | ed25519:C"] ∧
      (AddAdminToAdminDarc ledgerExt (Ledger.baseID sampleAdminDarc) ⟨str "ed25519:D"⟩ clientA
        (worldWithEvolve (str "ed25519:A & ed25519:B | ed25519:C"))).1.toBool = true ∧
      (RemoveAdminFromAdminDarc ledgerExt (Ledger.baseID sampleAdminDarc) ⟨str "ed25519:A"⟩
        clientA (worldWithEvolve (str "ed25519:A & ed25519:B | ed25519:C"))).1.toBool = true ∧
      (ModifyAdminKeysFromAdminDarc ledgerExt (Ledger.baseID sampleAdminDarc) ⟨str "ed25519:A"⟩
        ⟨str "ed25519:D"⟩ clientA
        (worldWithEvolve (str "ed25519:A & ed25519:B | ed25519:C"))).1.toBool = true ∧
      (AddAdminToAdminDarc ledgerExt (Ledger.baseID sampleAdminDarc) ⟨str "ed25519:D"⟩ clientA
        (worldWithEvolve (str "ed25519:A & ed25519:B | ed25519:C"))).2.2.ledger.proposals.length
        = 1) :=
  ⟨⟨rfl, rfl, rfl, rfl, rfl, rfl⟩, ⟨rfl, rfl, rfl, rfl, rfl, rfl⟩⟩

/-- C13, amended. Malformed expressions are not rejected: the identity-list
parse used by `AddAdminToAdminDarc`, `RemoveAdminFromAdminDarc` and
`ModifyAdminKeysFromAdminDarc` never fails. For every evolution expression it
returns a non-empty list of pieces free of '&'; for the empty expression the
list holding the empty string; for an expression with a '|' a list in which a
piece still holds the '|'. When the admin darc is read from the ledger the three
operations go on with that list `L`: add hands `L` with the new identity
appended to `evolveAdminDarc`, remove and key rotation of an element of `L`
hand on `L` with one entry erased or replaced. -/
theorem malformed_expressions_are_parsed {σ : Type} (E : Ext σ) (adid : Bytes)
    (a newkey : Identity) (cl : Client) (w : World σ) (adminDarc : Darc)
    (hdarc : E.GetDarcByID w.ledger adid = .ok adminDarc) :
    splitAndTrim (str "") = [str ""] ∧
    (∀ exp : Expr, splitAndTrim exp ≠ [] ∧ (∀ p ∈ splitAndTrim exp, '&' ∉ p) ∧
      ('|' ∈ exp → ∃ p ∈ splitAndTrim exp, '|' ∈ p)) ∧
    AddAdminToAdminDarc E adid a cl w =
      proposeEvolution E (splitAndTrim (Rules.GetEvolutionExpr adminDarc.Rules) ++ [a.String])
        adminDarc adid cl w ∧
    (a.String ∈ splitAndTrim (Rules.GetEvolutionExpr adminDarc.Rules) →
      ∃ i : Nat, i < (splitAndTrim (Rules.GetEvolutionExpr adminDarc.Rules)).length ∧
        RemoveAdminFromAdminDarc E adid a cl w =
          proposeEvolution E
            ((splitAndTrim (Rules.GetEvolutionExpr adminDarc.Rules)).eraseIdx i)
            adminDarc adid cl w ∧
        ModifyAdminKeysFromAdminDarc E adid a newkey cl w =
          proposeEvolution E
            ((splitAndTrim (Rules.GetEvolutionExpr adminDarc.Rules)).set i newkey.String)
            adminDarc adid cl w) := by
  refine ⟨rfl, splitAndTrim_total, ?_, ?_⟩
  · simp only [AddAdminToAdminDarc, hdarc, proposeEvolution]
  · intro hmem
    obtain ⟨i, hlt, hidx⟩ := IndexOf_of_mem a.String _ hmem
    exact ⟨i, hlt, RemoveAdminFromAdminDarc_at E adid a cl w adminDarc i hdarc hidx,
      ModifyAdminKeysFromAdminDarc_at E adid a newkey cl w adminDarc i hdarc hidx⟩

/-- Witness of C13, amended: on the ledger whose admin darc has the mixed
evolution expression "ed25519:A & ed25519:B | ed25519:C", adding D hands on the
list "ed25519:A", "ed25519:B | ed25519:C", "ed25519:D". -/
theorem malformed_expressions_are_parsed_witness :
    ledgerExt.GetDarcByID (worldWithEvolve (str "ed25519:A & ed25519:B | ed25519:C")).ledger
        (Ledger.baseID sampleAdminDarc) =
        .ok (adminDarcWithEvolve (str "ed25519:A & ed25519:B | ed25519:C")) ∧
      AddAdminToAdminDarc ledgerExt (Ledger.baseID sampleAdminDarc) ⟨str "ed25519:D"⟩ clientA
          (worldWithEvolve (str "ed25519:A & ed25519:B | ed25519:C")) =
        proposeEvolution ledgerExt
          [str "ed25519:A", str "ed25519:B | ed25519:C", str "ed25519:D"]
          (adminDarcWithEvolve (str "ed25519:A & ed25519:B | ed25519:C"))
          (Ledger.baseID sampleAdminDarc) clientA
          (worldWithEvolve (str "ed25519:A & ed25519:B | ed25519:C")) :=
  ⟨rfl,
   (malformed_expressions_are_parsed ledgerExt (Ledger.baseID sampleAdminDarc)
      ⟨str "ed25519:D"⟩ ⟨str "ed25519:N"⟩ clientA
      (worldWithEvolve (str "ed25519:A & ed25519:B | ed25519:C"))
      (adminDarcWithEvolve (str "ed25519:A & ed25519:B | ed25519:C")) rfl).2.2.1⟩


/-! ## The registry operations submit the update directly -/

/-- C11: on the sample ledger client A alone grants the querier "2:1" and
revokes the querier "1:1". Each call returns no error, the one instruction it
builds is an invoke of `update` on the registry value and not a spawn of the
deferred contract, no proposal is stored on the ledger, and the registry read
back right after the call, with no signature added and nothing executed, already
shows the change. The modification of the querier "1:1" stores no proposal
either: it stops at the encoding error, builds no instruction at all and leaves
the registry as it was. -/
theorem registry_mutation_is_direct_update :
    ((AddQuerierToProject ledgerExt (Ledger.baseID sampleProjectDarc) (str "2:1") (str "count")
        clientA sampleWorld).1 = .ok () ∧
      createdInstructions (AddQuerierToProject ledgerExt (Ledger.baseID sampleProjectDarc)
        (str "2:1") (str "count") clientA sampleWorld).2.2.log =
        [valueUpdate ledgerExt sampleRegistryID
          (Buf.accessRight
            { AccessRightsMap := sampleRegistry.AccessRightsMap.insert (str "2:1") (str "count") })
          1] ∧
      (createdInstructions (AddQuerierToProject ledgerExt (Ledger.baseID sampleProjectDarc)
        (str "2:1") (str "count") clientA sampleWorld).2.2.log).map
        (fun i => (i.Spawn.isSome, i.Invoke.map (fun iv => iv.Command))) =
        [(false, some (str "update"))] ∧
      (AddQuerierToProject ledgerExt (Ledger.baseID sampleProjectDarc) (str "2:1") (str "count")
        clientA sampleWorld).2.2.ledger.proposals.length = 0 ∧
      (GetAccessRightFromProjectDarcID ledgerExt (Ledger.baseID sampleProjectDarc)
        (AddQuerierToProject ledgerExt (Ledger.baseID sampleProjectDarc) (str "2:1")
          (str "count") clientA sampleWorld).2.2).toOption.map
        (fun r => r.1.AccessRightsMap.lookup (str "2:1")) = some (some (str "count"))) ∧
    ((RemoveQuerierFromProject ledgerExt (Ledger.baseID sampleProjectDarc) (str "1:1") clientA
        sampleWorld).1 = .ok () ∧
      (createdInstructions (RemoveQuerierFromProject ledgerExt (Ledger.baseID sampleProjectDarc)
        (str "1:1") clientA sampleWorld).2.2.log).map
        (fun i => (i.Spawn.isSome, i.Invoke.map (fun iv => iv.Command))) =
        [(false, some (str "update"))] ∧
      (RemoveQuerierFromProject ledgerExt (Ledger.baseID sampleProjectDarc) (str "1:1") clientA
        sampleWorld).2.2.ledger.proposals.length = 0 ∧
      (GetAccessRightFromProjectDarcID ledgerExt (Ledger.baseID sampleProjectDarc)
        (RemoveQuerierFromProject ledgerExt (Ledger.baseID sampleProjectDarc) (str "1:1")
          clientA sampleWorld).2.2).toOption.map
        (fun r => r.1.AccessRightsMap.lookup (str "1:1")) = some none) ∧
    ((ModifyQuerierAccessRightsForProject ledgerExt (Ledger.baseID sampleProjectDarc)
        (str "1:1") (str "count") clientA sampleWorld).1 =
        .error (Errorf "Encoding the access right struct" notAStructPointer) ∧
      createdInstructions (ModifyQuerierAccessRightsForProject ledgerExt
        (Ledger.baseID sampleProjectDarc) (str "1:1") (str "count") clientA
        sampleWorld).2.2.log = [] ∧
      (ModifyQuerierAccessRightsForProject ledgerExt (Ledger.baseID sampleProjectDarc)
        (str "1:1") (str "count") clientA sampleWorld).2.2.ledger.proposals.length = 0 ∧
      (GetAccessRightFromProjectDarcID ledgerExt (Ledger.baseID sampleProjectDarc)
        (ModifyQuerierAccessRightsForProject ledgerExt (Ledger.baseID sampleProjectDarc)
          (str "1:1") (str "count") clientA sampleWorld).2.2).toOption.map
        (fun r => r.1.AccessRightsMap.lookup (str "1:1")) = some (some (str "count_global"))) :=
  ⟨⟨rfl, rfl, rfl, rfl, rfl⟩, ⟨rfl, rfl, rfl, rfl⟩, ⟨rfl, rfl, rfl, rfl⟩⟩


/-! ## The replay counter over the transactions of one call -/

theorem audit_append {σ : Type} (E : Ext σ) (a : Audit σ) (x y : List Event) :
    audit E a (x ++ y) = audit E (audit E a x) y := by
  simp [audit, List.foldl_append]

theorem audit_counter {σ : Type} (E : Ext σ) (evs : List Event) :
    ∀ a : Audit σ, a.counter < 2 ^ 64 →
      a.commits ≤ (audit E a evs).commits ∧
      (audit E a evs).counter =
        (a.counter + ((audit E a evs).commits - a.commits)) % 2 ^ 64 := by
  induction evs with
  | nil =>
    intro a ha
    simp only [audit, List.foldl_nil, le_refl, Nat.sub_self, Nat.add_zero, true_and]
    exact (Nat.mod_eq_of_lt ha).symm
  | cons ev rest ih =>
    intro a ha
    have hstep : audit E a (ev :: rest) = audit E (auditStep E a ev) rest := rfl
    rw [hstep]
    cases ev with
    | created instr => exact ih (auditStep E a (Event.created instr)) ha
    | submitted ctx =>
      rcases hr : E.AddTransactionAndWait a.ledger ctx 10 with ⟨r, s⟩
      cases r with
      | error e =>
        have hs : auditStep E a (Event.submitted ctx) = { a with ledger := s } := by
          simp only [auditStep, hr]
        rw [hs]
        exact ih { a with ledger := s } ha
      | ok u =>
        have hs : auditStep E a (Event.submitted ctx) =
            { a with ledger := s, counter := (a.counter + 1) % 2 ^ 64,
                     commits := a.commits + 1 } := by
          simp only [auditStep, hr]
        rw [hs]
        have h := ih { a with ledger := s, counter := (a.counter + 1) % 2 ^ 64,
                              commits := a.commits + 1 } (Nat.mod_lt _ (by decide))
        obtain ⟨h1, h2⟩ := h
        simp only at h1 h2
        refine ⟨by omega, ?_⟩
        rw [h2]
        omega

theorem Accounts_counter {σ : Type} (E : Ext σ) (cl cl1 : Client) (w w1 : World σ)
    (evs : List Event) (k : Nat) (h : Accounts E cl w cl1 w1 evs k)
    (hc : cl.signerCounter < 2 ^ 64) :
    cl1.signerCounter = (cl.signerCounter + k) % 2 ^ 64 := by
  have h0 := h.2 0
  have hcnt := (audit_counter E evs ⟨w.ledger, cl.signerCounter, 0, true⟩ hc).2
  rw [h0] at hcnt
  simpa using hcnt

theorem Accounts_refl {σ : Type} (E : Ext σ) (cl : Client) (w : World σ) :
    Accounts E cl w cl w [] 0 := by
  refine ⟨by simp, ?_⟩
  intro n
  rfl

theorem Accounts_trans {σ : Type} (E : Ext σ) (cl cl1 cl2 : Client) (w w1 w2 : World σ)
    (e1 e2 : List Event) (k1 k2 : Nat) (h1 : Accounts E cl w cl1 w1 e1 k1)
    (h2 : Accounts E cl1 w1 cl2 w2 e2 k2) :
    Accounts E cl w cl2 w2 (e1 ++ e2) (k1 + k2) := by
  refine ⟨by rw [h2.1, h1.1, List.append_assoc], ?_⟩
  intro n
  rw [audit_append, h1.2 n, h2.2 (n + k1), Nat.add_assoc]

theorem Accounts_created {σ : Type} (E : Ext σ) (cl : Client) (w : World σ)
    (instr : Instruction) (hi : instr.SignerCounter = [cl.signerCounter]) :
    Accounts E cl w cl (CreateTransaction E instr w).2 [Event.created instr] 0 := by
  have hw : (CreateTransaction E instr w).2 =
      { w with log := w.log ++ [Event.created instr] } := by
    unfold CreateTransaction
    cases E.CreateTransactionErr w.ledger [instr] <;> rfl
  rw [hw]
  refine ⟨rfl, ?_⟩
  intro n
  simp [audit, auditStep, hi]

theorem Accounts_spawnTransaction {σ : Type} (E : Ext σ) (ctx : ClientTransaction)
    (cl : Client) (w : World σ) :
    ∃ evs k,
      Accounts E cl w (spawnTransaction E ctx cl w).2.1 (spawnTransaction E ctx cl w).2.2
        evs k ∧
      createdInstructions evs = [] ∧ (submittedTransactions evs).length ≤ 1 ∧
      (∀ x, (spawnTransaction E ctx cl w).1 = .ok x →
        k = 1 ∧ (submittedTransactions evs).length = 1 ∧
        (spawnTransaction E ctx cl w).2.1.signerCounter = (cl.signerCounter + 1) % 2 ^ 64) ∧
      (∀ e, (spawnTransaction E ctx cl w).1 = .error e → k = 0) := by
  unfold spawnTransaction
  cases hs : FillSignersAndSignWith E ctx cl.adminkeys with
  | error e =>
    refine ⟨[], 0, Accounts_refl E cl w, rfl, by simp [submittedTransactions], ?_, ?_⟩
    · intro x hx
      simp at hx
    · intro e1 _
      rfl
  | ok sctx =>
    simp only [AddTransactionAndWait]
    rcases hl : E.AddTransactionAndWait w.ledger sctx 10 with ⟨r, s⟩
    cases r with
    | error e =>
      refine ⟨[Event.submitted sctx], 0, ⟨rfl, ?_⟩, rfl, by simp [submittedTransactions], ?_,
        ?_⟩
      · intro n
        simp [audit, auditStep, hl]
      · intro x hx
        simp at hx
      · intro e1 _
        rfl
    | ok u =>
      refine ⟨[Event.submitted sctx], 1, ⟨rfl, ?_⟩, rfl, by simp [submittedTransactions], ?_,
        ?_⟩
      · intro n
        simp [audit, auditStep, hl, incrementSignerCounter]
      · intro x _
        exact ⟨rfl, by simp [submittedTransactions], rfl⟩
      · intro e1 he
        simp at he


theorem createProjectDarc_accounts {σ : Type} (E : Ext σ) (pname : GoString) (adid : Bytes)
    (cl : Client) (w : World σ) :
    ∃ evs k,
      Accounts E cl w (createProjectDarc E pname adid cl w).2.1
        (createProjectDarc E pname adid cl w).2.2 evs k ∧
      (submittedTransactions evs).length ≤ 1 ∧
      (∀ x, (createProjectDarc E pname adid cl w).1 = .ok x →
        k = 1 ∧ (submittedTransactions evs).length = 1 ∧
        (createdInstructions evs).map (fun i => i.SignerCounter) = [[cl.signerCounter]] ∧
        (createProjectDarc E pname adid cl w).2.1.signerCounter =
          (cl.signerCounter + 1) % 2 ^ 64) ∧
      (∀ e, (createProjectDarc E pname adid cl w).1 = .error e → k = 0) := by
  have hnone : ∃ evs k, Accounts E cl w cl w evs k ∧ (submittedTransactions evs).length ≤ 1 ∧
      k = 0 := ⟨[], 0, Accounts_refl E cl w, by simp [submittedTransactions], rfl⟩
  unfold createProjectDarc
  simp only []
  rcases hadd : AddRuleToDarc
      (NewDarc (InitRules [cl.adminkeys.Identity] [cl.adminkeys.Identity]) pname)
      (str "_name:value,spawn:value,invoke:value.update")
      (createMultisigRuleExpression [cl.adminkeys.Identity.String]) with ⟨pd, oe⟩
  cases oe with
  | some e =>
    obtain ⟨evs, k, h1, h2, h3⟩ := hnone
    exact ⟨evs, k, h1, h2, fun x hx => by simp at hx, fun _ _ => h3⟩
  | none =>
    simp only []
    cases hp : ToProto E pd with
    | error e =>
      obtain ⟨evs, k, h1, h2, h3⟩ := hnone
      exact ⟨evs, k, h1, h2, fun x hx => by simp at hx, fun _ _ => h3⟩
    | ok buf =>
      simp only []
      rw [show ({ InstanceID := NewInstanceID adid,
                  Spawn := some { ContractID := ContractDarcID,
                                  Args := [{ Name := str "darc", Value := buf }] },
                  SignerCounter := [cl.signerCounter] } : Instruction) =
            projectDarcSpawn adid buf cl.signerCounter from rfl]
      have hcr := Accounts_created E cl w (projectDarcSpawn adid buf cl.signerCounter) rfl
      rcases hct : CreateTransaction E (projectDarcSpawn adid buf cl.signerCounter) w
        with ⟨r, w1⟩
      rw [hct] at hcr
      cases r with
      | error e =>
        exact ⟨_, 0, hcr, by simp [submittedTransactions], fun x hx => by simp at hx,
          fun _ _ => rfl⟩
      | ok ctx =>
        obtain ⟨evs, k, hacc, hnc, hlen, hok, herr⟩ := Accounts_spawnTransaction E ctx cl w1
        rcases hst : spawnTransaction E ctx cl w1 with ⟨r2, cl2, w2⟩
        rw [hst] at hacc hok herr
        simp only [hst]
        have hall := Accounts_trans E cl cl cl2 w w1 w2 _ _ 0 k hcr hacc
        have hsub : submittedTransactions
            ([Event.created (projectDarcSpawn adid buf cl.signerCounter)] ++ evs) =
            submittedTransactions evs := by
          simp [submittedTransactions]
        have hcre : createdInstructions
            ([Event.created (projectDarcSpawn adid buf cl.signerCounter)] ++ evs) =
            [projectDarcSpawn adid buf cl.signerCounter] := by
          rw [createdInstructions_append, hnc]
          simp [createdInstructions]
        cases r2 with
        | error e =>
          refine ⟨_, _, hall, by rw [hsub]; exact hlen, fun x hx => by simp at hx, ?_⟩
          intro e1 _
          rw [herr e rfl]
        | ok sctx =>
          obtain ⟨hk, hl1, hctr⟩ := hok sctx rfl
          refine ⟨_, _, hall, by rw [hsub]; exact hlen, ?_, fun e1 he => by simp at he⟩
          intro x _
          refine ⟨by rw [hk], by rw [hsub]; exact hl1, ?_, hctr⟩
          rw [hcre]
          rfl


theorem submittedTransactions_append (a b : List Event) :
    submittedTransactions (a ++ b) = submittedTransactions a ++ submittedTransactions b := by
  simp [submittedTransactions, List.filterMap_append]

theorem createAccessRight_accounts {σ : Type} (E : Ext σ) (adid pdarc : Bytes) (cl : Client)
    (w : World σ) :
    ∃ evs k,
      Accounts E cl w (createAccessRight E adid pdarc cl w).2.1
        (createAccessRight E adid pdarc cl w).2.2 evs k ∧
      (submittedTransactions evs).length ≤ 2 ∧
      (∀ x, (createAccessRight E adid pdarc cl w).1 = .ok x →
        k = 2 ∧ (submittedTransactions evs).length = 2 ∧
        (createdInstructions evs).map (fun i => i.SignerCounter) =
          [[cl.signerCounter], [(cl.signerCounter + 1) % 2 ^ 64]]) ∧
      (∀ e, (createAccessRight E adid pdarc cl w).1 = .error e → k ≤ 1) := by
  unfold createAccessRight
  simp only [Encode]
  rw [show ({ AccessRightsMap := (∅ : StringMap).insert (str "init") (str "init") } : AccessRight)
    = initialAccessRight from rfl]
  cases henc : E.EncodeErr 1 (Buf.accessRight initialAccessRight) with
  | some e =>
    exact ⟨[], 0, Accounts_refl E cl w, by simp [submittedTransactions],
      fun x hx => by simp at hx, fun _ _ => Nat.zero_le _⟩
  | none =>
    simp only []
    rw [show ({ InstanceID := NewInstanceID pdarc,
                Spawn := some { ContractID := str "value",
                                Args := [{ Name := str "value",
                                           Value := Buf.accessRight initialAccessRight }] },
                SignerCounter := [cl.signerCounter] } : Instruction) =
          registrySpawn pdarc cl.signerCounter from rfl]
    have hcr := Accounts_created E cl w (registrySpawn pdarc cl.signerCounter) rfl
    rcases hct : CreateTransaction E (registrySpawn pdarc cl.signerCounter) w with ⟨r, w1⟩
    rw [hct] at hcr
    cases r with
    | error e =>
      exact ⟨_, 0, hcr, by simp [submittedTransactions], fun x hx => by simp at hx,
        fun _ _ => Nat.zero_le _⟩
    | ok ctx =>
      obtain ⟨evs, k, hacc, hnc, hlen, hok, herr⟩ := Accounts_spawnTransaction E ctx cl w1
      rcases hst : spawnTransaction E ctx cl w1 with ⟨r2, cl2, w2⟩
      rw [hst] at hacc hok herr
      simp only [hst]
      have h1 := Accounts_trans E cl cl cl2 w w1 w2 _ _ 0 k hcr hacc
      have hsub1 : (submittedTransactions
          ([Event.created (registrySpawn pdarc cl.signerCounter)] ++ evs)).length ≤ 1 := by
        rw [submittedTransactions_append]
        simpa [submittedTransactions] using hlen
      cases r2 with
      | error e =>
        refine ⟨_, _, h1, by omega, fun x hx => by simp at hx, ?_⟩
        intro e1 _
        rw [herr e rfl]
        omega
      | ok sctx =>
        obtain ⟨hk, hl1, hctr⟩ := hok sctx rfl
        simp only at hctr
        simp only []
        cases hf : firstInstruction sctx with
        | error e =>
          refine ⟨_, _, h1, by omega, fun x hx => by simp at hx, ?_⟩
          intro e1 _
          omega
        | ok instr =>
          simp only []
          rw [show ({ InstanceID := E.NamingInstanceID,
                      Invoke := some { ContractID := ContractNamingID, Command := str "add",
                                       Args := [{ Name := str "instanceID",
                                                  Value := Buf.bytes (E.DeriveID instr []) },
                                                { Name := str "name",
                                                  Value := Buf.bytes (bytesOf (str "AR")) }] },
                      SignerCounter := [cl2.signerCounter] } : Instruction) =
                registryNaming E (E.DeriveID instr []) cl2.signerCounter from rfl]
          have hcr2 := Accounts_created E cl2 w2
            (registryNaming E (E.DeriveID instr []) cl2.signerCounter) rfl
          rcases hct2 : CreateTransaction E
            (registryNaming E (E.DeriveID instr []) cl2.signerCounter) w2 with ⟨r3, w3⟩
          rw [hct2] at hcr2
          have h2 := Accounts_trans E cl cl2 cl2 w w2 w3 _ _ _ 0 h1 hcr2
          have hsub2 : (submittedTransactions
              ([Event.created (registrySpawn pdarc cl.signerCounter)] ++ evs ++
                [Event.created (registryNaming E (E.DeriveID instr []) cl2.signerCounter)])).length
              ≤ 1 := by
            rw [submittedTransactions_append]
            simpa [submittedTransactions] using hsub1
          cases r3 with
          | error e =>
            refine ⟨_, _, h2, by omega, fun x hx => by simp at hx, ?_⟩
            intro e1 _
            omega
          | ok ctx2 =>
            obtain ⟨evs2, k2, hacc2, hnc2, hlen2, hok2, herr2⟩ :=
              Accounts_spawnTransaction E ctx2 cl2 w3
            rcases hst2 : spawnTransaction E ctx2 cl2 w3 with ⟨r4, cl4, w4⟩
            rw [hst2] at hacc2 hok2 herr2
            simp only [hst2]
            have h3 := Accounts_trans E cl cl2 cl4 w w3 w4 _ _ _ k2 h2 hacc2
            have hsplit : (submittedTransactions
                ([Event.created (registrySpawn pdarc cl.signerCounter)] ++ evs ++
                  [Event.created (registryNaming E (E.DeriveID instr []) cl2.signerCounter)] ++
                  evs2)).length = (submittedTransactions evs).length +
                    (submittedTransactions evs2).length := by
              simp [submittedTransactions_append, submittedTransactions]
            cases r4 with
            | error e =>
              refine ⟨_, _, h3, by omega, fun x hx => by simp at hx, ?_⟩
              intro e1 _
              rw [herr2 e rfl]
              omega
            | ok u =>
              obtain ⟨hk2, hl2, _⟩ := hok2 u rfl
              refine ⟨_, _, h3, by omega, ?_, fun e1 he => by simp at he⟩
              intro x _
              refine ⟨by omega, by omega, ?_⟩
              simp only [createdInstructions_append, hnc, hnc2, List.append_nil]
              simp only [createdInstructions, List.filterMap_cons, List.filterMap_nil,
                List.singleton_append, List.map_cons, List.map_nil]
              rw [hctr]
              rfl


theorem KeepsCount_one {σ : Type} (E : Ext σ) (instr : Instruction) (cl : Client)
    (w : World σ) (hi : instr.SignerCounter = [cl.signerCounter]) :
    (∀ e w1, CreateTransaction E instr w = (.error e, w1) →
      ∃ evs k, k ≤ 1 ∧ Accounts E cl w cl w1 evs k) ∧
    (∀ ctx w1, CreateTransaction E instr w = (.ok ctx, w1) →
      ∃ evs k, k ≤ 1 ∧
        Accounts E cl w (spawnTransaction E ctx cl w1).2.1 (spawnTransaction E ctx cl w1).2.2
          evs k) := by
  have hcr := Accounts_created E cl w instr hi
  constructor
  · intro e w1 hct
    rw [hct] at hcr
    exact ⟨_, 0, Nat.zero_le _, hcr⟩
  · intro ctx w1 hct
    rw [hct] at hcr
    obtain ⟨evs, k, hacc, _, _, hok, herr⟩ := Accounts_spawnTransaction E ctx cl w1
    refine ⟨_, _, ?_, Accounts_trans E cl cl _ w w1 _ _ _ 0 k hcr hacc⟩
    cases hr : (spawnTransaction E ctx cl w1).1 with
    | error e =>
      have hk := herr e hr
      omega
    | ok x =>
      have hk := (hok x hr).1
      omega

theorem SpawnNewAdminDarc_keeps {σ : Type} (E : Ext σ) (cl : Client) (w : World σ) :
    KeepsCount E cl w (SpawnNewAdminDarc E cl w) 1 := by
  unfold KeepsCount SpawnNewAdminDarc
  rcases hcd : createAdminDarc cl with ⟨d, oe⟩
  cases oe with
  | some e => exact ⟨[], 0, Nat.zero_le _, Accounts_refl E cl w⟩
  | none =>
    simp only []
    cases hp : ToProto E d with
    | error e => exact ⟨[], 0, Nat.zero_le _, Accounts_refl E cl w⟩
    | ok buf =>
      simp only []
      rw [show ({ InstanceID := NewInstanceID (GetBaseID E cl.genDarc),
                  Spawn := some { ContractID := ContractDarcID,
                                  Args := [{ Name := str "darc", Value := buf }] },
                  SignerCounter := [cl.signerCounter] } : Instruction) =
            projectDarcSpawn (GetBaseID E cl.genDarc) buf cl.signerCounter from rfl]
      obtain ⟨h1, h2⟩ := KeepsCount_one E
        (projectDarcSpawn (GetBaseID E cl.genDarc) buf cl.signerCounter) cl w rfl
      rcases hct : CreateTransaction E
        (projectDarcSpawn (GetBaseID E cl.genDarc) buf cl.signerCounter) w with ⟨r, w1⟩
      cases r with
      | error e => exact h1 e w1 hct
      | ok ctx =>
        have h := h2 ctx w1 hct
        rcases hst : spawnTransaction E ctx cl w1 with ⟨r2, cl2, w2⟩
        rw [hst] at h
        simp only [hst]
        cases r2 with
        | error e => exact h
        | ok x => exact h

theorem spawnDeferredInstance_keeps {σ : Type} (E : Ext σ) (buf : Buf) (adid : Bytes)
    (cl : Client) (w : World σ) :
    KeepsCount E cl w (spawnDeferredInstance E buf adid cl w) 1 := by
  unfold KeepsCount spawnDeferredInstance
  simp only []
  rw [show ({ InstanceID := NewInstanceID adid,
              Spawn := some { ContractID := ContractDeferredID,
                              Args := [{ Name := str "proposedTransaction", Value := buf },
                                       { Name := str "expireBlockIndex",
                                         Value := Buf.bytes (PutUint64 6000) }] },
              SignerCounter := [cl.signerCounter] } : Instruction) =
        deferredSpawn buf adid cl.signerCounter from rfl]
  obtain ⟨h1, h2⟩ := KeepsCount_one E (deferredSpawn buf adid cl.signerCounter) cl w rfl
  rcases hct : CreateTransaction E (deferredSpawn buf adid cl.signerCounter) w with ⟨r, w1⟩
  cases r with
  | error e => exact h1 e w1 hct
  | ok ctx =>
    have h := h2 ctx w1 hct
    rcases hst : spawnTransaction E ctx cl w1 with ⟨r2, cl2, w2⟩
    rw [hst] at h
    simp only [hst]
    cases r2 with
    | error e => exact h
    | ok sctx =>
      cases hf : firstInstruction sctx with
      | error e => simp only [hf]; exact h
      | ok instr => simp only [hf]; exact h

theorem AddSignatureToDefferedTx_keeps {σ : Type} (E : Ext σ) (instID : InstanceID)
    (cl : Client) (w : World σ) :
    KeepsCount E cl w (AddSignatureToDefferedTx E instID cl w) 1 := by
  have hnone : ∃ evs k, k ≤ 1 ∧ Accounts E cl w cl w evs k :=
    ⟨[], 0, Nat.zero_le _, Accounts_refl E cl w⟩
  unfold KeepsCount AddSignatureToDefferedTx
  cases hget : E.GetDeferredData w.ledger instID with
  | error e => exact hnone
  | ok result =>
    simp only []
    cases henc : Encode E 1 (Buf.identity (AuthKey cl).Identity) with
    | error e => exact hnone
    | ok identityBuf =>
      simp only []
      cases hfh : firstHash result.InstructionHashes with
      | error e => exact hnone
      | ok h0 =>
        simp only []
        cases hsg : E.Sign (AuthKey cl) h0 with
        | error e => exact hnone
        | ok sig =>
          simp only []
          rw [show ({ InstanceID := instID,
                      Invoke := some { ContractID := ContractDeferredID,
                                       Command := str "addProof",
                                       Args := [{ Name := str "identity", Value := identityBuf },
                                                { Name := str "signature", Value := sig },
                                                { Name := str "index",
                                                  Value := Buf.bytes (PutUint32 0) }] },
                      SignerCounter := [cl.signerCounter] } : Instruction) =
                proofInstruction instID identityBuf sig cl.signerCounter from rfl]
          obtain ⟨h1, h2⟩ := KeepsCount_one E
            (proofInstruction instID identityBuf sig cl.signerCounter) cl w rfl
          rcases hct : CreateTransaction E
            (proofInstruction instID identityBuf sig cl.signerCounter) w with ⟨r, w1⟩
          cases r with
          | error e => exact h1 e w1 hct
          | ok ctx =>
            have h := h2 ctx w1 hct
            rcases hst : spawnTransaction E ctx cl w1 with ⟨r2, cl2, w2⟩
            rw [hst] at h
            simp only [hst]
            cases r2 with
            | error e => exact h
            | ok x => exact h

theorem ExecDefferedTx_keeps {σ : Type} (E : Ext σ) (instID : InstanceID) (cl : Client)
    (w : World σ) : KeepsCount E cl w (ExecDefferedTx E instID cl w) 1 := by
  unfold KeepsCount ExecDefferedTx
  rw [show ({ InstanceID := instID,
              Invoke := some { ContractID := ContractDeferredID,
                               Command := str "execProposedTx", Args := [] },
              SignerCounter := [cl.signerCounter] } : Instruction) =
        execInstruction instID cl from rfl]
  obtain ⟨h1, h2⟩ := KeepsCount_one E (execInstruction instID cl) cl w rfl
  rcases hct : CreateTransaction E (execInstruction instID cl) w with ⟨r, w1⟩
  cases r with
  | error e => exact h1 e w1 hct
  | ok ctx =>
    have h := h2 ctx w1 hct
    rcases hst : spawnTransaction E ctx cl w1 with ⟨r2, cl2, w2⟩
    rw [hst] at h
    simp only [hst]
    cases r2 with
    | error e => exact h
    | ok x => exact h

theorem updateValue_keeps {σ : Type} (E : Ext σ) (v : Buf) (vcid : InstanceID) (cl : Client)
    (w : World σ) : KeepsCount E cl w (updateValue E v vcid cl w) 1 := by
  unfold KeepsCount updateValue
  rw [show ({ InstanceID := vcid,
              Invoke := some { ContractID := E.ContractValueID, Command := str "update",
                               Args := [{ Name := str "value", Value := v }] },
              SignerCounter := [cl.signerCounter] } : Instruction) =
        valueUpdate E vcid v cl.signerCounter from rfl]
  obtain ⟨h1, h2⟩ := KeepsCount_one E (valueUpdate E vcid v cl.signerCounter) cl w rfl
  rcases hct : CreateTransaction E (valueUpdate E vcid v cl.signerCounter) w with ⟨r, w1⟩
  cases r with
  | error e => exact h1 e w1 hct
  | ok ctx =>
    have h := h2 ctx w1 hct
    rcases hst : spawnTransaction E ctx cl w1 with ⟨r2, cl2, w2⟩
    rw [hst] at h
    simp only [hst]
    cases r2 with
    | error e => exact h
    | ok x => exact h


theorem CreateNewProject_accounts {σ : Type} (E : Ext σ) (adid : Bytes) (pname : GoString)
    (cl : Client) (w : World σ) :
    ∃ evs k,
      Accounts E cl w (CreateNewProject E adid pname cl w).2.1
        (CreateNewProject E adid pname cl w).2.2 evs k ∧
      (submittedTransactions evs).length ≤ 3 ∧
      (∀ x, (CreateNewProject E adid pname cl w).1 = .ok x →
        k = 3 ∧ (submittedTransactions evs).length = 3 ∧
        (createdInstructions evs).map (fun i => i.SignerCounter) =
          [[cl.signerCounter], [(cl.signerCounter + 1) % 2 ^ 64],
            [((cl.signerCounter + 1) % 2 ^ 64 + 1) % 2 ^ 64]]) ∧
      (∀ e, (CreateNewProject E adid pname cl w).1 = .error e → k ≤ 2) := by
  obtain ⟨evs1, k1, hacc1, hlen1, hok1, herr1⟩ := createProjectDarc_accounts E pname adid cl w
  unfold CreateNewProject
  rcases hpd : createProjectDarc E pname adid cl w with ⟨r1, cl1, w1⟩
  rw [hpd] at hacc1 hok1 herr1
  cases r1 with
  | error e =>
    refine ⟨evs1, k1, hacc1, by omega, fun x hx => by simp at hx, ?_⟩
    intro e1 _
    have hk := herr1 e rfl
    omega
  | ok pd =>
    obtain ⟨hk1, hl1, hc1, hctr1⟩ := hok1 pd rfl
    simp only at hctr1
    obtain ⟨evs2, k2, hacc2, hlen2, hok2, herr2⟩ := createAccessRight_accounts E adid pd cl1 w1
    simp only []
    rcases hca : createAccessRight E adid pd cl1 w1 with ⟨r2, cl2, w2⟩
    rw [hca] at hacc2 hok2 herr2
    have hall := Accounts_trans E cl cl1 cl2 w w1 w2 evs1 evs2 k1 k2 hacc1 hacc2
    have hlen : (submittedTransactions (evs1 ++ evs2)).length =
        (submittedTransactions evs1).length + (submittedTransactions evs2).length := by
      rw [submittedTransactions_append, List.length_append]
    cases r2 with
    | error e =>
      refine ⟨_, _, hall, by omega, fun x hx => by simp at hx, ?_⟩
      intro e1 _
      have hk := herr2 e rfl
      omega
    | ok u =>
      obtain ⟨hk2, hl2, hc2⟩ := hok2 u rfl
      refine ⟨_, _, hall, by omega, ?_, fun e1 he => by simp at he⟩
      intro x _
      refine ⟨by omega, by omega, ?_⟩
      rw [createdInstructions_append, List.map_append, hc1, hc2, hctr1]
      rfl

/-- C21. Counter values are consecutive. The events `CreateNewProject` adds to
the log, replayed from the ledger and the counter `c` it started with, end in
the ledger and the counter it leaves: every instruction it built carried the
counter held at that moment, and the counter has moved, in `uint64` arithmetic,
by the number of its transactions the ledger committed, which is at most three.
When it returns no error it submitted exactly three transactions, all
committed, built with the counters `c`, `c+1` and `c+2`, and leaves the counter
at `c+3`; when it returns an error at most two were committed. The additions are
those of `uint64`, exact whenever `c + 3 < 2^64`. Every other operation that
submits a transaction keeps the count in the same way, with at most one
commit. -/
theorem counter_values_consecutive {σ : Type} (E : Ext σ) (adid : Bytes) (pname : GoString)
    (cl : Client) (w : World σ) (buf v : Buf) (instID vcid : InstanceID)
    (hc : cl.signerCounter < 2 ^ 64) :
    ((CreateNewProject E adid pname cl w).2.2.log = w.log ++ projectEvents E adid pname cl w ∧
      (projectAudit E adid pname cl w).carried = true ∧
      (projectAudit E adid pname cl w).ledger = (CreateNewProject E adid pname cl w).2.2.ledger ∧
      (projectAudit E adid pname cl w).counter =
        (CreateNewProject E adid pname cl w).2.1.signerCounter ∧
      (CreateNewProject E adid pname cl w).2.1.signerCounter =
        (cl.signerCounter + (projectAudit E adid pname cl w).commits) % 2 ^ 64 ∧
      (projectAudit E adid pname cl w).commits ≤ 3 ∧
      (submittedTransactions (projectEvents E adid pname cl w)).length ≤ 3) ∧
    (∀ pd, (CreateNewProject E adid pname cl w).1 = .ok pd →
      (submittedTransactions (projectEvents E adid pname cl w)).length = 3 ∧
      (projectAudit E adid pname cl w).commits = 3 ∧
      (createdInstructions (projectEvents E adid pname cl w)).map (fun i => i.SignerCounter) =
        [[cl.signerCounter], [(cl.signerCounter + 1) % 2 ^ 64],
          [(cl.signerCounter + 2) % 2 ^ 64]] ∧
      (CreateNewProject E adid pname cl w).2.1.signerCounter =
        (cl.signerCounter + 3) % 2 ^ 64) ∧
    (∀ e, (CreateNewProject E adid pname cl w).1 = .error e →
      (projectAudit E adid pname cl w).commits ≤ 2) ∧
    (cl.signerCounter + 3 < 2 ^ 64 →
      (CreateNewProject E adid pname cl w).2.1.signerCounter =
        cl.signerCounter + (projectAudit E adid pname cl w).commits ∧
      ∀ pd, (CreateNewProject E adid pname cl w).1 = .ok pd →
        (createdInstructions (projectEvents E adid pname cl w)).map (fun i => i.SignerCounter) =
          [[cl.signerCounter], [cl.signerCounter + 1], [cl.signerCounter + 2]] ∧
        (CreateNewProject E adid pname cl w).2.1.signerCounter = cl.signerCounter + 3) ∧
    (KeepsCount E cl w (SpawnNewAdminDarc E cl w) 1 ∧
      KeepsCount E cl w (spawnDeferredInstance E buf adid cl w) 1 ∧
      KeepsCount E cl w (AddSignatureToDefferedTx E instID cl w) 1 ∧
      KeepsCount E cl w (ExecDefferedTx E instID cl w) 1 ∧
      KeepsCount E cl w (updateValue E v vcid cl w) 1) := by
  obtain ⟨evs, k, hacc, hlen, hok, herr⟩ := CreateNewProject_accounts E adid pname cl w
  have hev : projectEvents E adid pname cl w = evs := by
    unfold projectEvents eventsSince
    rw [hacc.1, List.drop_left]
  have haud : projectAudit E adid pname cl w =
      ⟨(CreateNewProject E adid pname cl w).2.2.ledger,
        (CreateNewProject E adid pname cl w).2.1.signerCounter, k, true⟩ := by
    unfold projectAudit
    rw [hev]
    simpa using hacc.2 0
  have hctr := Accounts_counter E cl _ w _ evs k hacc hc
  have hk3 : k ≤ 3 := by
    cases hr : (CreateNewProject E adid pname cl w).1 with
    | error e => have := herr e hr; omega
    | ok x => have := (hok x hr).1; omega
  rw [hev, haud]
  refine ⟨⟨hacc.1, rfl, rfl, rfl, hctr, hk3, hlen⟩, ?_, ?_, ?_,
    ⟨SpawnNewAdminDarc_keeps E cl w, spawnDeferredInstance_keeps E buf adid cl w,
      AddSignatureToDefferedTx_keeps E instID cl w, ExecDefferedTx_keeps E instID cl w,
      updateValue_keeps E v vcid cl w⟩⟩
  · intro pd hpd
    obtain ⟨hk, hl, hcs⟩ := hok pd hpd
    refine ⟨hl, hk, ?_, by rw [hctr, hk]⟩
    rw [hcs]
    have h2 : ((cl.signerCounter + 1) % 2 ^ 64 + 1) % 2 ^ 64 =
        (cl.signerCounter + 2) % 2 ^ 64 := by omega
    rw [h2]
  · intro e he
    exact herr e he
  · intro hlt
    have h0 : (cl.signerCounter + k) % 2 ^ 64 = cl.signerCounter + k :=
      Nat.mod_eq_of_lt (by omega)
    refine ⟨by rw [hctr, h0], ?_⟩
    intro pd hpd
    obtain ⟨hk, hl, hcs⟩ := hok pd hpd
    have h1 : (cl.signerCounter + 1) % 2 ^ 64 = cl.signerCounter + 1 :=
      Nat.mod_eq_of_lt (by omega)
    have h2 : (cl.signerCounter + 1 + 1) % 2 ^ 64 = cl.signerCounter + 2 :=
      Nat.mod_eq_of_lt (by omega)
    refine ⟨?_, by rw [hctr, h0, hk]⟩
    rw [hcs, h1, h2]


/-- Witness of C21. On the ledger where administrator A alone guards its admin
darc, client A holding the counter 2 creates a project: the call succeeds, its
three instructions were built with the counters 2, 3 and 4, and the counter is
left at 5. On the sample ledger, whose admin darc needs A and B to spawn a darc,
the first transaction of client A is rejected: nothing is committed and the
counter stays at 1. -/
theorem counter_values_consecutive_witness :
    ((CreateNewProject ledgerExt (Ledger.baseID soleAdminDarc) (str "Project A") (clientAAt 2)
        soleAdminWorld).1.toBool = true ∧
      (createdInstructions (projectEvents ledgerExt (Ledger.baseID soleAdminDarc)
        (str "Project A") (clientAAt 2) soleAdminWorld)).map (fun i => i.SignerCounter) =
        [[2], [3], [4]] ∧
      (CreateNewProject ledgerExt (Ledger.baseID soleAdminDarc) (str "Project A") (clientAAt 2)
        soleAdminWorld).2.1.signerCounter = 5 ∧
      (submittedTransactions (projectEvents ledgerExt (Ledger.baseID soleAdminDarc)
        (str "Project A") (clientAAt 2) soleAdminWorld)).map
        (fun t => t.Instructions.map (fun i => i.SignerCounter)) = [[[2]], [[3]], [[4]]]) ∧
    ((CreateNewProject ledgerExt (Ledger.baseID sampleAdminDarc) (str "Project B") clientA
        sampleWorld).1.toBool = false ∧
      (projectAudit ledgerExt (Ledger.baseID sampleAdminDarc) (str "Project B") clientA
        sampleWorld).commits = 0 ∧
      (CreateNewProject ledgerExt (Ledger.baseID sampleAdminDarc) (str "Project B") clientA
        sampleWorld).2.1.signerCounter =
        1 + (projectAudit ledgerExt (Ledger.baseID sampleAdminDarc) (str "Project B") clientA
          sampleWorld).commits) :=
  ⟨⟨rfl,
    (((counter_values_consecutive ledgerExt (Ledger.baseID soleAdminDarc) (str "Project A")
        (clientAAt 2) soleAdminWorld (Buf.tx []) (Buf.tx []) [] [] (by decide)).2.2.2.1
        (by decide)).2 _ rfl).1,
    (((counter_values_consecutive ledgerExt (Ledger.baseID soleAdminDarc) (str "Project A")
        (clientAAt 2) soleAdminWorld (Buf.tx []) (Buf.tx []) [] [] (by decide)).2.2.2.1
        (by decide)).2 _ rfl).2,
    rfl⟩,
   ⟨rfl, rfl,
    ((counter_values_consecutive ledgerExt (Ledger.baseID sampleAdminDarc) (str "Project B")
        clientA sampleWorld (Buf.tx []) (Buf.tx []) [] [] (by decide)).2.2.2.1
        (by decide)).1⟩⟩


/-! ## Removing the only administrator -/

theorem Errorf_ne_errorsNew (m m1 : String) (e : Error) (h : m ≠ m1) :
    Errorf m e ≠ errorsNew m1 := by
  cases e with
  | err chain =>
    intro heq
    simp only [Errorf, errorsNew, Error.err.injEq, List.cons.injEq] at heq
    exact h heq.1
  | panic what =>
    intro heq
    simp [Errorf, errorsNew] at heq

theorem proposeEvolution_not_local {σ : Type} (E : Ext σ) (slc : List GoString)
    (adminDarc : Darc) (adid : Bytes) (cl : Client) (w : World σ) :
    (proposeEvolution E slc adminDarc adid cl w).1 ≠
      .error (errorsNew "The adminID doesn't exist in the admin darc") := by
  unfold proposeEvolution
  rcases hev : evolveAdminDarc E slc adminDarc cl w with ⟨r, w1⟩
  cases r with
  | error e =>
    simp only [ne_eq, Except.error.injEq]
    exact Errorf_ne_errorsNew _ _ e (by decide)
  | ok tx =>
    simp only [addDeferredTransaction]
    cases henc : Encode E 1 (Buf.tx tx.Instructions) with
    | error e =>
      simp only [ne_eq, Except.error.injEq]
      exact Errorf_ne_errorsNew _ _ e (by decide)
    | ok txBuf =>
      simp only []
      rcases hsd : spawnDeferredInstance E txBuf adid cl w1 with ⟨r2, cl1, w2⟩
      cases r2 with
      | error e =>
        simp only [ne_eq, Except.error.injEq]
        exact Errorf_ne_errorsNew _ _ e (by decide)
      | ok ctxID => simp

theorem evolveAdminDarc_rules {σ : Type} (E : Ext σ)
    (hperm : E.rangeAdminActions.Perm adminActions) (L : List GoString) (old : Darc)
    (cl : Client) (w w1 : World σ) (tx : ClientTransaction)
    (h : evolveAdminDarc E L old cl w = (.ok tx, w1)) :
    ∃ proposed : Darc,
      tx.Instructions = [evolveInstruction (NewInstanceID (GetBaseID E old)) proposed] ∧
      ∀ k v, (k, v) ∈ adminActions →
        [createMultisigRuleExpression L, InitOrExpr L][v]? =
          some (Rules.Get proposed.Rules k) := by
  unfold evolveAdminDarc at h
  cases hupd : updateAdminRules E old [createMultisigRuleExpression L, InitOrExpr L] with
  | error e => simp [hupd] at h
  | ok d1 =>
    have hget := updateAdminRules_get E hperm old d1 _ _ hupd
    simp only [hupd] at h
    cases hev : EvolveFrom E d1 old with
    | error e => simp [hev] at h
    | ok d2 =>
      have hd2 : d2.Rules = d1.Rules := by
        unfold EvolveFrom at hev
        cases hee : E.EvolveFromErr d1 old with
        | some e => simp [hee] at hev
        | none =>
          simp only [hee, Except.ok.injEq] at hev
          rw [← hev]
      simp only [hev] at h
      cases hmk : MakeEvolveRequest E d2 (AuthKey cl) with
      | error e => simp [hmk] at h
      | ok darc2Buf =>
        have hb : darc2Buf = Buf.darc d2 := by
          unfold MakeEvolveRequest at hmk
          cases hme : E.MakeEvolveRequestErr d2 (AuthKey cl) with
          | some e => simp [hme] at hmk
          | none =>
            simp only [hme, Except.ok.injEq] at hmk
            exact hmk.symm
        simp only [hmk] at h
        rcases hct : CreateTransaction E
            { InstanceID := NewInstanceID (GetBaseID E old),
              Invoke := some { ContractID := ContractDarcID, Command := str "evolve",
                               Args := [{ Name := str "darc", Value := darc2Buf }] } } w
          with ⟨r, w2⟩
        rw [hct] at h
        cases r with
        | error e => simp at h
        | ok ctx =>
          simp only [Prod.mk.injEq, Except.ok.injEq] at h
          have hctx : ctx.Instructions =
              [{ InstanceID := NewInstanceID (GetBaseID E old),
                 Invoke := some { ContractID := ContractDarcID, Command := str "evolve",
                                  Args := [{ Name := str "darc", Value := darc2Buf }] } }] := by
            unfold CreateTransaction at hct
            cases hce : E.CreateTransactionErr w.ledger
                [{ InstanceID := NewInstanceID (GetBaseID E old),
                   Invoke := some { ContractID := ContractDarcID, Command := str "evolve",
                                    Args := [{ Name := str "darc", Value := darc2Buf }] } }] with
            | some e => simp [hce] at hct
            | none =>
              simp only [hce, Prod.mk.injEq, Except.ok.injEq] at hct
              rw [← hct.1]
          refine ⟨d2, ?_, ?_⟩
          · rw [← h.1, hctx, hb]
            rfl
          · intro k v hkv
            rw [hd2]
            exact hget k v hkv


/-- C22. Removing the sole admin is not rejected locally: when the admin darc
is read from the ledger and its evolution expression parses to the one-element
list holding `a`, `RemoveAdminFromAdminDarc` of `a` hands the empty voter list to
`evolveAdminDarc` and the transaction it returns to `addDeferredTransaction`; it
does not return the error "The adminID doesn't exist in the admin darc". The
unanimous and the any-of expression over the empty list are both the empty
expression, and whenever `evolveAdminDarc` returns a transaction, the proposed
darc in it guards "invoke:darc.evolve", "spawn:darc", "spawn:deferred",
"invoke:deferred.addProof" and "invoke:deferred.execProposedTx" with the empty
expression. -/
theorem remove_sole_admin_not_rejected {σ : Type} (E : Ext σ)
    (hperm : E.rangeAdminActions.Perm adminActions) (adid : Bytes) (a : Identity)
    (cl : Client) (w : World σ) (adminDarc : Darc)
    (hdarc : E.GetDarcByID w.ledger adid = .ok adminDarc)
    (hsole : splitAndTrim (Rules.GetEvolutionExpr adminDarc.Rules) = [a.String]) :
    RemoveAdminFromAdminDarc E adid a cl w = proposeEvolution E [] adminDarc adid cl w ∧
    (RemoveAdminFromAdminDarc E adid a cl w).1 ≠
      .error (errorsNew "The adminID doesn't exist in the admin darc") ∧
    (createMultisigRuleExpression [] = str "" ∧ InitOrExpr [] = str "") ∧
    (∀ tx w1, evolveAdminDarc E [] adminDarc cl w = (.ok tx, w1) →
      ∃ proposed : Darc,
        tx.Instructions =
          [evolveInstruction (NewInstanceID (GetBaseID E adminDarc)) proposed] ∧
        Rules.Get proposed.Rules (str "invoke:darc.evolve") = str "" ∧
        Rules.Get proposed.Rules (str "spawn:darc") = str "" ∧
        Rules.Get proposed.Rules (str "spawn:deferred") = str "" ∧
        Rules.Get proposed.Rules (str "invoke:deferred.addProof") = str "" ∧
        Rules.Get proposed.Rules (str "invoke:deferred.execProposedTx") = str "") := by
  have hidx : IndexOf a.String (splitAndTrim (Rules.GetEvolutionExpr adminDarc.Rules)) =
      ((0 : Nat) : Int) := by
    rw [hsole]
    exact IndexOf_eq_of_first _ _ 0 (by simp) (fun j hj => absurd hj (Nat.not_lt_zero j))
  have heq : RemoveAdminFromAdminDarc E adid a cl w =
      proposeEvolution E [] adminDarc adid cl w := by
    have h := RemoveAdminFromAdminDarc_at E adid a cl w adminDarc 0 hdarc hidx
    rw [hsole] at h
    simpa using h
  refine ⟨heq, ?_, ⟨rfl, rfl⟩, ?_⟩
  · rw [heq]
    exact proposeEvolution_not_local E [] adminDarc adid cl w
  · intro tx w1 h
    obtain ⟨proposed, htx, hget⟩ := evolveAdminDarc_rules E hperm [] adminDarc cl w w1 tx h
    refine ⟨proposed, htx, ?_, ?_, ?_, ?_, ?_⟩
    · have := hget (str "invoke:darc.evolve") 0 (by decide)
      simpa using this.symm
    · have := hget (str "spawn:darc") 0 (by decide)
      simpa using this.symm
    · have := hget (str "spawn:deferred") 1 (by decide)
      simpa using this.symm
    · have := hget (str "invoke:deferred.addProof") 1 (by decide)
      simpa using this.symm
    · have := hget (str "invoke:deferred.execProposedTx") 1 (by decide)
      simpa using this.symm

/-- Witness of C22. On the ledger where administrator A alone guards its admin
darc, client A removes A: the call returns no error, the voter list handed on
is empty, and the darc of the stored proposal guards the evolution and the
execution of deferred transactions with the empty expression. -/
theorem remove_sole_admin_not_rejected_witness :
    splitAndTrim (Rules.GetEvolutionExpr soleAdminDarc.Rules) = [str "ed25519:A"] ∧
      RemoveAdminFromAdminDarc ledgerExt (Ledger.baseID soleAdminDarc) adminA.Identity
          (clientAAt 2) soleAdminWorld =
        proposeEvolution ledgerExt [] soleAdminDarc (Ledger.baseID soleAdminDarc) (clientAAt 2)
          soleAdminWorld ∧
      (RemoveAdminFromAdminDarc ledgerExt (Ledger.baseID soleAdminDarc) adminA.Identity
          (clientAAt 2) soleAdminWorld).1.toBool = true ∧
      proposedRules (RemoveAdminFromAdminDarc ledgerExt (Ledger.baseID soleAdminDarc)
          adminA.Identity (clientAAt 2) soleAdminWorld).2.2.ledger (str "invoke:darc.evolve") =
        [str ""] ∧
      proposedRules (RemoveAdminFromAdminDarc ledgerExt (Ledger.baseID soleAdminDarc)
          adminA.Identity (clientAAt 2) soleAdminWorld).2.2.ledger
          (str "invoke:deferred.execProposedTx") = [str ""] :=
  ⟨rfl,
   (remove_sole_admin_not_rejected ledgerExt (List.Perm.refl _) (Ledger.baseID soleAdminDarc)
      adminA.Identity (clientAAt 2) soleAdminWorld soleAdminDarc rfl rfl).1,
   rfl, rfl, rfl⟩


end Medchain
